import Mathlib

/-!
# Pipeline orchestrator: condition evaluator, driver, abort and reconciliation

A shallow embedding of `provider/jenkins/jenkins_provider.go` and of the
helpers of `server/service/pipeline_service.go` it calls.

Modelling conventions
* A Go `string` is a list of characters (`Str`); string literals are written
  `"...".toList`.
* A Go `map[string]string` is an association list with distinct keys. The
  order of the list is the order in which `range` visits the map; statements
  that must not depend on that order quantify over every permutation. Go
  chooses the order afresh for each loop: the two loops that one call of
  `EvaluateCondition` runs take theirs from `World.rangeOrder`, one each.
* A nil-able pointer is an `Option`; the elements of the stage and step
  slices are non-nil.
* Go `error` values are `Err.error message`; a runtime panic (index out of
  range) is `Err.panic`, and it propagates like the errors do in the driver.
* Mutation through pointers becomes explicit state passing on `Run`, which
  carries the activity, the number of clock readings made so far and the
  trace of backend calls.
* `int64` arithmetic wraps (`wrap64`).
* The Jenkins backend is a record of answers by job name (`Jenkins`), held
  fixed during one call; the loops of `SyncActivity` are functions on the
  fields they write (`StageHead`, `ActivityHead`) with an explicit `Flow` for
  `continue`, `break` and `return`.
* `RunPipeline` and `RerunActivity` list the calls they make (`Action`); the
  answers of the calls that leave the sources are a record (`Services`).
-/

namespace Pipeline

/-- Go strings. -/
abbrev Str := List Char

/-- Modelled from the spec: the status constants of package `model`
(`ActivityStepWaiting`, `ActivityStageSkip`, `ActivitySuccess`, ...), which is
not part of the sources; the spec lists the values Waiting, Pending, Building,
Success, Fail, Skip, Abort. Step, stage and activity statuses share the
spelling of their values, as the literal `"Waiting"` in `ToActivityStage`
shows. `Unset` is the empty string, the zero value of the field. -/
inductive Status where
  | Unset
  | Waiting
  | Pending
  | Building
  | Success
  | Fail
  | Skip
  | Abort
  deriving DecidableEq, Repr

/-- Go errors and panics. -/
inductive Err where
  | error (message : Str)
  | panic (message : Str)
  deriving DecidableEq, Repr

/-- Type `model.PipelineConditions`. -/
structure PipelineConditions where
  All : List Str := []
  Any : List Str := []
  deriving DecidableEq, Repr

/-- Type `model.Step` (the fields the driver reads). -/
structure Step where
  Name : Str := []
  Repository : Str := []
  Branch : Str := []
  Conditions : Option PipelineConditions := none
  deriving DecidableEq, Repr

/-- Type `model.Stage`. -/
structure Stage where
  Name : Str := []
  NeedApprove : Bool := false
  Parallel : Bool := false
  Conditions : Option PipelineConditions := none
  Steps : List Step := []
  deriving DecidableEq, Repr

/-- Type `model.Pipeline` (the fields the driver reads). -/
structure PipelineDef where
  Id : Str := []
  Name : Str := []
  RunCount : Int := 0
  KeepWorkspace : Bool := false
  Parameters : List Str := []
  Stages : List Stage := []
  deriving DecidableEq, Repr

/-- Type `model.ActivityStep`. -/
structure ActivityStep where
  Name : Str := []
  Status : Status := Status.Unset
  StartTS : Int := 0
  Duration : Int := 0
  deriving DecidableEq, Repr

/-- Type `model.ActivityStage`. -/
structure ActivityStage where
  Name : Str := []
  NeedApproval : Bool := false
  Status : Status := Status.Unset
  StartTS : Int := 0
  Duration : Int := 0
  ActivitySteps : List ActivityStep := []
  deriving DecidableEq, Repr

/-- Type `model.Activity`. `EnvVars` is listed in the order `range` visits it. -/
structure Activity where
  Id : Str := []
  Pipeline : PipelineDef := {}
  RunSequence : Int := 0
  Status : Status := Status.Unset
  StartTS : Int := 0
  StopTS : Int := 0
  NodeName : Str := []
  CommitInfo : Str := []
  TriggerType : Str := []
  EnvVars : List (Str × Str) := []
  PendingStage : Int := 0
  ActivityStages : List ActivityStage := []
  deriving DecidableEq, Repr

/-! ## Strings -/

/-- Scan of `strings.Replace(s, old, new, -1)`: `skip` characters of a match
are still to be dropped; otherwise a match of `old` at the current position is
replaced by `new` and the scan resumes after it (leftmost, non-overlapping).
For an empty `old` Go inserts `new` before every character and at the end. -/
def replaceFrom (old new : Str) : Nat → Str → Str
  | _, [] => if old = [] then new else []
  | k + 1, _ :: s => replaceFrom old new k s
  | 0, c :: s =>
    if old.isPrefixOf (c :: s) then new ++ replaceFrom old new (old.length - 1) s
    else c :: replaceFrom old new 0 s

/-- Go `strings.Replace(s, old, new, -1)`. -/
def Replace (s old new : Str) : Str :=
  if old = [] then new ++ s.flatMap (fun c => c :: new) else replaceFrom old new 0 s

/-- Go map read `m[key]`: the empty string when the key is absent. -/
def mapGet (m : List (Str × Str)) (key : Str) : Str :=
  (m.lookup key).getD []

/-- One round of the loop of `SubstituteVar`, for the entry `(k, v)`. -/
def substituteOne (text : Str) (kv : Str × Str) : Str :=
  let text := Replace text ('$' :: kv.1 ++ [' ']) kv.2
  let text := Replace text ('$' :: kv.1 ++ ['\n']) kv.2
  Replace text ('$' :: '{' :: kv.1 ++ ['}']) kv.2

/-- Function `SubstituteVar`: for every entry of `EnvVars`, in iteration
order, the three replacements. -/
def SubstituteVar (activity : Activity) (text : Str) : Str :=
  activity.EnvVars.foldl substituteOne text

/-! ## What the provider reads from outside -/

/-- Calls that leave the process, in the order they are made. -/
inductive Event where
  | BuildJob (stageOrdinal stepOrdinal : Int) (jobName : Str)
  | OnActivityCompelte (activityId : Str)
  deriving DecidableEq, Repr

/-- What the provider reads from outside: the clock, the random source, the
identifier generator, the answers of the Jenkins client and the order of the
`range` loops over a map, none of which is part of the sources.
* `UnixNano n` is `time.Now().UnixNano()` at the `n`-th reading of the clock;
* `Intn seed n` is `rand.New(rand.NewSource(seed)).Intn(n)`;
* `GetActiveNodesName` is the answer of the call of that name, an error
  message or the list of nodes;
* `uuid` is `uuid.Rand().Hex()`;
* `BuildJob history job` is the error of `BuildJob(job, ...)` made after the
  calls of `history`, `none` when it succeeds;
* `rangeOrder condition second m` lists the entries of the map `m` in the order
  in which a `range` loop visits them, an order that Go chooses afresh for each
  loop: during the evaluation of `condition`, the loop of the first call of
  `SubstituteVar` (for the key) when `second` is false and the loop of its
  second call (for the value) when `second` is true. -/
structure World where
  UnixNano : Nat → Int
  Intn : Int → Nat → Nat
  GetActiveNodesName : Except Str (List Str)
  uuid : Str
  BuildJob : List Event → Str → Option Str
  rangeOrder : Str → Bool → List (Str × Str) → List (Str × Str) := fun _ _ m => m

/-! ## Condition evaluator -/

/-- Attempt of the pattern `(?P<Key>.*?)SEP(?P<Value>.*)` at the start of the
text: the lazy group takes one more character other than a newline until `sep`
matches; the answer is the key and the text after `sep`. -/
def lazyKey (sep : Str) : Str → Option (Str × Str)
  | [] => if sep.isPrefixOf [] then some ([], []) else none
  | c :: t =>
    if sep.isPrefixOf (c :: t) then some ([], (c :: t).drop sep.length)
    else if c = '\n' then none
    else match lazyKey sep t with
      | some (k, r) => some (c :: k, r)
      | none => none

/-- Leftmost match of `(?P<Key>.*?)SEP(?P<Value>.*)` in the text: the start
positions are tried from the left, and the greedy last group takes every
character up to the next newline. -/
def findSubmatch (sep : Str) : Str → Option (Str × Str)
  | [] =>
    match lazyKey sep [] with
    | some (k, r) => some (k, r.takeWhile (fun c => c ≠ '\n'))
    | none => none
  | c :: t =>
    match lazyKey sep (c :: t) with
    | some (k, r) => some (k, r.takeWhile (fun c => c ≠ '\n'))
    | none => findSubmatch sep t

/-- Modelled from the spec: `util.GetParams` (package `util` is not part of
the sources) applied to the regular expression `(?P<Key>.*?)SEP(?P<Value>.*)`,
returning the named groups of the leftmost match as the pair
`(m["Key"], m["Value"])`; both are empty when nothing matches. -/
def GetParams (sep : Str) (condition : Str) : Str × Str :=
  (findSubmatch sep condition).getD ([], [])

/-- The activity as one `range` loop over `EnvVars` sees it during the
evaluation of `condition`: the map is listed in the order in which that loop
visits it. The two calls of `SubstituteVar` that `EvaluateCondition` makes run
one loop each, and the two loops can visit the map in different orders. -/
def visited (w : World) (condition : Str) (second : Bool) (activity : Activity) : Activity :=
  { activity with EnvVars := w.rangeOrder condition second activity.EnvVars }

/-- Function `EvaluateCondition`. Each call of `SubstituteVar` ranges over the
map in an order of its own (`visited`); the read `activity.EnvVars[key]` does
not depend on an order. -/
def EvaluateCondition (w : World) (activity : Activity) (condition : Str) :
    Bool × Option Err :=
  let m := GetParams "!=".toList condition
  if m.1 ≠ [] ∧ m.2 ≠ [] then
    let key := SubstituteVar (visited w condition false activity) m.1
    let val := SubstituteVar (visited w condition true activity) m.2
    let envVal := mapGet activity.EnvVars key
    if envVal ≠ val then (true, none) else (false, none)
  else
    let m := GetParams "=".toList condition
    if m.1 ≠ [] ∧ m.2 ≠ [] then
      let key := SubstituteVar (visited w condition false activity) m.1
      let val := SubstituteVar (visited w condition true activity) m.2
      let envVal := mapGet activity.EnvVars key
      if envVal = val then (true, none) else (false, none)
    else (false, some (Err.error ("cannot parse condition:".toList ++ condition)))

/-- The loop over `condition.All` of `EvaluateConditions`. -/
def evalAll (w : World) (activity : Activity) : List Str → Bool × Option Err
  | [] => (true, none)
  | c :: cs =>
    match EvaluateCondition w activity c with
    | (_, some err) => (false, some err)
    | (false, none) => (false, none)
    | (true, none) => evalAll w activity cs

/-- The loop over `condition.Any` of `EvaluateConditions`. -/
def evalAny (w : World) (activity : Activity) : List Str → Bool × Option Err
  | [] => (false, none)
  | c :: cs =>
    match EvaluateCondition w activity c with
    | (_, some err) => (false, some err)
    | (true, none) => (true, none)
    | (false, none) => evalAny w activity cs

/-- Function `EvaluateConditions`. -/
def EvaluateConditions (w : World) (activity : Activity)
    (condition : Option PipelineConditions) : Bool × Option Err :=
  match condition with
  | none => (false, some (Err.error "Nil condition".toList))
  | some c =>
    if c.All.length = 0 ∧ c.Any.length = 0 then (false, some (Err.error "Nil condition".toList))
    else if c.All.length > 0 then evalAll w activity c.All
    else evalAny w activity c.Any

/-- Function `service.HasStepCondition`. -/
def HasStepCondition (s : Step) : Bool :=
  match s.Conditions with
  | none => false
  | some c => decide (c.All.length > 0 ∨ c.Any.length > 0)

/-- Function `service.HasStageCondition`. -/
def HasStageCondition (s : Stage) : Bool :=
  match s.Conditions with
  | none => false
  | some c => decide (c.All.length > 0 ∨ c.Any.length > 0)

/-! ## Driver -/

/-- Wrap-around of `int64` (and of `int` on a 64-bit platform). -/
def wrap64 (x : Int) : Int := (x + 2 ^ 63) % 2 ^ 64 - 2 ^ 63

/-- Go `strconv.Itoa`. -/
def Itoa (n : Int) : Str :=
  if n < 0 then '-' :: Nat.toDigits 10 n.natAbs else Nat.toDigits 10 n.toNat

/-- Go slice read `l[i]`: `none` is the index-out-of-range panic. -/
def index? {α : Type} (l : List α) (i : Int) : Option α :=
  if i < 0 then none else l[i.toNat]?

/-- Go write through `l[i]`, the element being changed by `f`: `none` is the
index-out-of-range panic. -/
def updateAt {α : Type} (l : List α) (i : Int) (f : α → α) : Option (List α) :=
  match index? l i with
  | none => none
  | some x => some (l.set i.toNat (f x))

/-- The expression `time.Now().UnixNano() / int64(time.Millisecond)` at the
`n`-th reading of the clock. -/
def nowMs (w : World) (n : Nat) : Int := Int.tdiv (w.UnixNano n) 1000000

/-- State threaded through the driver: the activity, the number of clock
readings made and the calls made so far. -/
structure Run where
  activity : Activity
  clock : Nat := 0
  trace : List Event := []
  deriving DecidableEq, Repr

/-- Function `getNodeNameToRun`; the second component is the number of clock
readings afterwards. -/
def getNodeNameToRun (w : World) (clock : Nat) : (Str × Option Err) × Nat :=
  match w.GetActiveNodesName with
  | Except.error e =>
    (([], some (Err.error ("fail to find an active node to work: ".toList ++ e))), clock)
  | Except.ok nodes =>
    if nodes.length = 0 then
      (([], some (Err.error ("no active worker node available, please add at least one " ++
        "slave node or check if it is ready").toList)), clock)
    else
      let index := w.Intn (w.UnixNano clock) nodes.length % nodes.length
      ((nodes.getD index [], none), clock + 1)

/-- Function `ToActivityStage`. -/
def ToActivityStage (stage : Stage) : ActivityStage :=
  let actiStage : ActivityStage :=
    { Name := stage.Name, NeedApproval := stage.NeedApprove, Status := Status.Waiting,
      ActivitySteps := [] }
  stage.Steps.foldl
    (fun actiStage step =>
      { actiStage with
        ActivitySteps := actiStage.ActivitySteps ++
          [{ Name := step.Name, Status := Status.Waiting }] })
    actiStage

/-- Function `ToActivity`; the second component is the number of clock
readings afterwards. -/
def ToActivity (w : World) (clock : Nat) (p : PipelineDef) : (Activity × Option Err) × Nat :=
  match getNodeNameToRun w clock with
  | ((_, some err), clock) => (({}, some err), clock)
  | ((nodeName, none), clock) =>
    let activity : Activity :=
      { Id := w.uuid, Pipeline := p, RunSequence := wrap64 (p.RunCount + 1),
        Status := Status.Waiting, StartTS := nowMs w clock, NodeName := nodeName }
    ((p.Stages.foldl
        (fun activity stage =>
          { activity with
            ActivityStages := activity.ActivityStages ++ [ToActivityStage stage] })
        activity, none), clock + 1)

/-- Function `getJobName`: `none` is the index-out-of-range panic. -/
def getJobName (activity : Activity) (stageOrdinal stepOrdinal : Int) : Option Str :=
  match index? activity.ActivityStages stageOrdinal with
  | none => none
  | some stage =>
    some (List.intercalate "_".toList
      [activity.Pipeline.Name, activity.Id, stage.Name, Itoa stepOrdinal])

/-- Modelled from the spec: `service.IsStageSuccess`, which is not part of the
sources; the stage is successful when all its steps are Success or Skip. -/
def IsStageSuccess (stage : ActivityStage) : Bool :=
  stage.ActivitySteps.all (fun step => step.Status = Status.Success ∨ step.Status = Status.Skip)

/-- Function `OnActivityCompelte`: the clean-up scripts run on the worker node;
the activity is not changed. -/
def OnActivityCompelte (r : Run) : Run :=
  { r with trace := r.trace ++ [Event.OnActivityCompelte r.activity.Id] }

/-- The error of the range checks of `RunStage` and `RunStep`. -/
def outOfRange : Err := Err.error "error run stage,stage index out of range".toList

/-- The runtime panic of a slice read out of range. -/
def indexPanic : Err := Err.panic "index out of range".toList

/-- The `for` loop of a parallel stage in `RunStage`: `runStep r i` for the
ordinals in turn, stopping at the first error. -/
def forSteps (runStep : Run → Int → Option (Option Err × Run)) :
    List Nat → Run → Option (Option Err × Run)
  | [], r => some (none, r)
  | i :: rest, r =>
    match runStep r i with
    | none => none
    | some (some err, r) => some (some err, r)
    | some (none, r) => forSteps runStep rest r

mutual

/-- Function `RunStage`. The first argument bounds the depth of the calls of
`RunStage` and `RunStep`; `none` means that the bound was reached. The answer
is the returned error and the state afterwards. -/
def RunStage (w : World) : Nat → Run → Int → Option (Option Err × Run)
  | 0, _, _ => none
  | fuel + 1, r, ordinal =>
    if (r.activity.ActivityStages.length : Int) ≤ ordinal then some (some outOfRange, r)
    else
      match index? r.activity.Pipeline.Stages ordinal with
      | none => some (some indexPanic, r)
      | some stage =>
        let curTime := nowMs w r.clock
        let r := { r with clock := r.clock + 1 }
        let cond : Bool × Option Err :=
          if HasStageCondition stage then EvaluateConditions w r.activity stage.Conditions
          else (true, none)
        match cond with
        | (_, some err) => some (some err, r)
        | (false, none) =>
          match updateAt r.activity.ActivityStages ordinal
              (fun s => { s with Status := Status.Skip }) with
          | none => some (some indexPanic, r)
          | some stages =>
            let r := { r with activity := { r.activity with ActivityStages := stages } }
            if ordinal = (r.activity.ActivityStages.length : Int) - 1 then
              let r := { r with
                activity := { r.activity with Status := Status.Success, StopTS := curTime } }
              some (none, OnActivityCompelte r)
            else RunStage w fuel r (ordinal + 1)
        | (true, none) =>
          match updateAt r.activity.ActivityStages ordinal
              (fun s => { s with StartTS := curTime }) with
          | none => some (some indexPanic, r)
          | some stages =>
            let r := { r with activity := { r.activity with ActivityStages := stages } }
            if stage.Parallel then
              forSteps (fun r i => RunStep w fuel r ordinal i) (List.range stage.Steps.length) r
            else RunStep w fuel r ordinal 0

/-- Function `RunStep`, with the same bound and answer as `RunStage`. -/
def RunStep (w : World) : Nat → Run → Int → Int → Option (Option Err × Run)
  | 0, _, _, _ => none
  | fuel + 1, r, stageOrdinal, stepOrdinal =>
    if (r.activity.ActivityStages.length : Int) ≤ stageOrdinal then some (some outOfRange, r)
    else
      match index? r.activity.ActivityStages stageOrdinal with
      | none => some (some indexPanic, r)
      | some actiStage0 =>
        if (actiStage0.ActivitySteps.length : Int) ≤ stepOrdinal ∨ stageOrdinal < 0 ∨
            stepOrdinal < 0 then some (some outOfRange, r)
        else
          match index? r.activity.Pipeline.Stages stageOrdinal with
          | none => some (some indexPanic, r)
          | some stage =>
            match index? stage.Steps stepOrdinal with
            | none => some (some indexPanic, r)
            | some step =>
              let cond : Bool × Option Err :=
                if HasStepCondition step then EvaluateConditions w r.activity step.Conditions
                else (true, none)
              match cond with
              | (_, some err) => some (some err, r)
              | (false, none) =>
                match updateAt actiStage0.ActivitySteps stepOrdinal
                    (fun s => { s with Status := Status.Skip }) with
                | none => some (some indexPanic, r)
                | some steps =>
                  let actiStage : ActivityStage := { actiStage0 with ActivitySteps := steps }
                  let curTime := nowMs w r.clock
                  let r := { r with clock := r.clock + 1 }
                  if IsStageSuccess actiStage then
                    let actiStage : ActivityStage :=
                      { actiStage with
                        Status := Status.Success,
                        Duration := wrap64 (curTime - actiStage.StartTS) }
                    let r := { r with
                      activity := { r.activity with
                        ActivityStages :=
                          r.activity.ActivityStages.set stageOrdinal.toNat actiStage } }
                    if stageOrdinal = (r.activity.ActivityStages.length : Int) - 1 then
                      let r := { r with
                        activity := { r.activity with
                          Status := Status.Success, StopTS := curTime } }
                      some (none, OnActivityCompelte r)
                    else RunStage w fuel r (stageOrdinal + 1)
                  else
                    let r := { r with
                      activity := { r.activity with
                        ActivityStages :=
                          r.activity.ActivityStages.set stageOrdinal.toNat actiStage } }
                    if !stage.Parallel then RunStep w fuel r stageOrdinal (stepOrdinal + 1)
                    else some (none, r)
              | (true, none) =>
                match getJobName r.activity stageOrdinal stepOrdinal with
                | none => some (some indexPanic, r)
                | some jobName =>
                  let err := w.BuildJob r.trace jobName
                  let r := { r with
                    trace := r.trace ++ [Event.BuildJob stageOrdinal stepOrdinal jobName] }
                  match err with
                  | some e => some (some (Err.error e), r)
                  | none => some (none, r)

end

/-! ## Jenkins client -/

/-- Modelled from the spec: type `JenkinsJobInfo`, declared outside the sources;
the fields `StopStep` reads. `QueueItem` is `none` when the value is not a map
(the first type assertion fails), `some none` when it has no number under
`"id"` (the second fails), `some (some id)` otherwise, `id` being
`int(queueId)`. -/
structure JenkinsJobInfo where
  InQueue : Bool := false
  QueueItem : Option (Option Int) := none
  deriving DecidableEq, Repr

/-- Modelled from the spec: type `JenkinsBuildInfo`, declared outside the
sources; the fields the provider reads. `Actions` lists
`action.LastBuiltRevision.SHA1` for the actions in order. -/
structure JenkinsBuildInfo where
  Result : Str := []
  Timestamp : Int := 0
  Duration : Int := 0
  Building : Bool := false
  Actions : List Str := []
  deriving DecidableEq, Repr

/-- The answers of the Jenkins client, which is not part of the sources, at the
time of one call of the provider: an error message or the value.
`GetBuildRawOutput` is the text returned (its error is only logged);
`CancelQueueItem` and `StopJob` give the error, `none` when they succeed. -/
structure Jenkins where
  GetJobInfo : Str → Except Str JenkinsJobInfo
  GetBuildInfo : Str → Except Str JenkinsBuildInfo
  GetBuildRawOutput : Str → Str
  CancelQueueItem : Int → Option Str
  StopJob : Str → Option Str

/-- The job name `getJobName(activity, i, stepOrdinal)` for an in-range stage
ordinal `i` whose stage is `actiStage`: of the stage only the name is read. -/
def stepJobName (activity : Activity) (actiStage : ActivityStage) (stepOrdinal : Nat) : Str :=
  List.intercalate "_".toList
    [activity.Pipeline.Name, activity.Id, actiStage.Name, Itoa stepOrdinal]

/-! ## Abort -/

/-- Calls made on the abort path, in order: each entry into `StopStep`, and the
cancelling calls sent to Jenkins. -/
inductive Call where
  | StopStep (stageOrdinal stepOrdinal : Nat)
  | CancelQueueItem (id : Int)
  | StopJob (job : Str)
  deriving DecidableEq, Repr

/-- The number of clock readings made and the calls made so far. -/
structure Effects where
  clock : Nat := 0
  calls : List Call := []
  deriving DecidableEq, Repr

/-- Function `StopStep` for the step `step` of ordinal `stepOrdinal` in the
stage `actiStage` of ordinal `stageOrdinal`: the returned error, the step
afterwards and the effects. -/
def StopStep (b : Jenkins) (w : World) (a : Activity) (actiStage : ActivityStage)
    (stageOrdinal stepOrdinal : Nat) (step : ActivityStep) (fx : Effects) :
    Option Err × ActivityStep × Effects :=
  let jobname := stepJobName a actiStage stepOrdinal
  let fx := { fx with calls := fx.calls ++ [Call.StopStep stageOrdinal stepOrdinal] }
  match b.GetJobInfo jobname with
  | Except.error e => (some (Err.error e), step, fx)
  | Except.ok info =>
    if info.InQueue then
      match info.QueueItem with
      | none => (some (Err.error "type assertion fail for queueitem".toList), step, fx)
      | some none => (some (Err.error "type assertion fail for queueId".toList), step, fx)
      | some (some queueId) =>
        let fx := { fx with calls := fx.calls ++ [Call.CancelQueueItem queueId] }
        match b.CancelQueueItem queueId with
        | some e => (some (Err.error ("cancel queueitem error:".toList ++ e)), step, fx)
        | none => (none, step, fx)
    else
      match b.GetBuildInfo jobname with
      | Except.error e => (some (Err.error e), step, fx)
      | Except.ok buildInfo =>
        if buildInfo.Building then
          let fx := { fx with calls := fx.calls ++ [Call.StopJob jobname] }
          match b.StopJob jobname with
          | some e => (some (Err.error e), step, fx)
          | none =>
            (none,
              { step with
                Status := Status.Abort,
                Duration := wrap64 (nowMs w fx.clock - step.StartTS) },
              { fx with clock := fx.clock + 1 })
        else (none, step, fx)

/-- The loop over the steps of the stage in `StopActivity`, from ordinal
`stepOrdinal` on: an error of `StopStep` is logged and the loop goes on. -/
def stopSteps (b : Jenkins) (w : World) (a : Activity) (actiStage : ActivityStage)
    (stageOrdinal : Nat) : Nat → List ActivityStep → Effects → List ActivityStep × Effects
  | _, [], fx => ([], fx)
  | stepOrdinal, step :: rest, fx =>
    match StopStep b w a actiStage stageOrdinal stepOrdinal step fx with
    | (_, step, fx) =>
      match stopSteps b w a actiStage stageOrdinal (stepOrdinal + 1) rest fx with
      | (rest, fx) => (step :: rest, fx)

/-- The loop over the stages in `StopActivity`, from ordinal `stageOrdinal` on:
stages that are Success or Skip are passed over; the first other stage has its
steps stopped and is marked Abort, and the loop ends. -/
def stopStages (b : Jenkins) (w : World) (a : Activity) (now : Int) :
    Nat → List ActivityStage → Effects → List ActivityStage × Effects
  | _, [], fx => ([], fx)
  | stageOrdinal, stage :: rest, fx =>
    if stage.Status = Status.Success ∨ stage.Status = Status.Skip then
      match stopStages b w a now (stageOrdinal + 1) rest fx with
      | (rest, fx) => (stage :: rest, fx)
    else
      match stopSteps b w a stage stageOrdinal 0 stage.ActivitySteps fx with
      | (steps, fx) =>
        ({ stage with
            ActivitySteps := steps,
            Status := Status.Abort,
            Duration := wrap64 (now - stage.StartTS) } :: rest, fx)

/-- Function `StopActivity`: the returned error, the activity afterwards and
the effects. -/
def StopActivity (b : Jenkins) (w : World) (a : Activity) (fx : Effects) :
    Option Err × Activity × Effects :=
  let now := nowMs w fx.clock
  let fx := { fx with clock := fx.clock + 1 }
  let a := { a with Status := Status.Abort, StopTS := now }
  match stopStages b w a now 0 a.ActivityStages fx with
  | (stages, fx) => (none, { a with ActivityStages := stages }, fx)

/-- Statement helper: the entries of the trace that are entries into
`StopStep`. -/
def stopStepCalls (calls : List Call) : List Call :=
  calls.filter (fun c => match c with
    | Call.StopStep _ _ => true
    | _ => false)

/-- Statement helper: the stage is Success or Skip. -/
abbrev stageDone (stage : ActivityStage) : Prop :=
  stage.Status = Status.Success ∨ stage.Status = Status.Skip

/-- Example backend: no job is known. -/
def exNoJenkins : Jenkins :=
  { GetJobInfo := fun _ => Except.error "not found".toList,
    GetBuildInfo := fun _ => Except.error "not found".toList,
    GetBuildRawOutput := fun _ => [],
    CancelQueueItem := fun _ => none,
    StopJob := fun _ => none }

/-- Example backend: every job has a running build, and stopping the job of
step 1 fails. -/
def exBusyJenkins : Jenkins :=
  { GetJobInfo := fun _ => Except.ok {},
    GetBuildInfo := fun _ => Except.ok { Building := true },
    GetBuildRawOutput := fun _ => [],
    CancelQueueItem := fun _ => none,
    StopJob := fun job => if job = "p_id_s1_1".toList then some "busy".toList else none }

/-- Example activity: stage 0 Success, stage 1 Building with two steps, stage 2
Waiting. -/
def exStopActivity : Activity :=
  { Id := "id".toList, Pipeline := { Name := "p".toList }, Status := Status.Building,
    ActivityStages :=
      [{ Name := "s0".toList, Status := Status.Success,
         ActivitySteps := [{ Name := "x".toList, Status := Status.Success }] },
       { Name := "s1".toList, Status := Status.Building, StartTS := 2,
         ActivitySteps := [{ Name := "y".toList, Status := Status.Building },
                           { Name := "z".toList, Status := Status.Building }] },
       { Name := "s2".toList, Status := Status.Waiting,
         ActivitySteps := [{ Name := "u".toList, Status := Status.Waiting }] }] }

/-! ## Reconciliation -/

/-- The fields of a stage that the loop over its steps writes in
`SyncActivity`. -/
structure StageHead where
  Status : Status
  Duration : Int
  deriving DecidableEq, Repr

/-- The fields of the activity that the loops of `SyncActivity` write. -/
structure ActivityHead where
  Status : Status
  StopTS : Int
  deriving DecidableEq, Repr

/-- How one round of a loop ends: the loop goes on (also after `continue`),
`break`, or `return err`. -/
inductive Flow where
  | next
  | stop
  | fail (err : Err)
  deriving DecidableEq, Repr

/-- Result of one round of the loop over the steps. -/
structure StepSync where
  flow : Flow
  step : ActivityStep
  stage : StageHead
  activity : ActivityHead
  deriving DecidableEq, Repr

/-- Result of the loop over the steps of a stage. -/
structure StepsSync where
  flow : Flow
  steps : List ActivityStep
  stage : StageHead
  activity : ActivityHead
  deriving DecidableEq, Repr

/-- Result of the loop over the stages. -/
structure StagesSync where
  err : Option Err
  stages : List ActivityStage
  activity : ActivityHead
  deriving DecidableEq, Repr

/-- Body of the inner loop of `SyncActivity` for the step `actiStep` of ordinal
`j` of the stage `actiStage`; `sh` and `ah` are the status and timing of the
stage and of the activity at that moment. -/
def syncStep (b : Jenkins) (activity : Activity) (actiStage : ActivityStage) (j : Nat)
    (actiStep : ActivityStep) (sh : StageHead) (ah : ActivityHead) : StepSync :=
  if actiStep.Status = Status.Fail ∨ actiStep.Status = Status.Success then
    { flow := Flow.next, step := actiStep, stage := sh, activity := ah }
  else
    let jobName := stepJobName activity actiStage j
    match b.GetJobInfo jobName with
    | Except.error e =>
      { flow := Flow.fail (Err.error e), step := actiStep, stage := sh, activity := ah }
    | Except.ok _ =>
      match b.GetBuildInfo jobName with
      | Except.error _ =>
        if actiStage.NeedApproval = true ∧ j = 0 then
          { flow := Flow.stop, step := actiStep,
            stage := { sh with Status := Status.Pending },
            activity := { ah with Status := Status.Pending } }
        else { flow := Flow.stop, step := actiStep, stage := sh, activity := ah }
      | Except.ok buildInfo =>
        if buildInfo.Result = "SUCCESS".toList then
          { flow := Flow.next,
            step := { actiStep with
              StartTS := buildInfo.Timestamp, Duration := buildInfo.Duration,
              Status := Status.Success },
            stage :=
              if (j : Int) = (actiStage.ActivitySteps.length : Int) - 1 then
                { Status := Status.Success,
                  Duration :=
                    wrap64 (buildInfo.Timestamp + buildInfo.Duration - actiStage.StartTS) }
              else sh,
            activity := ah }
        else if buildInfo.Result = "FAILURE".toList then
          { flow := Flow.next,
            step := { actiStep with
              StartTS := buildInfo.Timestamp, Duration := buildInfo.Duration,
              Status := Status.Fail },
            stage :=
              { Status := Status.Fail,
                Duration :=
                  wrap64 (buildInfo.Timestamp + buildInfo.Duration - actiStage.StartTS) },
            activity :=
              { Status := Status.Fail,
                StopTS := wrap64 (buildInfo.Timestamp + buildInfo.Duration) } }
        else if buildInfo.Building then
          { flow := Flow.stop,
            step := { actiStep with StartTS := buildInfo.Timestamp, Status := Status.Building },
            stage := { sh with Status := Status.Building },
            activity := { ah with Status := Status.Building } }
        else { flow := Flow.next, step := actiStep, stage := sh, activity := ah }

/-- The inner loop of `SyncActivity` over the steps of `actiStage`, from ordinal
`j` on. -/
def syncSteps (b : Jenkins) (activity : Activity) (actiStage : ActivityStage) :
    Nat → List ActivityStep → StageHead → ActivityHead → StepsSync
  | _, [], sh, ah => { flow := Flow.next, steps := [], stage := sh, activity := ah }
  | j, actiStep :: rest, sh, ah =>
    match syncStep b activity actiStage j actiStep sh ah with
    | { flow := Flow.next, step := step, stage := sh, activity := ah } =>
      match syncSteps b activity actiStage (j + 1) rest sh ah with
      | { flow := flow, steps := rest, stage := sh, activity := ah } =>
        { flow := flow, steps := step :: rest, stage := sh, activity := ah }
    | { flow := flow, step := step, stage := sh, activity := ah } =>
      { flow := flow, steps := step :: rest, stage := sh, activity := ah }

/-- The stage once the loop over its steps has left `r`. -/
def syncedStage (actiStage : ActivityStage) (r : StepsSync) : ActivityStage :=
  { actiStage with
    ActivitySteps := r.steps, Status := r.stage.Status, Duration := r.stage.Duration }

/-- The outer loop of `SyncActivity` over the stages. -/
def syncStages (b : Jenkins) (activity : Activity) :
    List ActivityStage → ActivityHead → StagesSync
  | [], ah => { err := none, stages := [], activity := ah }
  | actiStage :: rest, ah =>
    let r := syncSteps b activity actiStage 0 actiStage.ActivitySteps
      { Status := actiStage.Status, Duration := actiStage.Duration } ah
    match r.flow with
    | Flow.fail err =>
      { err := some err, stages := syncedStage actiStage r :: rest, activity := r.activity }
    | _ =>
      match syncStages b activity rest r.activity with
      | { err := err, stages := rest, activity := ah } =>
        { err := err, stages := syncedStage actiStage r :: rest, activity := ah }

/-- Function `SyncActivity`: the returned error and the activity afterwards. -/
def SyncActivity (b : Jenkins) (activity : Activity) : Option Err × Activity :=
  let r := syncStages b activity activity.ActivityStages
    { Status := activity.Status, StopTS := activity.StopTS }
  (r.err,
    { activity with
      ActivityStages := r.stages, Status := r.activity.Status, StopTS := r.activity.StopTS })

/-- Example backend answering by job name: each listed job has the given build,
every other job is known but has no build. -/
def exJenkins (builds : List (Str × JenkinsBuildInfo)) : Jenkins :=
  { GetJobInfo := fun _ => Except.ok {},
    GetBuildInfo := fun job =>
      match builds.lookup job with
      | some info => Except.ok info
      | none => Except.error "no build".toList,
    GetBuildRawOutput := fun _ => [],
    CancelQueueItem := fun _ => none,
    StopJob := fun _ => none }

/-- Example activity: two stages of one step each, everything Waiting. -/
def exTwoStages : Activity :=
  { Id := "id".toList, Pipeline := { Name := "p".toList }, Status := Status.Waiting,
    ActivityStages :=
      [{ Name := "s0".toList, Status := Status.Waiting,
         ActivitySteps := [{ Name := "x".toList, Status := Status.Waiting }] },
       { Name := "s1".toList, Status := Status.Waiting,
         ActivitySteps := [{ Name := "y".toList, Status := Status.Waiting }] }] }

/-- Example backend: the job of stage 0 is running and the job of stage 1 has
failed. -/
def exLateFailure : Jenkins :=
  exJenkins
    [("p_id_s0_0".toList, { Building := true, Timestamp := 3 }),
     ("p_id_s1_0".toList, { Result := "FAILURE".toList, Timestamp := 4, Duration := 2 })]

/-! ## Reconciliation from the log -/

/-- The regular-expression and duration functions of the Go library that
`parseSteps` and `parseStepTime` call, taken as given.
* `split raw` is `regexp.MustCompile(token).Split(raw, -1)` for the delimiter
  of a shell invocation, ``"\\n\\w{14}\\s{2}\\[.*?\\].*?\\.sh"``;
* `stamps log` is `FindAllString(log, -1)` for ``"(^|\\n)\\w{14}  "``;
* `ParseDuration s` is `time.ParseDuration(s)` in nanoseconds, `none` when it
  returns an error. -/
structure LogParser where
  split : Str → List Str
  stamps : Str → List Str
  ParseDuration : Str → Option Int

/-- Go `strings.HasSuffix`. -/
def HasSuffix (s suffix : Str) : Bool := suffix.isSuffixOf s

/-- Go `strings.Contains`. -/
def Contains (s substr : Str) : Bool :=
  match s with
  | [] => substr.isPrefixOf []
  | c :: t => substr.isPrefixOf (c :: t) || Contains t substr

/-- Go `strings.TrimLeft(s, "\n")`. -/
def trimLeftNewlines (s : Str) : Str := s.dropWhile (fun c => c = '\n')

/-- Go `strings.TrimRight(s, " ")`. -/
def trimRightSpaces (s : Str) : Str := (s.reverse.dropWhile (fun c => c = ' ')).reverse

/-- Function `parseStepTime`: the step afterwards. -/
def parseStepTime (lp : LogParser) (step : ActivityStep) (log : Str) (activityStartTS : Int) :
    ActivityStep :=
  let lines := lp.stamps log
  match lines.head? with
  | none => step
  | some first =>
    let start := trimRightSpaces (trimLeftNewlines first)
    match lp.ParseDuration start with
    | none => step
    | some durationStart =>
      let step := { step with
        StartTS := wrap64 (activityStartTS + Int.tdiv durationStart 1000000) }
      if step.Status ≠ Status.Success ∧ step.Status ≠ Status.Fail then step
      else
        let finish := trimRightSpaces (trimLeftNewlines (lines.getLast?.getD []))
        match lp.ParseDuration finish with
        | none => step
        | some durationEnd =>
          { step with Duration := Int.tdiv (wrap64 (durationEnd - durationStart)) 1000000 }

/-- The loop over the steps in `parseSteps`, from ordinal `i` on: the steps
afterwards, the accumulated `stageTime` and the flag `updated`. -/
def parseLoop (lp : LogParser) (outputs : List Str) (lastStatus : Status) (startTS : Int) :
    Nat → List ActivityStep → Int → Bool → List ActivityStep × Int × Bool
  | _, [], stageTime, updated => ([], stageTime, updated)
  | i, step :: rest, stageTime, updated =>
    let finishStepNum : Int := (outputs.length : Int) - 1
    let prevStatus := step.Status
    let r : ActivityStep × Int :=
      if (i : Int) < finishStepNum - 1 then
        let step := parseStepTime lp { step with Status := Status.Success }
          (outputs.getD (i + 1) []) startTS
        (step, wrap64 (stageTime + step.Duration))
      else if (i : Int) = finishStepNum - 1 then
        let step := parseStepTime lp { step with Status := lastStatus }
          (outputs.getD (i + 1) []) startTS
        (step, wrap64 (stageTime + step.Duration))
      else ({ step with Status := Status.Waiting }, stageTime)
    let updated := if prevStatus ≠ r.1.Status then true else updated
    let tail := parseLoop lp outputs lastStatus startTS (i + 1) rest r.2 updated
    (r.1 :: tail.1, tail.2)

/-- The marker of a source check-out in the output. -/
def cloneMarker : Str := "  Cloning the remote Git repository\n".toList

/-- The local `lastStatus` of `parseSteps`. -/
def lastStatusOf (rawOutput : Str) : Status :=
  if HasSuffix rawOutput "  Finished: SUCCESS\n".toList then Status.Success
  else if HasSuffix rawOutput "  Finished: FAILURE\n".toList then Status.Fail
  else Status.Building

/-- The stage after the tests of `parseSteps` on the end of the output. -/
def markFinished (actiStage : ActivityStage) (rawOutput : Str) : ActivityStage :=
  if HasSuffix rawOutput "  Finished: SUCCESS\n".toList then
    { actiStage with Status := Status.Success }
  else if HasSuffix rawOutput "  Finished: FAILURE\n".toList then
    { actiStage with Status := Status.Fail }
  else actiStage

/-- The test of `parseSteps` for the output of a source check-out. -/
def isCheckout (outputs : List Str) (actiStage : ActivityStage) : Bool :=
  decide (outputs.length > 0) && decide (actiStage.ActivitySteps.length > 0) &&
    Contains (outputs.headD []) cloneMarker

/-- The branch of `parseSteps` for the output of a source check-out. -/
def parseCheckout (lp : LogParser) (actiStage : ActivityStage) (lastStatus : Status)
    (outputs : List Str) : Bool × ActivityStage :=
  match actiStage.ActivitySteps with
  | [] => (false, actiStage)
  | step0 :: rest =>
    let updated := decide (step0.Status ≠ lastStatus)
    let step0 := parseStepTime lp { step0 with Status := lastStatus } (outputs.headD [])
      actiStage.StartTS
    (updated, { actiStage with ActivitySteps := step0 :: rest, Duration := step0.Duration })

/-- The branch of `parseSteps` for the output of shell invocations. -/
def parseShell (lp : LogParser) (actiStage : ActivityStage) (lastStatus : Status)
    (outputs : List Str) : Bool × ActivityStage :=
  let r := parseLoop lp outputs lastStatus actiStage.StartTS 0 actiStage.ActivitySteps 0 false
  (r.2.2, { actiStage with ActivitySteps := r.1, Duration := r.2.1 })

/-- Function `parseSteps`: the flag it returns and the stage afterwards. -/
def parseSteps (lp : LogParser) (actiStage : ActivityStage) (rawOutput : Str) :
    Bool × ActivityStage :=
  let lastStatus := lastStatusOf rawOutput
  let actiStage := markFinished actiStage rawOutput
  let outputs := lp.split rawOutput
  if isCheckout outputs actiStage then parseCheckout lp actiStage lastStatus outputs
  else parseShell lp actiStage lastStatus outputs

/-- Function `getCommit`: the commit recorded afterwards. -/
def getCommit (commitInfo : Str) (buildInfo : JenkinsBuildInfo) : Str :=
  if commitInfo ≠ [] then commitInfo
  else buildInfo.Actions.foldl (fun commit sha1 => if sha1 ≠ [] then sha1 else commit) commitInfo

/-- How one round of the loop of `SyncActivityStale` ends: the loop goes on,
`break`, or `return updated, err`. -/
inductive StaleFlow where
  | next
  | stop
  | ret (updated : Bool) (err : Option Err)
  deriving DecidableEq, Repr

/-- Body of the loop of `SyncActivityStale` for the stage of ordinal `i`;
`stages` is `len(p.Stages)` of the pipeline copied at entry. -/
def staleStage (b : Jenkins) (lp : LogParser) (stages : Nat) (activity : Activity) (i : Nat)
    (updated : Bool) : StaleFlow × Activity × Bool :=
  match activity.ActivityStages[i]? with
  | none => (StaleFlow.ret false (some indexPanic), activity, updated)
  | some actiStage =>
    let jobName := activity.Pipeline.Name ++ "_".toList ++ actiStage.Name ++ "_".toList ++
      activity.Id
    let beforeStatus := actiStage.Status
    if beforeStatus = Status.Success then (StaleFlow.next, activity, updated)
    else
      match b.GetJobInfo jobName with
      | Except.error e => (StaleFlow.ret false (some (Err.error e)), activity, updated)
      | Except.ok _ =>
        match b.GetBuildInfo jobName with
        | Except.error _ =>
          if actiStage.Status = Status.Pending then
            (StaleFlow.ret updated none, activity, updated)
          else
            (StaleFlow.stop,
              { activity with
                ActivityStages :=
                  activity.ActivityStages.set i { actiStage with Status := Status.Waiting } },
              updated)
        | Except.ok buildInfo =>
          let activity := { activity with
            CommitInfo := getCommit activity.CommitInfo buildInfo,
            Status := Status.Building }
          let actiStage := { actiStage with
            Status := Status.Building, StartTS := buildInfo.Timestamp }
          let rawOutput := b.GetBuildRawOutput jobName
          let parsed := parseSteps lp actiStage rawOutput
          let stepStatusUpdated := parsed.1
          let actiStage := parsed.2
          let activity := { activity with
            ActivityStages := activity.ActivityStages.set i actiStage }
          let r : Option (Activity × Bool) :=
            if actiStage.Status = Status.Fail then
              some ({ activity with Status := Status.Fail }, true)
            else if actiStage.Status = Status.Success then
              let r : Activity × Bool :=
                if (i : Int) = (stages : Int) - 1 then
                  ({ activity with
                      StopTS := wrap64 (buildInfo.Timestamp + buildInfo.Duration),
                      Status := Status.Success }, true)
                else (activity, updated)
              if (i : Int) < (stages : Int) - 1 then
                match activity.Pipeline.Stages[i + 1]? with
                | none => none
                | some next =>
                  if next.NeedApprove then
                    match r.1.ActivityStages[i + 1]? with
                    | none => none
                    | some nextStage =>
                      some ({ r.1 with
                          Status := Status.Pending,
                          ActivityStages :=
                            r.1.ActivityStages.set (i + 1)
                              { nextStage with Status := Status.Pending },
                          PendingStage := ((i + 1 : Nat) : Int) }, r.2)
                  else some r
              else some r
            else some (activity, updated)
          match r with
          | none => (StaleFlow.ret false (some indexPanic), activity, updated)
          | some (activity, updated) =>
            let updated := updated || stepStatusUpdated
            let updated := if beforeStatus ≠ actiStage.Status then true else updated
            (StaleFlow.next, activity, updated)

/-- The loop of `SyncActivityStale` over the stage ordinals. -/
def staleLoop (b : Jenkins) (lp : LogParser) (stages : Nat) :
    List Nat → Activity → Bool → (Bool × Option Err) × Activity
  | [], activity, updated => ((updated, none), activity)
  | i :: rest, activity, updated =>
    match staleStage b lp stages activity i updated with
    | (StaleFlow.next, activity, updated) => staleLoop b lp stages rest activity updated
    | (StaleFlow.stop, activity, updated) => ((updated, none), activity)
    | (StaleFlow.ret updated err, activity, _) => ((updated, err), activity)

/-- Function `SyncActivityStale`: the pair it returns and the activity
afterwards. -/
def SyncActivityStale (b : Jenkins) (lp : LogParser) (activity : Activity) :
    (Bool × Option Err) × Activity :=
  staleLoop b lp activity.Pipeline.Stages.length (List.range activity.ActivityStages.length)
    activity false

/-- Statement helper: the status that `parseSteps` gives to step `i` when the
delimiter matches `m` times. -/
def segmentStatus (m : Nat) (last : Status) (i : Nat) : Status :=
  if i + 1 < m then Status.Success else if i + 1 = m then last else Status.Waiting

/-- Example parser: `#` stands for the delimiter of a shell invocation, and no
time stamp is found. -/
def exParser : LogParser :=
  { split := fun raw => raw.splitOn '#', stamps := fun _ => [], ParseDuration := fun _ => none }

/-- Example output: two delimiters and the failure marker at the end. -/
def exFailedOutput : Str := "a#b#c  Finished: FAILURE\n".toList

/-- Example backend: every job has a finished build with the output
`exFailedOutput`. -/
def exFailedLog : Jenkins :=
  { GetJobInfo := fun _ => Except.ok {},
    GetBuildInfo := fun _ =>
      Except.ok { Result := "FAILURE".toList, Timestamp := 10, Duration := 5 },
    GetBuildRawOutput := fun _ => exFailedOutput,
    CancelQueueItem := fun _ => none,
    StopJob := fun _ => none }

/-- Example stage: three steps, everything Waiting. -/
def exThreeStepStage : ActivityStage :=
  { Name := "s0".toList, Status := Status.Waiting,
    ActivitySteps :=
      [{ Name := "x".toList, Status := Status.Waiting },
       { Name := "y".toList, Status := Status.Waiting },
       { Name := "z".toList, Status := Status.Waiting }] }

/-- Example activity: one sequential stage of three steps, everything Waiting. -/
def exThreeSteps : Activity :=
  { Id := "id".toList,
    Pipeline :=
      { Name := "p".toList,
        Stages := [{ Name := "s0".toList,
                     Steps := [{ Name := "x".toList }, { Name := "y".toList },
                               { Name := "z".toList }] }] },
    Status := Status.Waiting,
    ActivityStages := [exThreeStepStage] }

/-- Statement helper: a step that was Success or Fail is as it was, and a step
that is Waiting was Waiting. -/
def stepKept (t t2 : ActivityStep) : Prop :=
  ((t.Status = Status.Success ∨ t.Status = Status.Fail) → t2 = t) ∧
  (t2.Status = Status.Waiting → t.Status = Status.Waiting)

/-- Statement helper: a stage that is Waiting was Waiting, and its steps are
kept in the sense of `stepKept`. -/
def stageKept (s s2 : ActivityStage) : Prop :=
  (s2.Status = Status.Waiting → s.Status = Status.Waiting) ∧
  List.Forall₂ stepKept s.ActivitySteps s2.ActivitySteps

/-- Statement helper: the stage requires approval and the backend has no build
for its step 0. -/
def awaitsApproval (b : Jenkins) (a : Activity) (s : ActivityStage) : Prop :=
  s.NeedApproval = true ∧ ∃ e, b.GetBuildInfo (stepJobName a s 0) = Except.error e

/-- Statement helper: a stage that is Pending was Pending or awaits approval. -/
def pendingJustified (b : Jenkins) (a : Activity) (s s2 : ActivityStage) : Prop :=
  s2.Status = Status.Pending → s.Status = Status.Pending ∨ awaitsApproval b a s

/-- Statement helper: the backend reports SUCCESS for the last step of the
stage, which is Success in `s2`, and the duration of `s2` is the end of that
build minus the stage's `StartTS`. -/
def lastStepSucceeded (b : Jenkins) (a : Activity) (s s2 : ActivityStage) : Prop :=
  ∃ (bi : JenkinsBuildInfo) (last : ActivityStep),
    b.GetBuildInfo (stepJobName a s (s.ActivitySteps.length - 1)) = Except.ok bi ∧
    bi.Result = "SUCCESS".toList ∧
    s2.ActivitySteps.getLast? = some last ∧ last.Status = Status.Success ∧
    s2.Duration = wrap64 (bi.Timestamp + bi.Duration - s.StartTS)

/-- Statement helper: a stage that is Success was Success with the same
duration, or its last step has succeeded. -/
def successJustified (b : Jenkins) (a : Activity) (s s2 : ActivityStage) : Prop :=
  s2.Status = Status.Success →
    (s.Status = Status.Success ∧ s2.Duration = s.Duration) ∨ lastStepSucceeded b a s s2

/-- Example activity: Success, its only stage Success with a skipped step. -/
def exSkippedDone : Activity :=
  { Id := "id".toList, Pipeline := { Name := "p".toList }, Status := Status.Success,
    ActivityStages :=
      [{ Name := "s0".toList, Status := Status.Success,
         ActivitySteps := [{ Name := "x".toList, Status := Status.Skip }] }] }

/-- Example backend: the job of step 0 of stage `s0` is running, no other job
has a build. -/
def exRunning : Jenkins :=
  exJenkins [("p_id_s0_0".toList, { Building := true, Timestamp := 3 })]

/-- Example backend: the job of stage 0 has failed and the job of stage 1 is
running. -/
def exEarlyFailure : Jenkins :=
  exJenkins
    [("p_id_s0_0".toList, { Result := "FAILURE".toList, Timestamp := 4, Duration := 2 }),
     ("p_id_s1_0".toList, { Building := true, Timestamp := 7 })]

/-- Example backend: only the job of stage 0 has a build, which has failed. -/
def exOnlyFailure : Jenkins :=
  exJenkins
    [("p_id_s0_0".toList, { Result := "FAILURE".toList, Timestamp := 4, Duration := 2 })]

/-- Example activity: two stages of one step each, everything Waiting; stage 1
requires approval. -/
def exApproval : Activity :=
  { Id := "id".toList, Pipeline := { Name := "p".toList }, Status := Status.Waiting,
    ActivityStages :=
      [{ Name := "s0".toList, Status := Status.Waiting,
         ActivitySteps := [{ Name := "x".toList, Status := Status.Waiting }] },
       { Name := "s1".toList, Status := Status.Waiting, NeedApproval := true,
         ActivitySteps := [{ Name := "y".toList, Status := Status.Waiting }] }] }

/-- Example activity: one stage of two steps, everything Waiting. -/
def exTwoSteps : Activity :=
  { Id := "id".toList, Pipeline := { Name := "p".toList }, Status := Status.Waiting,
    ActivityStages :=
      [{ Name := "s0".toList, Status := Status.Waiting,
         ActivitySteps := [{ Name := "x".toList, Status := Status.Waiting },
                           { Name := "y".toList, Status := Status.Waiting }] }] }

/-- Example backend: the job of step 0 has failed and the job of step 1 has
succeeded. -/
def exFailThenSuccess : Jenkins :=
  exJenkins
    [("p_id_s0_0".toList, { Result := "FAILURE".toList, Timestamp := 4, Duration := 2 }),
     ("p_id_s0_1".toList, { Result := "SUCCESS".toList, Timestamp := 7, Duration := 1 })]

/-- Statement helper: the round of the inner loop of `SyncActivity` for the
step `t` of ordinal `j` of the stage `s` has nothing to write: the step is
already Fail or Success, or its job is known to the backend and has no build,
and the step is not step 0 of a stage that requires approval. -/
def quietStep (b : Jenkins) (a : Activity) (s : ActivityStage) (j : Nat)
    (t : ActivityStep) : Prop :=
  (t.Status = Status.Fail ∨ t.Status = Status.Success) ∨
  ((∃ info, b.GetJobInfo (stepJobName a s j) = Except.ok info) ∧
   (∃ e, b.GetBuildInfo (stepJobName a s j) = Except.error e) ∧
   ¬ (s.NeedApproval = true ∧ j = 0))

/-- Statement helper: every step of the stage is quiet in the sense of
`quietStep`. -/
def quietStage (b : Jenkins) (a : Activity) (s : ActivityStage) : Prop :=
  ∀ (k : Nat) (t : ActivityStep), s.ActivitySteps[k]? = some t → quietStep b a s k t

/-! ## Shell quoting -/

/-- Function `QuoteShell`. The second assignment of `escaped` reads `script`
again, so the result of the first one is not used. -/
def QuoteShell (script : Str) : Str :=
  let escaped := Replace script "\\".toList "\\\\".toList
  let escaped := (fun (_ : Str) => Replace script "\"".toList "\\\"".toList) escaped
  "\"".toList ++ escaped ++ "\"".toList

/-- The first two lines of `EscapeShell`, the sibling of `QuoteShell`: the
second replacement reads the result of the first. -/
def escapeBackslashDollar (script : Str) : Str :=
  let escaped := Replace script "\\".toList "\\\\".toList
  Replace escaped "$".toList "\\$".toList

/-- Statement helper: what the claim says `QuoteShell` computes: every
backslash is doubled, then every double quote gets a backslash in front, and
the result is put between double quotes. -/
def quoteShellClaimed (script : Str) : Str :=
  "\"".toList ++
    Replace (Replace script "\\".toList "\\\\".toList) "\"".toList "\\\"".toList ++
    "\"".toList

/-- Statement helper: the number of consecutive backslashes that end right
before position `i` of the text. -/
def backslashesBefore (s : Str) (i : Nat) : Nat :=
  ((s.take i).reverse.takeWhile (fun c => c = '\\')).length

/-- Statement helper: the number written by a text of decimal digits. -/
def digitsValue (s : Str) : Nat :=
  s.foldl (fun acc c => 10 * acc + (c.toNat - 48)) 0

/-- Example activity: two stages of the same name, one step each. -/
def exSameNames : Activity :=
  { Id := "id".toList, Pipeline := { Name := "p".toList }, Status := Status.Waiting,
    ActivityStages :=
      [{ Name := "build".toList, Status := Status.Waiting,
         ActivitySteps := [{ Name := "x".toList, Status := Status.Waiting }] },
       { Name := "build".toList, Status := Status.Waiting,
         ActivitySteps := [{ Name := "y".toList, Status := Status.Waiting }] }] }

/-- Go `strings.Index(s, substr)`: the index of the first occurrence of
`substr` in `s`, and -1 when there is none. The statement of the parse errors
of `EvaluateCondition` is written with it. -/
def Index (s substr : Str) : Int :=
  match s with
  | [] => if substr.isPrefixOf [] then 0 else -1
  | c :: t =>
    if substr.isPrefixOf (c :: t) then 0
    else if Index t substr < 0 then -1 else Index t substr + 1

/-- Statement helper: the sum, in `int64`, of the durations of the steps, as
the loop of `parseSteps` accumulates it. -/
def sumDurations (steps : List ActivityStep) : Int :=
  steps.foldl (fun acc s => wrap64 (acc + s.Duration)) 0

/-- Example parser: `#` stands for the delimiter of a shell invocation, the
time stamps of a segment are its fields made of digits, fields being separated
by `;`, and a time stamp is read as a number of milliseconds. -/
def exTimedParser : LogParser :=
  { split := fun raw => raw.splitOn '#',
    stamps := fun log =>
      (log.splitOn ';').filter (fun f => decide (f ≠ []) && f.all Char.isDigit),
    ParseDuration := fun s => some ((digitsValue s : Int) * 1000000) }

/-- Example output: two shell invocations, the first from 2 ms to 5 ms and the
second from 6 ms to 9 ms, and the success marker at the end. -/
def exTimedOutput : Str := "h#2;x;5;#6;y;9;  Finished: SUCCESS\n".toList

/-- Example backend: every job has a finished build that started at 100 and
lasted 10, with the output `exTimedOutput`. -/
def exTimedLog : Jenkins :=
  { GetJobInfo := fun _ => Except.ok {},
    GetBuildInfo := fun _ =>
      Except.ok { Result := "SUCCESS".toList, Timestamp := 100, Duration := 10 },
    GetBuildRawOutput := fun _ => exTimedOutput,
    CancelQueueItem := fun _ => none,
    StopJob := fun _ => none }

/-- Example activity: one sequential stage of two steps, everything Waiting. -/
def exTimedActivity : Activity :=
  { Id := "id".toList,
    Pipeline :=
      { Name := "p".toList,
        Stages := [{ Name := "s0".toList,
                     Steps := [{ Name := "x".toList }, { Name := "y".toList }] }] },
    Status := Status.Waiting,
    ActivityStages :=
      [{ Name := "s0".toList, Status := Status.Waiting,
         ActivitySteps := [{ Name := "x".toList, Status := Status.Waiting },
                           { Name := "y".toList, Status := Status.Waiting }] }] }

/-! ## Starting a run -/

/-- Calls of `RunPipeline` and `RerunActivity` that leave the process, in the
order they are made; `drive` is a call made by `RunStage`. -/
inductive Action where
  | CreateJob (jobName : Str)
  | DeleteBuild (jobName : Str)
  | UpdateJob (jobName : Str)
  | drive (event : Event)
  | CreateActivity (activity : Activity)
  deriving DecidableEq, Repr

/-- What `RunPipeline` and `RerunActivity` call outside the sources, taken as
given. `CreateJob history job`, `DeleteBuild history job` and
`UpdateJob history job` are the errors of the calls of the Jenkins client made
after the calls of `history`, `none` when they succeed; `CreateActivity` is the
error of `service.CreateActivity`; `rangeOrder m` lists the entries of the map
`m` in the order in which `range` visits them. -/
structure Services where
  CreateJob : List Action → Str → Option Str
  DeleteBuild : List Action → Str → Option Str
  UpdateJob : List Action → Str → Option Str
  CreateActivity : Activity → Option Str
  rangeOrder : List (Str × Str) → List (Str × Str)

/-- Go map write `m[key] = value`. -/
def mapSet (m : List (Str × Str)) (key value : Str) : List (Str × Str) :=
  if m.any (fun kv => decide (kv.1 = key)) then
    m.map (fun kv => if kv.1 = key then (key, value) else kv)
  else m ++ [(key, value)]

/-- Go `strings.SplitN(s, "=", 2)` when it returns two parts, `none` when it
returns one. -/
def splitEq : Str → Option (Str × Str)
  | [] => none
  | c :: t =>
    if c = '=' then some ([], t)
    else match splitEq t with
      | some (k, v) => some (c :: k, v)
      | none => none

/-- Function `initActivityEnvvars`: the activity afterwards; `none` is the
index-out-of-range panic of `p.Stages[0].Steps[0]`. -/
def initActivityEnvvars (sv : Services) (activity : Activity) : Option Activity :=
  let p := activity.Pipeline
  let vars : List (Str × Str) := []
  let vars := mapSet vars "CICD_PIPELINE_NAME".toList p.Name
  let vars := mapSet vars "CICD_PIPELINE_ID".toList p.Id
  let vars := mapSet vars "CICD_NODE_NAME".toList activity.NodeName
  let vars := mapSet vars "CICD_ACTIVITY_ID".toList activity.Id
  let vars := mapSet vars "CICD_ACTIVITY_SEQUENCE".toList (Itoa activity.RunSequence)
  match p.Stages[0]? with
  | none => none
  | some stage0 =>
    match stage0.Steps[0]? with
    | none => none
    | some step0 =>
      let vars := mapSet vars "CICD_GIT_URL".toList step0.Repository
      let vars := mapSet vars "CICD_GIT_BRANCH".toList step0.Branch
      let vars := mapSet vars "CICD_GIT_COMMIT".toList activity.CommitInfo
      let vars := mapSet vars "CICD_TRIGGER_TYPE".toList activity.TriggerType
      let vars := activity.Pipeline.Parameters.foldl
        (fun vars envvar =>
          match splitEq envvar with
          | none => vars
          | some (k, v) => mapSet vars k v)
        vars
      some { activity with EnvVars := sv.rangeOrder vars }

/-- Function `generateStepJenkinsProject`, as far as the control flow of the
provider goes: the step of the definition from which the project is built;
`none` is the index-out-of-range panic of
`activity.Pipeline.Stages[stageOrdinal].Steps[stepOrdinal]`. -/
def generateStepJenkinsProject (activity : Activity) (stageOrdinal stepOrdinal : Nat) :
    Option Step :=
  match activity.Pipeline.Stages[stageOrdinal]? with
  | none => none
  | some stage => stage.Steps[stepOrdinal]?

/-- The loop of `CreateStage` over the steps of the stage: the error and the
calls made so far. -/
def createSteps (sv : Services) (activity : Activity) (ordinal : Nat) :
    List Nat → List Action → Option Err × List Action
  | [], trace => (none, trace)
  | i :: rest, trace =>
    match generateStepJenkinsProject activity ordinal i with
    | none => (some indexPanic, trace)
    | some _ =>
      match getJobName activity ordinal i with
      | none => (some indexPanic, trace)
      | some jobName =>
        match sv.CreateJob trace jobName with
        | some e => (some (Err.error e), trace ++ [Action.CreateJob jobName])
        | none => createSteps sv activity ordinal rest (trace ++ [Action.CreateJob jobName])

/-- Function `CreateStage`. -/
def CreateStage (sv : Services) (activity : Activity) (ordinal : Nat) (trace : List Action) :
    Option Err × List Action :=
  match activity.ActivityStages[ordinal]? with
  | none => (some indexPanic, trace)
  | some stage => createSteps sv activity ordinal (List.range stage.ActivitySteps.length) trace

/-- The loop over the stages that calls `CreateStage`, in `RunPipeline` and in
`RerunActivity`. -/
def createStages (sv : Services) (activity : Activity) :
    List Nat → List Action → Option Err × List Action
  | [], trace => (none, trace)
  | i :: rest, trace =>
    match CreateStage sv activity i trace with
    | (some err, trace) => (some err, trace)
    | (none, trace) => createStages sv activity rest trace

/-- Function `RunPipeline`. The second argument of the result lists the calls
made; the first is the pair returned, a panic being reported as an error
without activity. `fuel` bounds the depth of the calls of `RunStage`, and
`none` means that the bound was reached. -/
def RunPipeline (w : World) (sv : Services) (fuel : Nat) (p : PipelineDef) (triggerType : Str) :
    Option ((Option Activity × Option Err) × List Action) :=
  match ToActivity w 0 p with
  | ((_, some err), _) => some ((none, some err), [])
  | ((activity, none), clock) =>
    let activity := { activity with TriggerType := triggerType }
    match initActivityEnvvars sv activity with
    | none => some ((none, some indexPanic), [])
    | some activity =>
      if p.Stages.length = 0 then
        some ((none, some (Err.error "no stage in pipeline definition to run!".toList)), [])
      else
        match createStages sv activity (List.range p.Stages.length) [] with
        | (some err, trace) => some ((none, some err), trace)
        | (none, trace) =>
          match RunStage w fuel { activity := activity, clock := clock } 0 with
          | none => none
          | some (some err, r) => some ((none, some err), trace ++ r.trace.map Action.drive)
          | some (none, r) =>
            match sv.CreateActivity r.activity with
            | some e =>
              some ((none, some (Err.error e)),
                trace ++ r.trace.map Action.drive ++ [Action.CreateActivity r.activity])
            | none =>
              some ((some r.activity, none),
                trace ++ r.trace.map Action.drive ++ [Action.CreateActivity r.activity])

/-- The loop of `DeleteFormerBuild` over the steps of a stage. -/
def deleteSteps (sv : Services) (activity : Activity) (stageOrdinal : Nat) :
    Nat → List ActivityStep → List Action → Option Err × List Action
  | _, [], trace => (none, trace)
  | stepOrdinal, step :: rest, trace =>
    match getJobName activity stageOrdinal stepOrdinal with
    | none => (some indexPanic, trace)
    | some jobName =>
      if step.Status = Status.Success ∨ step.Status = Status.Fail then
        match sv.DeleteBuild trace jobName with
        | some e => (some (Err.error e), trace ++ [Action.DeleteBuild jobName])
        | none =>
          deleteSteps sv activity stageOrdinal (stepOrdinal + 1) rest
            (trace ++ [Action.DeleteBuild jobName])
      else deleteSteps sv activity stageOrdinal (stepOrdinal + 1) rest trace

/-- The loop of `DeleteFormerBuild` over the stages. -/
def deleteStages (sv : Services) (activity : Activity) :
    Nat → List ActivityStage → List Action → Option Err × List Action
  | _, [], trace => (none, trace)
  | stageOrdinal, stage :: rest, trace =>
    match deleteSteps sv activity stageOrdinal 0 stage.ActivitySteps trace with
    | (some err, trace) => (some err, trace)
    | (none, trace) => deleteStages sv activity (stageOrdinal + 1) rest trace

/-- Function `DeleteFormerBuild`. -/
def DeleteFormerBuild (sv : Services) (activity : Activity) (trace : List Action) :
    Option Err × List Action :=
  deleteStages sv activity 0 activity.ActivityStages trace

/-- The inner loop of `UpdateJobConf`. -/
def updateSteps (sv : Services) (activity : Activity) (stageNum : Nat) :
    List Nat → List Action → Option Err × List Action
  | [], trace => (none, trace)
  | stepNum :: rest, trace =>
    match generateStepJenkinsProject activity stageNum stepNum with
    | none => (some indexPanic, trace)
    | some _ =>
      match getJobName activity stageNum stepNum with
      | none => (some indexPanic, trace)
      | some jobName =>
        match sv.UpdateJob trace jobName with
        | some e => (some (Err.error e), trace ++ [Action.UpdateJob jobName])
        | none => updateSteps sv activity stageNum rest (trace ++ [Action.UpdateJob jobName])

/-- The outer loop of `UpdateJobConf`, from stage `stageNum` on. -/
def updateStages (sv : Services) (activity : Activity) :
    Nat → List ActivityStage → List Action → Option Err × List Action
  | _, [], trace => (none, trace)
  | stageNum, stage :: rest, trace =>
    match updateSteps sv activity stageNum (List.range stage.ActivitySteps.length) trace with
    | (some err, trace) => (some err, trace)
    | (none, trace) => updateStages sv activity (stageNum + 1) rest trace

/-- Function `UpdateJobConf`. -/
def UpdateJobConf (sv : Services) (activity : Activity) (trace : List Action) :
    Option Err × List Action :=
  updateStages sv activity 0 activity.ActivityStages trace

/-- Function `RerunActivity`: the error returned, the activity afterwards and
the calls made; a panic is reported as the error. `fuel` bounds the depth of
the calls of `RunStage`, and `none` means that the bound was reached. -/
def RerunActivity (b : Jenkins) (w : World) (sv : Services) (fuel : Nat) (a : Activity) :
    Option ((Option Err × Activity) × List Action) :=
  match getJobName a 0 0 with
  | none => some ((some indexPanic, a), [])
  | some jobName =>
    let prepared : Option Err × List Action :=
      match b.GetJobInfo jobName with
      | Except.error _ => createStages sv a (List.range a.Pipeline.Stages.length) []
      | Except.ok _ => DeleteFormerBuild sv a []
    match prepared with
    | (some err, trace) => some ((some err, a), trace)
    | (none, trace) =>
      match getNodeNameToRun w 0 with
      | ((_, some err), _) => some ((some err, a), trace)
      | ((nodeName, none), clock) =>
        let a := { a with NodeName := nodeName }
        match UpdateJobConf sv a trace with
        | (some (Err.panic message), trace) => some ((some (Err.panic message), a), trace)
        | (_, trace) =>
          let a := { a with
            RunSequence := wrap64 (a.Pipeline.RunCount + 1), StartTS := nowMs w clock }
          match initActivityEnvvars sv a with
          | none => some ((some indexPanic, a), trace)
          | some a =>
            match RunStage w fuel { activity := a, clock := clock + 1 } 0 with
            | none => none
            | some (err, r) => some ((err, r.activity), trace ++ r.trace.map Action.drive)

/-- Example services: every call succeeds and `range` visits a map in the
order of insertion. -/
def exServices : Services :=
  { CreateJob := fun _ _ => none, DeleteBuild := fun _ _ => none,
    UpdateJob := fun _ _ => none, CreateActivity := fun _ => none,
    rangeOrder := fun m => m }

/-- Example pipeline: one sequential stage with one step, no conditions, and a
run count of 4. -/
def exPipeline : PipelineDef :=
  { Id := "1".toList, Name := "p".toList, RunCount := 4,
    Stages := [{ Name := "s0".toList, Steps := [{ Name := "x".toList }] }] }

/-- Statement helper: the activity without the fields that `RunStage` and
`RunStep` write. -/
def frame (a : Activity) : Activity :=
  { a with Status := Status.Unset, StopTS := 0, ActivityStages := [] }

/-- Statement helper: the numbers of steps of the stages, in order. -/
def shape (stages : List ActivityStage) : List Nat :=
  stages.map (fun s => s.ActivitySteps.length)

/-- Statement helper: `r2` differs from `r` at most in what the driver writes:
the statuses and times of the activity, of its stages and of their steps, the
clock and the trace. -/
def keeps (r r2 : Run) : Prop :=
  frame r2.activity = frame r.activity ∧
  shape r2.activity.ActivityStages = shape r.activity.ActivityStages

/-- Statement helper: a bound on the depth of the calls that `RunStage` makes
at stage ordinal `k`, the stages having the numbers of steps `steps`: one call
per stage from `k` on and per step of these stages, and one for the step
ordinal that is refused after the last step of a stage. -/
def stageMeasure (steps : List Nat) (k : Nat) : Nat :=
  1 + ((steps.drop k).map (fun n => n + 2)).sum

/-- Statement helper: the same bound for `RunStep` at the ordinals `k`, `j`. -/
def stepMeasure (steps : List Nat) (k j : Nat) : Nat :=
  2 + (steps.getD k 0 - j) + ((steps.drop (k + 1)).map (fun n => n + 2)).sum

/-! ## Predicates of the statements -/

/-- Statement predicate: a character of a variable name (letter, digit or
underscore). -/
def isIdentChar (c : Char) : Bool := c.isAlphanum || c == '_'

/-- Statement predicate: the text is made of name characters only. -/
abbrev isIdent (s : Str) : Prop := ∀ c ∈ s, isIdentChar c = true

/-- Statement helper: the stages from ordinal `k` on are marked Skip, the
earlier ones are kept. -/
def skipFrom : Nat → List ActivityStage → List ActivityStage
  | 0, l => l.map (fun s => { s with Status := Status.Skip })
  | _ + 1, [] => []
  | k + 1, x :: l => x :: skipFrom k l

/-! ## Example data for the witnesses -/

/-- Example world: one worker node, a clock that advances by one millisecond
per reading, and a backend on which every trigger succeeds. -/
def exWorld : World :=
  { UnixNano := fun n => 5000000 + 1000000 * n, Intn := fun _ _ => 0,
    GetActiveNodesName := Except.ok ["node".toList], uuid := "id".toList,
    BuildJob := fun _ _ => none }

/-- Example world: as `exWorld`, but the `range` loop of the second call of
`SubstituteVar` visits the map in the reverse order of the first. -/
def exShuffle : World :=
  { exWorld with rangeOrder := fun _ second m => if second then m.reverse else m }

/-- Example activity: the variable `A` is `${B}`, the variable `B` is
`1`, and `1` and `${B}` are variables whose values are their names. -/
def exLoopVars : Activity :=
  { EnvVars :=
      [("A".toList, "$\x7bB\x7d".toList), ("B".toList, "1".toList),
       ("1".toList, "1".toList), ("$\x7bB\x7d".toList, "$\x7bB\x7d".toList)] }

/-- Example conditions, false when the variable `a` is not set. -/
def exFalseCond : Option PipelineConditions := some { All := ["a=1".toList] }

/-- Example stages: both carry conditions that evaluate to false. -/
def exSkipStage0 : Stage :=
  { Name := "s0".toList, Conditions := exFalseCond, Steps := [{ Name := "x".toList }] }

/-- Example stage whose only step carries conditions that evaluate to false. -/
def exSkipStage1 : Stage :=
  { Name := "s1".toList, Conditions := exFalseCond,
    Steps := [{ Name := "y".toList, Conditions := exFalseCond }] }

/-- Example run: a fresh activity of the pipeline made of the two stages. -/
def exSkipRun : Run :=
  { activity :=
      (ToActivity exWorld 0 { Name := "p".toList, Stages := [exSkipStage0, exSkipStage1] }).1.1,
    clock := 2 }

/-- Statement helper: the trigger of step `i` of stage `k`, whose job name is
built from the pipeline name, the activity identifier, the stage name and the
step ordinal. -/
def triggerOf (r : Run) (actiStage : ActivityStage) (k i : Nat) : Event :=
  Event.BuildJob k i
    (List.intercalate "_".toList
      [r.activity.Pipeline.Name, r.activity.Id, actiStage.Name, Itoa i])

/-- Statement helper: the job name of step `i` of a stage. -/
def jobOf (r : Run) (actiStage : ActivityStage) (i : Nat) : Str :=
  List.intercalate "_".toList
    [r.activity.Pipeline.Name, r.activity.Id, actiStage.Name, Itoa i]

/-- Statement helper: the state once `RunStage` has recorded the start time of
stage `k` (one reading of the clock) and the calls `events` have been made;
nothing else of the activity differs from `r`. -/
def startedRun (w : World) (r : Run) (k : Nat) (actiStage : ActivityStage)
    (events : List Event) : Run :=
  { activity :=
      { r.activity with
        ActivityStages :=
          r.activity.ActivityStages.set k { actiStage with StartTS := nowMs w r.clock } },
    clock := r.clock + 1,
    trace := r.trace ++ events }

/-- Example stage without steps and without conditions. -/
def exEmptyStage : Stage := { Name := "s0".toList }

/-- Example stage with two steps, run in parallel, without conditions. -/
def exParallelStage : Stage :=
  { Name := "s0".toList, Parallel := true,
    Steps := [{ Name := "x".toList }, { Name := "y".toList }] }

/-- Example run: a fresh activity of the pipeline made of `exEmptyStage`. -/
def exEmptyRun : Run :=
  { activity := (ToActivity exWorld 0 { Name := "p".toList, Stages := [exEmptyStage] }).1.1,
    clock := 2 }

/-- Example run: a fresh activity of the pipeline made of `exParallelStage`. -/
def exParallelRun : Run :=
  { activity := (ToActivity exWorld 0 { Name := "p".toList, Stages := [exParallelStage] }).1.1,
    clock := 2 }

/-! # Theorems -/

/-! ## Condition evaluator -/

theorem EvaluateCondition_shape (w : World) (a : Activity) (p : Str) :
    EvaluateCondition w a p = (true, none) ∨ EvaluateCondition w a p = (false, none) ∨
      EvaluateCondition w a p = (false, some (Err.error ("cannot parse condition:".toList ++ p))) := by
  unfold EvaluateCondition
  simp only []
  split_ifs <;> simp

theorem parse_error_ne_nil (p : Str) :
    Err.error ("cannot parse condition:".toList ++ p) ≠ Err.error "Nil condition".toList := by
  intro h
  injection h with h
  simp at h

theorem evalAll_cons_true (w : World) (a : Activity) (p : Str) (l : List Str)
    (h : EvaluateCondition w a p = (true, none)) : evalAll w a (p :: l) = evalAll w a l := by
  simp [evalAll, h]

theorem evalAll_cons_false (w : World) (a : Activity) (p : Str) (l : List Str)
    (h : EvaluateCondition w a p = (false, none)) : evalAll w a (p :: l) = (false, none) := by
  simp [evalAll, h]

theorem evalAll_cons_err (w : World) (a : Activity) (p : Str) (l : List Str) (b : Bool) (e : Err)
    (h : EvaluateCondition w a p = (b, some e)) : evalAll w a (p :: l) = (false, some e) := by
  simp [evalAll, h]

theorem evalAll_append (w : World) (a : Activity) (pre l : List Str)
    (h : ∀ q ∈ pre, EvaluateCondition w a q = (true, none)) :
    evalAll w a (pre ++ l) = evalAll w a l := by
  induction pre with
  | nil => rfl
  | cons q pre ih =>
    rw [List.cons_append, evalAll_cons_true w a q _ (h q (List.mem_cons_self _ _))]
    exact ih (fun x hx => h x (List.mem_cons_of_mem _ hx))

theorem evalAll_true_iff (w : World) (a : Activity) (l : List Str) :
    evalAll w a l = (true, none) ↔ ∀ p ∈ l, EvaluateCondition w a p = (true, none) := by
  induction l with
  | nil => simp [evalAll]
  | cons p l ih =>
    rcases EvaluateCondition_shape w a p with h | h | h
    · rw [evalAll_cons_true w a p l h, ih]; simp [h]
    · rw [evalAll_cons_false w a p l h]; simp [h]
    · rw [evalAll_cons_err w a p l _ _ h]; simp [h]

theorem evalAny_cons_true (w : World) (a : Activity) (p : Str) (l : List Str)
    (h : EvaluateCondition w a p = (true, none)) : evalAny w a (p :: l) = (true, none) := by
  simp [evalAny, h]

theorem evalAny_cons_false (w : World) (a : Activity) (p : Str) (l : List Str)
    (h : EvaluateCondition w a p = (false, none)) : evalAny w a (p :: l) = evalAny w a l := by
  simp [evalAny, h]

theorem evalAny_cons_err (w : World) (a : Activity) (p : Str) (l : List Str) (b : Bool) (e : Err)
    (h : EvaluateCondition w a p = (b, some e)) : evalAny w a (p :: l) = (false, some e) := by
  simp [evalAny, h]

theorem evalAny_append (w : World) (a : Activity) (pre l : List Str)
    (h : ∀ q ∈ pre, EvaluateCondition w a q = (false, none)) :
    evalAny w a (pre ++ l) = evalAny w a l := by
  induction pre with
  | nil => rfl
  | cons q pre ih =>
    rw [List.cons_append, evalAny_cons_false w a q _ (h q (List.mem_cons_self _ _))]
    exact ih (fun x hx => h x (List.mem_cons_of_mem _ hx))

theorem evalAny_true_iff (w : World) (a : Activity) (l : List Str) :
    evalAny w a l = (true, none) ↔
      ∃ pre p post, l = pre ++ p :: post ∧
        (∀ q ∈ pre, EvaluateCondition w a q = (false, none)) ∧
        EvaluateCondition w a p = (true, none) := by
  constructor
  · induction l with
    | nil => simp [evalAny]
    | cons p l ih =>
      intro h
      rcases EvaluateCondition_shape w a p with hp | hp | hp
      · exact ⟨[], p, l, rfl, by simp, hp⟩
      · rw [evalAny_cons_false w a p l hp] at h
        obtain ⟨pre, q, post, hl, hpre, hq⟩ := ih h
        refine ⟨p :: pre, q, post, by simp [hl], ?_, hq⟩
        intro x hx
        rcases List.mem_cons.mp hx with rfl | hx
        · exact hp
        · exact hpre x hx
      · rw [evalAny_cons_err w a p l _ _ hp] at h
        simp at h
  · rintro ⟨pre, p, post, rfl, hpre, hp⟩
    rw [evalAny_append w a pre _ hpre, evalAny_cons_true w a p post hp]

theorem evalAny_all_false (w : World) (a : Activity) (l : List Str)
    (h : ∀ p ∈ l, EvaluateCondition w a p = (false, none)) : evalAny w a l = (false, none) := by
  have := evalAny_append w a l [] h
  simpa [evalAny] using this

theorem EvaluateConditions_of_all (w : World) (a : Activity) (c : PipelineConditions) (h : c.All ≠ []) :
    EvaluateConditions w a (some c) = evalAll w a c.All := by
  have hl : 0 < c.All.length := List.length_pos.mpr h
  simp only [EvaluateConditions]
  rw [if_neg (by omega), if_pos (by omega)]

theorem EvaluateConditions_of_any (w : World) (a : Activity) (c : PipelineConditions) (hAll : c.All = [])
    (h : c.Any ≠ []) : EvaluateConditions w a (some c) = evalAny w a c.Any := by
  have hl : 0 < c.Any.length := List.length_pos.mpr h
  simp only [EvaluateConditions, hAll, List.length_nil]
  rw [if_neg (by omega), if_neg (by omega)]

/-- C1: with a non-empty `All` list, `EvaluateConditions` is the left-to-right
short-circuiting conjunction of the `All` predicates: it answers `(true, nil)`
exactly when every predicate is true without error; at the first predicate
that is not true it answers `(false, nil)` if that predicate is false and the
predicate's error if it errors; the predicates after the stopping one and the
`Any` list have no influence. -/
theorem EvaluateConditions_all (w : World) (activity : Activity) (c : PipelineConditions)
    (hAll : c.All ≠ []) :
    (EvaluateConditions w activity (some c) = (true, none) ↔
        ∀ p ∈ c.All, EvaluateCondition w activity p = (true, none)) ∧
    (∀ pre p post, c.All = pre ++ p :: post →
        (∀ q ∈ pre, EvaluateCondition w activity q = (true, none)) →
        (EvaluateCondition w activity p = (false, none) →
          EvaluateConditions w activity (some c) = (false, none)) ∧
        (∀ b e, EvaluateCondition w activity p = (b, some e) →
          EvaluateConditions w activity (some c) = (false, some e)) ∧
        (EvaluateCondition w activity p ≠ (true, none) →
          ∀ post2 any2, EvaluateConditions w activity (some ⟨pre ++ p :: post2, any2⟩) =
            EvaluateConditions w activity (some c))) ∧
    (∀ any2, EvaluateConditions w activity (some ⟨c.All, any2⟩) =
        EvaluateConditions w activity (some c)) := by
  refine ⟨?_, ?_, ?_⟩
  · rw [EvaluateConditions_of_all w activity c hAll]
    exact evalAll_true_iff w activity c.All
  · intro pre p post hc hpre
    have hrun : EvaluateConditions w activity (some c) = evalAll w activity (p :: post) := by
      rw [EvaluateConditions_of_all w activity c hAll, hc, evalAll_append w activity pre _ hpre]
    refine ⟨?_, ?_, ?_⟩
    · intro hp
      rw [hrun, evalAll_cons_false w activity p post hp]
    · intro b e hp
      rw [hrun, evalAll_cons_err w activity p post b e hp]
    · intro hp post2 any2
      rw [hrun, EvaluateConditions_of_all w activity ⟨pre ++ p :: post2, any2⟩ (by simp),
        evalAll_append w activity pre _ hpre]
      rcases EvaluateCondition_shape w activity p with h | h | h
      · exact absurd h hp
      · rw [evalAll_cons_false w activity p post h, evalAll_cons_false w activity p post2 h]
      · rw [evalAll_cons_err w activity p post _ _ h, evalAll_cons_err w activity p post2 _ _ h]
  · intro any2
    rw [EvaluateConditions_of_all w activity c hAll,
      EvaluateConditions_of_all w activity ⟨c.All, any2⟩ hAll]

/-- Witness of C1: `All = ["a=1", "b=2"]` with `a = 1`, `b = 3` stops at the
second predicate and answers false. -/
theorem EvaluateConditions_all_witness :
    EvaluateConditions exWorld { EnvVars := [("a".toList, "1".toList), ("b".toList, "3".toList)] }
      (some { All := ["a=1".toList, "b=2".toList] }) = (false, none) :=
  ((EvaluateConditions_all exWorld
      { EnvVars := [("a".toList, "1".toList), ("b".toList, "3".toList)] }
      { All := ["a=1".toList, "b=2".toList] } (by decide)).2.1
    ["a=1".toList] "b=2".toList [] rfl (by decide)).1 (by decide)

/-- C2: with an empty `All` list and a non-empty `Any` list,
`EvaluateConditions` is the left-to-right short-circuiting disjunction of the
`Any` predicates: it answers `(true, nil)` exactly when some predicate is true
and every predicate before it is false without error, whatever the predicates
after it are; when every predicate is false without error it answers
`(false, nil)`. -/
theorem EvaluateConditions_any (w : World) (activity : Activity) (c : PipelineConditions)
    (hAll : c.All = []) (hAny : c.Any ≠ []) :
    (EvaluateConditions w activity (some c) = (true, none) ↔
        ∃ pre p post, c.Any = pre ++ p :: post ∧
          (∀ q ∈ pre, EvaluateCondition w activity q = (false, none)) ∧
          EvaluateCondition w activity p = (true, none)) ∧
    ((∀ p ∈ c.Any, EvaluateCondition w activity p = (false, none)) →
        EvaluateConditions w activity (some c) = (false, none)) := by
  rw [EvaluateConditions_of_any w activity c hAll hAny]
  exact ⟨evalAny_true_iff w activity c.Any, evalAny_all_false w activity c.Any⟩

/-- Witness of C2: `Any = ["a=1", "a=2"]` with `a = 2` answers true, also when
a malformed predicate follows. -/
theorem EvaluateConditions_any_witness :
    EvaluateConditions exWorld { EnvVars := [("a".toList, "2".toList)] }
      (some { Any := ["a=1".toList, "a=2".toList, "malformed".toList] }) = (true, none) ∧
    EvaluateConditions exWorld { EnvVars := [("a".toList, "2".toList)] }
      (some { Any := ["a=1".toList, "a=2".toList] }) = (true, none) :=
  ⟨(EvaluateConditions_any exWorld { EnvVars := [("a".toList, "2".toList)] }
      { Any := ["a=1".toList, "a=2".toList, "malformed".toList] } rfl (by decide)).1.mpr
      ⟨["a=1".toList], "a=2".toList, ["malformed".toList], rfl, by decide, by decide⟩,
   by decide⟩

theorem evalAll_err_ne_nil (w : World) (a : Activity) (l : List Str) :
    (evalAll w a l).2 ≠ some (Err.error "Nil condition".toList) := by
  induction l with
  | nil => simp [evalAll]
  | cons p l ih =>
    rcases EvaluateCondition_shape w a p with h | h | h
    · rw [evalAll_cons_true w a p l h]; exact ih
    · rw [evalAll_cons_false w a p l h]; simp
    · rw [evalAll_cons_err w a p l _ _ h]
      intro hc
      exact parse_error_ne_nil p (Option.some.inj hc)

theorem evalAny_err_ne_nil (w : World) (a : Activity) (l : List Str) :
    (evalAny w a l).2 ≠ some (Err.error "Nil condition".toList) := by
  induction l with
  | nil => simp [evalAny]
  | cons p l ih =>
    rcases EvaluateCondition_shape w a p with h | h | h
    · rw [evalAny_cons_true w a p l h]; simp
    · rw [evalAny_cons_false w a p l h]; exact ih
    · rw [evalAny_cons_err w a p l _ _ h]
      intro hc
      exact parse_error_ne_nil p (Option.some.inj hc)

theorem EvaluateConditions_nil_iff (w : World) (a : Activity) (cond : Option PipelineConditions) :
    (EvaluateConditions w a cond).2 = some (Err.error "Nil condition".toList) ↔
      (cond = none ∨ ∃ c, cond = some c ∧ c.All = [] ∧ c.Any = []) := by
  cases cond with
  | none => simp [EvaluateConditions]
  | some c =>
    by_cases hA : c.All = []
    · by_cases hB : c.Any = []
      · simp [EvaluateConditions, hA, hB]
      · rw [EvaluateConditions_of_any w a c hA hB]
        constructor
        · intro h
          exact absurd h (evalAny_err_ne_nil w a c.Any)
        · rintro (h | ⟨c2, h, -, h2⟩)
          · exact Option.noConfusion h
          · exact absurd ((Option.some.inj h) ▸ h2) hB
    · rw [EvaluateConditions_of_all w a c hA]
      constructor
      · intro h
        exact absurd h (evalAll_err_ne_nil w a c.All)
      · rintro (h | ⟨c2, h, h2, -⟩)
        · exact Option.noConfusion h
        · exact absurd ((Option.some.inj h) ▸ h2) hA

theorem HasStageCondition_false_iff (stage : Stage) :
    HasStageCondition stage = false ↔
      (stage.Conditions = none ∨ ∃ c, stage.Conditions = some c ∧ c.All = [] ∧ c.Any = []) := by
  unfold HasStageCondition
  cases stage.Conditions with
  | none => simp
  | some c => simp [List.length_pos]

theorem HasStepCondition_false_iff (step : Step) :
    HasStepCondition step = false ↔
      (step.Conditions = none ∨ ∃ c, step.Conditions = some c ∧ c.All = [] ∧ c.Any = []) := by
  unfold HasStepCondition
  cases step.Conditions with
  | none => simp
  | some c => simp [List.length_pos]

/-- C4: `EvaluateConditions` returns the error `Nil condition` exactly when the
condition set is nil or both of its lists are empty, which is exactly when
`HasStageCondition` (for a stage) or `HasStepCondition` (for a step) is false;
so the call that `RunStage` and `RunStep` make under that guard never returns
the error `Nil condition`. -/
theorem EvaluateConditions_nil_condition (w : World) (activity : Activity)
    (cond : Option PipelineConditions) :
    ((EvaluateConditions w activity cond).2 = some (Err.error "Nil condition".toList) ↔
        (cond = none ∨ ∃ c, cond = some c ∧ c.All = [] ∧ c.Any = [])) ∧
    (∀ stage : Stage, HasStageCondition stage = false ↔
        (EvaluateConditions w activity stage.Conditions).2 =
          some (Err.error "Nil condition".toList)) ∧
    (∀ step : Step, HasStepCondition step = false ↔
        (EvaluateConditions w activity step.Conditions).2 =
          some (Err.error "Nil condition".toList)) ∧
    (∀ stage : Stage, HasStageCondition stage = true →
        (EvaluateConditions w activity stage.Conditions).2 ≠
          some (Err.error "Nil condition".toList)) ∧
    (∀ step : Step, HasStepCondition step = true →
        (EvaluateConditions w activity step.Conditions).2 ≠
          some (Err.error "Nil condition".toList)) := by
  refine ⟨EvaluateConditions_nil_iff w activity cond, ?_, ?_, ?_, ?_⟩
  · intro stage
    rw [HasStageCondition_false_iff, EvaluateConditions_nil_iff]
  · intro step
    rw [HasStepCondition_false_iff, EvaluateConditions_nil_iff]
  · intro stage h hc
    rw [EvaluateConditions_nil_iff, ← HasStageCondition_false_iff] at hc
    rw [h] at hc
    exact Bool.noConfusion hc
  · intro step h hc
    rw [EvaluateConditions_nil_iff, ← HasStepCondition_false_iff] at hc
    rw [h] at hc
    exact Bool.noConfusion hc

theorem lazyKey_cons_hit (sep : Str) (c : Char) (t : Str)
    (h : sep.isPrefixOf (c :: t) = true) :
    lazyKey sep (c :: t) = some ([], (c :: t).drop sep.length) := by
  simp only [lazyKey]
  rw [if_pos h]

theorem lazyKey_cons_miss (sep : Str) (c : Char) (t k r : Str)
    (h : ¬ sep.isPrefixOf (c :: t) = true) (hc : c ≠ '\n') (ht : lazyKey sep t = some (k, r)) :
    lazyKey sep (c :: t) = some (c :: k, r) := by
  simp only [lazyKey]
  rw [if_neg h, if_neg hc, ht]

theorem lazyKey_hit (s0 : Char) (srest K V : Str) (h0 : s0 ∉ K) (hnl : '\n' ∉ K) :
    lazyKey (s0 :: srest) (K ++ (s0 :: srest) ++ V) = some (K, V) := by
  induction K with
  | nil =>
    have hp : (s0 :: srest).isPrefixOf (s0 :: (srest ++ V)) = true := by
      rw [List.isPrefixOf_iff_prefix]
      exact List.prefix_append (s0 :: srest) V
    have := lazyKey_cons_hit (s0 :: srest) s0 (srest ++ V) hp
    simpa using this
  | cons c K ih =>
    have hc : c ≠ s0 := fun h => h0 (h ▸ List.mem_cons_self _ _)
    have hcn : c ≠ '\n' := fun h => hnl (h ▸ List.mem_cons_self _ _)
    have hp : ¬ (s0 :: srest).isPrefixOf (c :: (K ++ (s0 :: srest) ++ V)) = true := by
      simp [List.isPrefixOf, Ne.symm hc]
    exact lazyKey_cons_miss (s0 :: srest) c (K ++ (s0 :: srest) ++ V) K V hp hcn
      (ih (fun h => h0 (List.mem_cons_of_mem _ h)) (fun h => hnl (List.mem_cons_of_mem _ h)))

theorem findSubmatch_of_lazyKey (sep s k r : Str) (h : lazyKey sep s = some (k, r)) :
    findSubmatch sep s = some (k, r.takeWhile (fun c => c ≠ '\n')) := by
  cases s with
  | nil => simp only [findSubmatch, h]
  | cons c t => simp only [findSubmatch, h]

theorem takeWhile_no_newline (V : Str) (h : '\n' ∉ V) :
    V.takeWhile (fun c => decide (c ≠ '\n')) = V := by
  rw [List.takeWhile_eq_self_iff]
  intro c hc
  simp only [ne_eq, decide_not, Bool.not_eq_eq_eq_not, Bool.not_true, decide_eq_false_iff_not]
  exact fun h2 => h (h2 ▸ hc)

theorem GetParams_hit (s0 : Char) (srest K V : Str) (h0 : s0 ∉ K) (hnl : '\n' ∉ K)
    (hV : '\n' ∉ V) : GetParams (s0 :: srest) (K ++ (s0 :: srest) ++ V) = (K, V) := by
  unfold GetParams
  rw [findSubmatch_of_lazyKey _ _ K V (lazyKey_hit s0 srest K V h0 hnl),
    takeWhile_no_newline V hV]
  rfl

theorem lazyKey_sound (sep : Str) (s k r : Str) (h : lazyKey sep s = some (k, r)) :
    s = k ++ sep ++ r := by
  induction s generalizing k r with
  | nil =>
    simp only [lazyKey] at h
    split_ifs at h with hp
    simp only [Option.some.injEq, Prod.mk.injEq] at h
    rw [List.isPrefixOf_iff_prefix] at hp
    have := List.prefix_nil.mp hp
    simp [this, ← h.1, ← h.2]
  | cons c t ih =>
    simp only [lazyKey] at h
    split_ifs at h with hp hc
    · simp only [Option.some.injEq, Prod.mk.injEq] at h
      rw [List.isPrefixOf_iff_prefix] at hp
      obtain ⟨u, hu⟩ := hp
      rw [← h.1, ← h.2, ← hu]
      simp
    · cases hl : lazyKey sep t with
      | none => simp [hl] at h
      | some kr =>
        obtain ⟨k2, r2⟩ := kr
        simp only [hl, Option.some.injEq, Prod.mk.injEq] at h
        rw [← h.1, ← h.2, ih k2 r2 hl]
        simp

theorem findSubmatch_occurs (sep : Str) (s : Str) (kv : Str × Str)
    (h : findSubmatch sep s = some kv) : sep <:+: s := by
  induction s with
  | nil =>
    simp only [findSubmatch] at h
    cases hl : lazyKey sep [] with
    | none => simp [hl] at h
    | some kr =>
      have := lazyKey_sound sep [] kr.1 kr.2 hl
      exact ⟨kr.1, kr.2, this.symm⟩
  | cons c t ih =>
    simp only [findSubmatch] at h
    cases hl : lazyKey sep (c :: t) with
    | none =>
      simp only [hl] at h
      obtain ⟨a, b, hab⟩ := ih h
      exact ⟨c :: a, b, by simp [← hab]⟩
    | some kr =>
      have := lazyKey_sound sep (c :: t) kr.1 kr.2 hl
      exact ⟨kr.1, kr.2, this.symm⟩

theorem GetParams_miss (sep s : Str) (h : ¬ sep <:+: s) : GetParams sep s = ([], []) := by
  unfold GetParams
  cases hf : findSubmatch sep s with
  | none => rfl
  | some kv => exact absurd (findSubmatch_occurs sep s kv hf) h

theorem no_bang_eq_occurs (K V : Str) (hK : '!' ∉ K) (hV : ¬ "!=".toList <:+: V) :
    ¬ "!=".toList <:+: (K ++ "=".toList ++ V) := by
  induction K with
  | nil =>
    rintro ⟨a, b, hab⟩
    cases a with
    | nil => simp at hab
    | cons x a =>
      simp only [List.cons_append, List.nil_append, String.toList, List.cons.injEq] at hab
      exact hV ⟨a, b, by simpa using hab.2⟩
  | cons c K ih =>
    rintro ⟨a, b, hab⟩
    cases a with
    | nil =>
      simp only [List.cons_append, List.nil_append, String.toList, List.cons.injEq] at hab
      exact hK (hab.1 ▸ List.mem_cons_self _ _)
    | cons x a =>
      simp only [List.cons_append, List.cons.injEq] at hab
      exact ih (fun h => hK (List.mem_cons_of_mem _ h)) ⟨a, b, hab.2⟩

/-- C3: on a single-line condition `K!=V` with non-empty `K` and `V`, where `K`
holds no `!` (it may hold `=`: the `!=` form comes first), `EvaluateCondition`
answers whether `EnvVars[SubstituteVar(K)]` differs from `SubstituteVar(V)`,
with no error; on a single-line condition `K=V` where moreover `K` holds no
`=` and `V` does not contain `!=`, it answers whether they are equal, with no
error; a variable absent from `EnvVars` reads as the empty string. Each of the
two calls of `SubstituteVar` is the fold of the three replacements over the map
in the order in which its own `range` loop visits it, whatever the two orders
are. -/
theorem EvaluateCondition_forms (w : World) (activity : Activity) (K V : Str)
    (hK : K ≠ []) (hV : V ≠ []) (hKbang : '!' ∉ K) (hKnl : '\n' ∉ K) (hVnl : '\n' ∉ V) :
    EvaluateCondition w activity (K ++ "!=".toList ++ V) =
      (decide (mapGet activity.EnvVars
          (SubstituteVar (visited w (K ++ "!=".toList ++ V) false activity) K) ≠
        SubstituteVar (visited w (K ++ "!=".toList ++ V) true activity) V), none) ∧
    ('=' ∉ K → ¬ "!=".toList <:+: V →
      EvaluateCondition w activity (K ++ "=".toList ++ V) =
        (decide (mapGet activity.EnvVars
            (SubstituteVar (visited w (K ++ "=".toList ++ V) false activity) K) =
          SubstituteVar (visited w (K ++ "=".toList ++ V) true activity) V), none)) ∧
    (∀ name, name ∉ activity.EnvVars.map Prod.fst → mapGet activity.EnvVars name = []) ∧
    (∀ (condition : Str) (second : Bool) (text : Str),
      SubstituteVar (visited w condition second activity) text =
        (w.rangeOrder condition second activity.EnvVars).foldl substituteOne text) := by
  refine ⟨?_, ?_, ?_, fun _ _ _ => rfl⟩
  · have hm : GetParams "!=".toList (K ++ "!=".toList ++ V) = (K, V) :=
      GetParams_hit '!' ['='] K V hKbang hKnl hVnl
    unfold EvaluateCondition
    simp only [hm]
    rw [if_pos ⟨hK, hV⟩]
    split_ifs with h
    · exact (congrArg (fun b => (b, (none : Option Err))) (decide_eq_true h)).symm
    · exact (congrArg (fun b => (b, (none : Option Err))) (decide_eq_false h)).symm
  · intro hKeq hVne
    have hm1 : GetParams "!=".toList (K ++ "=".toList ++ V) = ([], []) :=
      GetParams_miss _ _ (no_bang_eq_occurs K V hKbang hVne)
    have hm2 : GetParams "=".toList (K ++ "=".toList ++ V) = (K, V) :=
      GetParams_hit '=' [] K V hKeq hKnl hVnl
    unfold EvaluateCondition
    simp only [hm1, hm2]
    rw [if_neg (by simp), if_pos ⟨hK, hV⟩]
    split_ifs with h
    · exact (congrArg (fun b => (b, (none : Option Err))) (decide_eq_true h)).symm
    · exact (congrArg (fun b => (b, (none : Option Err))) (decide_eq_false h)).symm
  · intro name hname
    unfold mapGet
    have : activity.EnvVars.lookup name = none := by
      rw [List.lookup_eq_none_iff]
      intro p hp
      simp only [bne_iff_ne, ne_eq]
      intro hpe
      apply hname
      rw [List.mem_map]
      exact ⟨p, hp, hpe.symm⟩
    rw [this]; rfl

/-- Witness of C3: with `a = 1`, the condition `a!=2` holds and `a=2` does not.
With the variables `A`, `B`, `1` and `${B}` of `exLoopVars`, the
condition `${A}=${A}` holds when both loops visit the map in the
same order, and does not hold when the second loop visits it in the reverse
order: the key becomes `1`, whose value is `1`, and the value becomes
`${B}`. -/
theorem EvaluateCondition_forms_witness :
    EvaluateCondition exWorld { EnvVars := [("a".toList, "1".toList)] } "a!=2".toList =
      (true, none) ∧
    EvaluateCondition exWorld { EnvVars := [("a".toList, "1".toList)] } "a=2".toList =
      (false, none) ∧
    EvaluateCondition exWorld exLoopVars "$\x7bA\x7d=$\x7bA\x7d".toList = (true, none) ∧
    EvaluateCondition exShuffle exLoopVars "$\x7bA\x7d=$\x7bA\x7d".toList = (false, none) :=
  ⟨(EvaluateCondition_forms exWorld { EnvVars := [("a".toList, "1".toList)] } "a".toList
      "2".toList (by decide) (by decide) (by decide) (by decide) (by decide)).1.trans
      (by decide),
   ((EvaluateCondition_forms exWorld { EnvVars := [("a".toList, "1".toList)] } "a".toList
      "2".toList (by decide) (by decide) (by decide) (by decide) (by decide)).2.1 (by decide)
      (by decide)).trans (by decide),
   ((EvaluateCondition_forms exWorld exLoopVars "$\x7bA\x7d".toList "$\x7bA\x7d".toList
      (by decide) (by decide) (by decide) (by decide) (by decide)).2.1 (by decide)
      (by decide)).trans (by decide),
   ((EvaluateCondition_forms exShuffle exLoopVars "$\x7bA\x7d".toList "$\x7bA\x7d".toList
      (by decide) (by decide) (by decide) (by decide) (by decide)).2.1 (by decide)
      (by decide)).trans (by decide)⟩

/-! ## Variable substitution -/

theorem replaceFrom_hit (old new : Str) (c : Char) (t : Str)
    (h : old.isPrefixOf (c :: t) = true) :
    replaceFrom old new 0 (c :: t) = new ++ replaceFrom old new (old.length - 1) t := by
  simp only [replaceFrom]
  rw [if_pos h]

theorem replaceFrom_miss (old new : Str) (c : Char) (t : Str)
    (h : ¬ old.isPrefixOf (c :: t) = true) :
    replaceFrom old new 0 (c :: t) = c :: replaceFrom old new 0 t := by
  simp only [replaceFrom]
  rw [if_neg h]

theorem replaceFrom_no_head (o : Char) (os new s : Str) (h : o ∉ s) :
    replaceFrom (o :: os) new 0 s = s := by
  induction s with
  | nil => simp [replaceFrom]
  | cons c t ih =>
    have hc : o ≠ c := fun e => h (e ▸ List.mem_cons_self _ _)
    rw [replaceFrom_miss _ _ _ _ (by simp [List.isPrefixOf, hc]),
      ih (fun e => h (List.mem_cons_of_mem _ e))]

theorem replaceFrom_append_pre (o : Char) (os new pre s : Str) (h : o ∉ pre) :
    replaceFrom (o :: os) new 0 (pre ++ s) = pre ++ replaceFrom (o :: os) new 0 s := by
  induction pre with
  | nil => rfl
  | cons c t ih =>
    have hc : o ≠ c := fun e => h (e ▸ List.mem_cons_self _ _)
    rw [List.cons_append, replaceFrom_miss _ _ _ _ (by simp [List.isPrefixOf, hc]),
      ih (fun e => h (List.mem_cons_of_mem _ e)), List.cons_append]

theorem replaceFrom_skip (old new xs rest : Str) :
    replaceFrom old new xs.length (xs ++ rest) = replaceFrom old new 0 rest := by
  induction xs with
  | nil => rfl
  | cons c t ih => simpa [replaceFrom] using ih

theorem Replace_no_dollar (s body v : Str) (h : '$' ∉ s) :
    Replace s ('$' :: body) v = s := by
  unfold Replace
  rw [if_neg (by simp)]
  exact replaceFrom_no_head '$' body v s h

/-- Replacement in a text whose only `$` starts `rest`. -/
theorem Replace_single_dollar (a rest body v : Str) (ha : '$' ∉ a) (hr : '$' ∉ rest) :
    Replace (a ++ '$' :: rest) ('$' :: body) v =
      if body.isPrefixOf rest = true then a ++ v ++ rest.drop body.length
      else a ++ '$' :: rest := by
  unfold Replace
  rw [if_neg (by simp), replaceFrom_append_pre '$' body v a _ ha]
  by_cases hp : body.isPrefixOf rest = true
  · rw [if_pos hp]
    have hp2 : ('$' :: body).isPrefixOf ('$' :: rest) = true := by
      simpa [List.isPrefixOf] using hp
    rw [replaceFrom_hit _ _ _ _ hp2]
    rw [List.isPrefixOf_iff_prefix] at hp
    obtain ⟨u, rfl⟩ := hp
    have hu : '$' ∉ u := fun e => hr (List.mem_append_right _ e)
    simp only [List.length_cons, Nat.add_sub_cancel, List.drop_left]
    rw [replaceFrom_skip _ _ body u, replaceFrom_no_head '$' body v u hu]
    simp
  · rw [if_neg hp]
    have hp2 : ¬ ('$' :: body).isPrefixOf ('$' :: rest) = true := by
      simpa [List.isPrefixOf] using hp
    rw [replaceFrom_miss _ _ _ _ hp2, replaceFrom_no_head '$' body v rest hr]

theorem substituteOne_no_dollar (t : Str) (kv : Str × Str) (h : '$' ∉ t) :
    substituteOne t kv = t := by
  unfold substituteOne
  simp only [List.cons_append]
  rw [Replace_no_dollar t _ _ h, Replace_no_dollar t _ _ h, Replace_no_dollar t _ _ h]

theorem foldl_substituteOne_no_dollar (env : List (Str × Str)) (t : Str) (h : '$' ∉ t) :
    env.foldl substituteOne t = t := by
  induction env with
  | nil => rfl
  | cons kv env ih => rw [List.foldl_cons, substituteOne_no_dollar t kv h, ih]

theorem ident_ne (c d : Char) (hc : isIdentChar c = true) (hd : isIdentChar d = false) :
    c ≠ d := by
  intro h
  rw [h, hd] at hc
  exact Bool.noConfusion hc

/-- A key followed by a character outside names is no prefix of a text starting
with such a character other than that one. -/
theorem ident_prefix_other (k : Str) (e d : Char) (r : Str) (hk : isIdent k)
    (hd : isIdentChar d = false) (hed : e ≠ d) :
    (k ++ [e]).isPrefixOf (d :: r) = false := by
  cases k with
  | nil => simp [List.isPrefixOf, hed]
  | cons c k =>
    have : c ≠ d := ident_ne c d (hk c (List.mem_cons_self _ _)) hd
    simp [List.isPrefixOf, this]

theorem brace_prefix_iff (k N b : Str) (hk : '}' ∉ k) (hN : '}' ∉ N) :
    (k ++ ['}']).isPrefixOf (N ++ '}' :: b) = true ↔ k = N := by
  induction k generalizing N with
  | nil =>
    cases N with
    | nil => simp [List.isPrefixOf]
    | cons n N =>
      have : n ≠ '}' := fun e => hN (e ▸ List.mem_cons_self _ _)
      simp [List.isPrefixOf, Ne.symm this]
  | cons c k ih =>
    have hc : c ≠ '}' := fun e => hk (e ▸ List.mem_cons_self _ _)
    cases N with
    | nil => simp [List.isPrefixOf, hc]
    | cons n N =>
      have := ih N (fun e => hk (List.mem_cons_of_mem _ e)) (fun e => hN (List.mem_cons_of_mem _ e))
      have e : (c :: k ++ ['}']).isPrefixOf (n :: N ++ '}' :: b) =
          (c == n && (k ++ ['}']).isPrefixOf (N ++ '}' :: b)) := rfl
      rw [e, Bool.and_eq_true, this, beq_iff_eq, List.cons.injEq]

theorem ident_no_brace (k : Str) (hk : isIdent k) : '}' ∉ k := by
  intro h
  have := hk _ h
  exact absurd this (by decide)

theorem ident_no_dollar (k : Str) (hk : isIdent k) : '$' ∉ k := by
  intro h
  have := hk _ h
  exact absurd this (by decide)

/-- One round of `SubstituteVar` on a text whose only `$` opens `${N}`. -/
theorem substituteOne_braces (a N b k v : Str) (ha : '$' ∉ a) (hb : '$' ∉ b)
    (hN1 : '$' ∉ N) (hN2 : '}' ∉ N) (hk : isIdent k) :
    substituteOne (a ++ '$' :: '{' :: (N ++ '}' :: b)) (k, v) =
      if k = N then a ++ v ++ b else a ++ '$' :: '{' :: (N ++ '}' :: b) := by
  have hr : '$' ∉ '{' :: (N ++ '}' :: b) := by
    simp only [List.mem_cons, List.mem_append, not_or]
    exact ⟨by decide, hN1, by decide, hb⟩
  unfold substituteOne
  simp only [List.cons_append]
  rw [Replace_single_dollar a _ (k ++ [' ']) v ha hr,
    if_neg (by rw [ident_prefix_other k ' ' '{' _ hk (by decide) (by decide)]; simp)]
  rw [Replace_single_dollar a _ (k ++ ['\n']) v ha hr,
    if_neg (by rw [ident_prefix_other k '\n' '{' _ hk (by decide) (by decide)]; simp)]
  rw [Replace_single_dollar a _ ('{' :: (k ++ ['}'])) v ha hr]
  have hiff : ('{' :: (k ++ ['}'])).isPrefixOf ('{' :: (N ++ '}' :: b)) = true ↔ k = N := by
    rw [← brace_prefix_iff k N b (ident_no_brace k hk) hN2]
    simp [List.isPrefixOf]
  by_cases hkN : k = N
  · rw [if_pos (hiff.mpr hkN), if_pos hkN]
    subst hkN
    have : '{' :: (k ++ '}' :: b) = ('{' :: (k ++ ['}'])) ++ b := by simp
    rw [this, List.drop_left]
  · rw [if_neg (fun h => hkN (hiff.mp h)), if_neg hkN]

theorem foldl_substituteOne_braces (env : List (Str × Str)) (a N b : Str)
    (ha : '$' ∉ a) (hb : '$' ∉ b) (hN1 : '$' ∉ N) (hN2 : '}' ∉ N)
    (hkeys : ∀ kv ∈ env, isIdent kv.1) (hvals : ∀ kv ∈ env, '$' ∉ kv.2) :
    env.foldl substituteOne (a ++ '$' :: '{' :: (N ++ '}' :: b)) =
      match env.lookup N with
      | some v => a ++ v ++ b
      | none => a ++ '$' :: '{' :: (N ++ '}' :: b) := by
  induction env with
  | nil => rfl
  | cons kv env ih =>
    obtain ⟨k, v⟩ := kv
    rw [List.foldl_cons, substituteOne_braces a N b k v ha hb hN1 hN2
      (hkeys (k, v) (List.mem_cons_self _ _))]
    by_cases hkN : k = N
    · subst hkN
      have hv : '$' ∉ v := hvals (k, v) (List.mem_cons_self _ _)
      rw [if_pos rfl, foldl_substituteOne_no_dollar env _ (by simp [ha, hb, hv])]
      simp [List.lookup]
    · rw [if_neg hkN, ih (fun x hx => hkeys x (List.mem_cons_of_mem _ hx))
        (fun x hx => hvals x (List.mem_cons_of_mem _ hx))]
      have : (N == k) = false := by simpa using fun h => hkN h.symm
      simp [List.lookup, this]

theorem lookup_eq_some_iff_mem (env : List (Str × Str)) (hnd : (env.map Prod.fst).Nodup)
    (k v : Str) : env.lookup k = some v ↔ (k, v) ∈ env := by
  induction env with
  | nil => simp
  | cons kv env ih =>
    obtain ⟨k2, v2⟩ := kv
    simp only [List.map_cons, List.nodup_cons] at hnd
    by_cases hk : k = k2
    · subst hk
      simp only [List.lookup, beq_self_eq_true, Option.some.injEq, List.mem_cons, Prod.mk.injEq,
        true_and]
      constructor
      · intro h; exact Or.inl h.symm
      · rintro (h | h)
        · exact h.symm
        · exact absurd (List.mem_map_of_mem Prod.fst h) hnd.1
    · have : (k == k2) = false := by simpa using hk
      simp only [List.lookup, this, List.mem_cons, Prod.mk.injEq, hk, false_and, false_or]
      exact ih hnd.2

theorem lookup_perm (env env2 : List (Str × Str)) (hnd : (env.map Prod.fst).Nodup)
    (hp : env2.Perm env) (k : Str) : env2.lookup k = env.lookup k := by
  have hnd2 : (env2.map Prod.fst).Nodup := (hp.map Prod.fst).nodup_iff.mpr hnd
  cases h : env.lookup k with
  | some v =>
    rw [lookup_eq_some_iff_mem env2 hnd2]
    exact hp.mem_iff.mpr ((lookup_eq_some_iff_mem env hnd k v).mp h)
  | none =>
    cases h2 : env2.lookup k with
    | none => rfl
    | some v =>
      have := (lookup_eq_some_iff_mem env hnd k v).mpr
        (hp.mem_iff.mp ((lookup_eq_some_iff_mem env2 hnd2 k v).mp h2))
      rw [h] at this
      exact Option.noConfusion this

theorem braces_text_eq (a N b : Str) :
    a ++ "$\x7b".toList ++ N ++ "\x7d".toList ++ b = a ++ '$' :: '{' :: (N ++ '}' :: b) := by
  simp

/-- C6, as the code has it: with identifier keys and values free of `$`, on a
text `a ++ "${N}" ++ b` where `a` and `b` hold no `$` and the name `N` holds
neither `$` nor `}`, `SubstituteVar` returns `a ++ EnvVars[N] ++ b` when `N` is
a key and the text unchanged when it is not, whatever the order in which the
map is visited; a text without `$` is returned unchanged. -/
theorem SubstituteVar_braces (activity : Activity) (a N b : Str)
    (hkeys : ∀ kv ∈ activity.EnvVars, isIdent kv.1)
    (hvals : ∀ kv ∈ activity.EnvVars, '$' ∉ kv.2)
    (hnd : (activity.EnvVars.map Prod.fst).Nodup)
    (ha : '$' ∉ a) (hb : '$' ∉ b) (hN1 : '$' ∉ N) (hN2 : '}' ∉ N) :
    (N ∈ activity.EnvVars.map Prod.fst →
      SubstituteVar activity (a ++ "$\x7b".toList ++ N ++ "\x7d".toList ++ b) =
        a ++ mapGet activity.EnvVars N ++ b) ∧
    (N ∉ activity.EnvVars.map Prod.fst →
      SubstituteVar activity (a ++ "$\x7b".toList ++ N ++ "\x7d".toList ++ b) =
        a ++ "$\x7b".toList ++ N ++ "\x7d".toList ++ b) ∧
    (∀ env2 : List (Str × Str), env2.Perm activity.EnvVars →
      SubstituteVar { activity with EnvVars := env2 } (a ++ "$\x7b".toList ++ N ++ "\x7d".toList ++ b) =
        SubstituteVar activity (a ++ "$\x7b".toList ++ N ++ "\x7d".toList ++ b)) ∧
    (∀ t : Str, '$' ∉ t → SubstituteVar activity t = t) := by
  have hfold := foldl_substituteOne_braces activity.EnvVars a N b ha hb hN1 hN2 hkeys hvals
  refine ⟨?_, ?_, ?_, ?_⟩
  · intro hmem
    rw [braces_text_eq]
    unfold SubstituteVar mapGet
    rw [hfold]
    cases h : activity.EnvVars.lookup N with
    | some v => rfl
    | none =>
      rw [List.lookup_eq_none_iff] at h
      obtain ⟨kv, hkv, hk⟩ := List.mem_map.mp hmem
      have := h kv hkv
      simp [hk] at this
  · intro hmem
    rw [braces_text_eq]
    unfold SubstituteVar
    rw [hfold]
    cases h : activity.EnvVars.lookup N with
    | none => rfl
    | some v =>
      exact absurd (List.mem_map_of_mem Prod.fst
        ((lookup_eq_some_iff_mem activity.EnvVars hnd N v).mp h)) hmem
  · intro env2 hp
    rw [braces_text_eq]
    unfold SubstituteVar
    rw [hfold]
    have hfold2 := foldl_substituteOne_braces env2 a N b ha hb hN1 hN2
      (fun kv h => hkeys kv (hp.mem_iff.mp h)) (fun kv h => hvals kv (hp.mem_iff.mp h))
    simp only []
    rw [hfold2, lookup_perm activity.EnvVars env2 hnd hp N]
  · intro t ht
    exact foldl_substituteOne_no_dollar activity.EnvVars t ht

/-- Witness of C6 as amended: with `A = 1` and `B = 2`, the text `x${B}y`
becomes `x2y`. -/
theorem SubstituteVar_braces_witness :
    SubstituteVar { EnvVars := [("A".toList, "1".toList), ("B".toList, "2".toList)] }
      "x$\x7bB\x7dy".toList = "x2y".toList :=
  (SubstituteVar_braces { EnvVars := [("A".toList, "1".toList), ("B".toList, "2".toList)] }
    "x".toList "B".toList "y".toList (by decide) (by decide) (by decide) (by decide)
    (by decide) (by decide) (by decide)).1 (by decide)

/-- Counterexample to C6 as stated: with the single variable `A = 1`, the name
`$A ` between the braces is not a key, yet the text `x${$A }y` becomes
`x${1}y`, the replacement of `$A ` being applied inside the braces; and the
name `A}z` is not a key, yet the text `x${A}z}y` becomes `x1z}y`. -/
theorem SubstituteVar_braces_counterexample :
    isIdent "A".toList ∧ '$' ∉ "1".toList ∧ '$' ∉ "x".toList ∧ '$' ∉ "y".toList ∧
    "$A ".toList ∉ [("A".toList, "1".toList)].map Prod.fst ∧
    SubstituteVar { EnvVars := [("A".toList, "1".toList)] }
        ("x".toList ++ "$\x7b".toList ++ "$A ".toList ++ "\x7d".toList ++ "y".toList) =
      "x$\x7b1\x7dy".toList ∧
    "A\x7dz".toList ∉ [("A".toList, "1".toList)].map Prod.fst ∧
    SubstituteVar { EnvVars := [("A".toList, "1".toList)] }
        ("x".toList ++ "$\x7b".toList ++ "A\x7dz".toList ++ "\x7d".toList ++ "y".toList) =
      "x1z\x7dy".toList := by
  decide

/-- A key followed by a character outside names is a prefix of a name followed
by `post` only when the key is the name and `post` starts with that character. -/
theorem ident_tail_prefix_iff (k NAME post : Str) (e : Char) (hk : isIdent k)
    (hN : isIdent NAME) (he : isIdentChar e = false)
    (hpost : ∀ d r, post = d :: r → isIdentChar d = false) :
    (k ++ [e]).isPrefixOf (NAME ++ post) = true ↔ k = NAME ∧ post.head? = some e := by
  induction k generalizing NAME with
  | nil =>
    cases NAME with
    | nil =>
      cases post with
      | nil => simp [List.isPrefixOf]
      | cons d r =>
        have e1 : ([] ++ [e]).isPrefixOf ([] ++ d :: r) = (e == d && true) := by
          simp [List.isPrefixOf]
        rw [e1]
        simp only [Bool.and_true, beq_iff_eq, List.head?_cons, Option.some.injEq, true_and]
        exact eq_comm
    | cons n N =>
      have : n ≠ e := ident_ne n e (hN n (List.mem_cons_self _ _)) he
      simp [List.isPrefixOf, Ne.symm this]
  | cons c k ih =>
    have hc : isIdentChar c = true := hk c (List.mem_cons_self _ _)
    cases NAME with
    | nil =>
      cases post with
      | nil => simp [List.isPrefixOf]
      | cons d r =>
        have : c ≠ d := ident_ne c d hc (hpost d r rfl)
        simp [List.isPrefixOf, this]
    | cons n N =>
      have e1 : (c :: k ++ [e]).isPrefixOf (n :: N ++ post) =
          (c == n && (k ++ [e]).isPrefixOf (N ++ post)) := rfl
      rw [e1, Bool.and_eq_true, ih N (fun x hx => hk x (List.mem_cons_of_mem _ hx))
        (fun x hx => hN x (List.mem_cons_of_mem _ hx)), beq_iff_eq, List.cons.injEq, and_assoc]

theorem brace_pattern_miss (k NAME post : Str) (hN : isIdent NAME) (hne : NAME ≠ []) :
    ('{' :: (k ++ ['}'])).isPrefixOf (NAME ++ post) = false := by
  cases NAME with
  | nil => exact absurd rfl hne
  | cons n N =>
    have : n ≠ '{' := ident_ne n '{' (hN n (List.mem_cons_self _ _)) (by decide)
    simp [List.isPrefixOf, Ne.symm this]

/-- One round of `SubstituteVar` on `pre ++ "$NAME" ++ post` when no space or
newline follows the name: nothing is replaced. -/
theorem substituteOne_bare_keep (pre NAME post k v : Str) (hpre : '$' ∉ pre)
    (hpost : '$' ∉ post) (hN : isIdent NAME) (hne : NAME ≠ []) (hk : isIdent k)
    (hhead : ∀ d r, post = d :: r → isIdentChar d = false ∧ d ≠ ' ' ∧ d ≠ '\n') :
    substituteOne (pre ++ '$' :: (NAME ++ post)) (k, v) = pre ++ '$' :: (NAME ++ post) := by
  have hr : '$' ∉ NAME ++ post := by
    simp only [List.mem_append, not_or]
    exact ⟨ident_no_dollar NAME hN, hpost⟩
  have hp : ∀ d r, post = d :: r → isIdentChar d = false := fun d r h => (hhead d r h).1
  have h1 : ¬ (k ++ [' ']).isPrefixOf (NAME ++ post) = true := by
    rw [ident_tail_prefix_iff k NAME post ' ' hk hN (by decide) hp]
    rintro ⟨-, h⟩
    cases post with
    | nil => simp at h
    | cons d r =>
      simp only [List.head?_cons, Option.some.injEq] at h
      exact (hhead d r rfl).2.1 h
  have h2 : ¬ (k ++ ['\n']).isPrefixOf (NAME ++ post) = true := by
    rw [ident_tail_prefix_iff k NAME post '\n' hk hN (by decide) hp]
    rintro ⟨-, h⟩
    cases post with
    | nil => simp at h
    | cons d r =>
      simp only [List.head?_cons, Option.some.injEq] at h
      exact (hhead d r rfl).2.2 h
  unfold substituteOne
  simp only [List.cons_append]
  rw [Replace_single_dollar pre _ (k ++ [' ']) v hpre hr, if_neg h1,
    Replace_single_dollar pre _ (k ++ ['\n']) v hpre hr, if_neg h2,
    Replace_single_dollar pre _ ('{' :: (k ++ ['}'])) v hpre hr,
    if_neg (by rw [brace_pattern_miss k NAME post hN hne]; simp)]

/-- One round of `SubstituteVar` on `pre ++ "$NAME" ++ d :: rest` where `d` is a
space or a newline: the entry of `NAME` replaces the token and `d`. -/
theorem substituteOne_bare_hit (pre NAME rest k v : Str) (d : Char) (hpre : '$' ∉ pre)
    (hrest : '$' ∉ rest) (hN : isIdent NAME) (hne : NAME ≠ []) (hk : isIdent k)
    (hv : '$' ∉ v) (hd : d = ' ' ∨ d = '\n') :
    substituteOne (pre ++ '$' :: (NAME ++ d :: rest)) (k, v) =
      if k = NAME then pre ++ v ++ rest else pre ++ '$' :: (NAME ++ d :: rest) := by
  have hdi : isIdentChar d = false := by rcases hd with rfl | rfl <;> decide
  have hdd : d ≠ '$' := by rcases hd with rfl | rfl <;> decide
  have hr : '$' ∉ NAME ++ d :: rest := by
    simp only [List.mem_append, List.mem_cons, not_or]
    exact ⟨ident_no_dollar NAME hN, Ne.symm hdd, hrest⟩
  have hp : ∀ d2 r, d :: rest = d2 :: r → isIdentChar d2 = false := by
    intro d2 r h
    rw [List.cons.injEq] at h
    rw [← h.1]; exact hdi
  have hout : '$' ∉ pre ++ v ++ rest := by simp [hpre, hv, hrest]
  have hdrop : ∀ e : Char, List.drop (NAME ++ [e]).length (NAME ++ e :: rest) = rest := by
    intro e
    have : NAME ++ e :: rest = (NAME ++ [e]) ++ rest := by simp
    rw [this, List.drop_left]
  have h1 := ident_tail_prefix_iff k NAME (d :: rest) ' ' hk hN (by decide) hp
  have h2 := ident_tail_prefix_iff k NAME (d :: rest) '\n' hk hN (by decide) hp
  simp only [List.head?_cons, Option.some.injEq] at h1 h2
  unfold substituteOne
  simp only [List.cons_append]
  rw [Replace_single_dollar pre _ (k ++ [' ']) v hpre hr]
  by_cases hkN : k = NAME
  · subst hkN
    rw [if_pos rfl]
    rcases hd with rfl | rfl
    · rw [if_pos (h1.mpr ⟨rfl, rfl⟩), hdrop, Replace_no_dollar _ _ _ hout,
        Replace_no_dollar _ _ _ hout]
    · rw [if_neg (fun h => absurd (h1.mp h).2 (by decide)),
        Replace_single_dollar pre _ (k ++ ['\n']) v hpre hr, if_pos (h2.mpr ⟨rfl, rfl⟩), hdrop,
        Replace_no_dollar _ _ _ hout]
  · rw [if_neg hkN, if_neg (fun h => hkN (h1.mp h).1),
      Replace_single_dollar pre _ (k ++ ['\n']) v hpre hr, if_neg (fun h => hkN (h2.mp h).1),
      Replace_single_dollar pre _ ('{' :: (k ++ ['}'])) v hpre hr,
      if_neg (by rw [brace_pattern_miss k NAME (d :: rest) hN hne]; simp)]

theorem foldl_substituteOne_bare_keep (env : List (Str × Str)) (pre NAME post : Str)
    (hpre : '$' ∉ pre) (hpost : '$' ∉ post) (hN : isIdent NAME) (hne : NAME ≠ [])
    (hkeys : ∀ kv ∈ env, isIdent kv.1)
    (hhead : ∀ d r, post = d :: r → isIdentChar d = false ∧ d ≠ ' ' ∧ d ≠ '\n') :
    env.foldl substituteOne (pre ++ '$' :: (NAME ++ post)) = pre ++ '$' :: (NAME ++ post) := by
  induction env with
  | nil => rfl
  | cons kv env ih =>
    obtain ⟨k, v⟩ := kv
    rw [List.foldl_cons, substituteOne_bare_keep pre NAME post k v hpre hpost hN hne
      (hkeys (k, v) (List.mem_cons_self _ _)) hhead]
    exact ih (fun x hx => hkeys x (List.mem_cons_of_mem _ hx))

theorem foldl_substituteOne_bare_hit (env : List (Str × Str)) (pre NAME rest : Str) (d : Char)
    (hpre : '$' ∉ pre) (hrest : '$' ∉ rest) (hN : isIdent NAME) (hne : NAME ≠ [])
    (hkeys : ∀ kv ∈ env, isIdent kv.1) (hvals : ∀ kv ∈ env, '$' ∉ kv.2)
    (hd : d = ' ' ∨ d = '\n') :
    env.foldl substituteOne (pre ++ '$' :: (NAME ++ d :: rest)) =
      match env.lookup NAME with
      | some v => pre ++ v ++ rest
      | none => pre ++ '$' :: (NAME ++ d :: rest) := by
  induction env with
  | nil => rfl
  | cons kv env ih =>
    obtain ⟨k, v⟩ := kv
    have hv : '$' ∉ v := hvals (k, v) (List.mem_cons_self _ _)
    rw [List.foldl_cons, substituteOne_bare_hit pre NAME rest k v d hpre hrest hN hne
      (hkeys (k, v) (List.mem_cons_self _ _)) hv hd]
    by_cases hkN : k = NAME
    · subst hkN
      rw [if_pos rfl, foldl_substituteOne_no_dollar env _ (by simp [hpre, hrest, hv])]
      simp [List.lookup]
    · rw [if_neg hkN, ih (fun x hx => hkeys x (List.mem_cons_of_mem _ hx))
        (fun x hx => hvals x (List.mem_cons_of_mem _ hx))]
      have : (NAME == k) = false := by simpa using fun h => hkN h.symm
      simp [List.lookup, this]

theorem bare_text_eq (pre NAME post : Str) :
    pre ++ "$".toList ++ NAME ++ post = pre ++ '$' :: (NAME ++ post) := by
  simp

/-- What `SubstituteVar` returns on `pre ++ "$NAME" ++ d :: rest` when `d` is a
space or a newline and `NAME` is a key. -/
theorem SubstituteVar_bare_exact (activity : Activity) (pre NAME rest : Str) (d : Char)
    (hkeys : ∀ kv ∈ activity.EnvVars, isIdent kv.1)
    (hvals : ∀ kv ∈ activity.EnvVars, '$' ∉ kv.2)
    (hpre : '$' ∉ pre) (hrest : '$' ∉ rest) (hne : NAME ≠ [])
    (hmem : NAME ∈ activity.EnvVars.map Prod.fst) (hd : d = ' ' ∨ d = '\n') :
    SubstituteVar activity (pre ++ "$".toList ++ NAME ++ d :: rest) =
      pre ++ mapGet activity.EnvVars NAME ++ rest := by
  obtain ⟨kv, hkv, hk⟩ := List.mem_map.mp hmem
  have hN : isIdent NAME := hk ▸ hkeys kv hkv
  rw [bare_text_eq]
  unfold SubstituteVar mapGet
  rw [foldl_substituteOne_bare_hit activity.EnvVars pre NAME rest d hpre hrest hN hne hkeys
    hvals hd]
  cases h : activity.EnvVars.lookup NAME with
  | some v => rfl
  | none =>
    rw [List.lookup_eq_none_iff] at h
    have := h kv hkv
    simp [hk] at this

/-- C5, as the code has it: `SubstituteVar` replaces a bare `$NAME` token only
when a space or a newline follows it. With identifier keys and values free of
`$`, for a non-empty key `NAME` and a text `pre ++ "$" ++ NAME ++ post` where
`pre` and `post` hold no `$`: when `post` is empty or starts with a character
other than space and newline that cannot continue a name, the text is returned
unchanged; when `post` starts with a space or a newline, the token is replaced
by the value: the result starts with `pre ++ EnvVars[NAME]` and ends with the
rest of `post` after that character. -/
theorem SubstituteVar_bare (activity : Activity) (pre NAME post : Str)
    (hkeys : ∀ kv ∈ activity.EnvVars, isIdent kv.1)
    (hvals : ∀ kv ∈ activity.EnvVars, '$' ∉ kv.2)
    (hpre : '$' ∉ pre) (hpost : '$' ∉ post) (hne : NAME ≠ [])
    (hmem : NAME ∈ activity.EnvVars.map Prod.fst) :
    ((∀ d r, post = d :: r → isIdentChar d = false ∧ d ≠ ' ' ∧ d ≠ '\n') →
      SubstituteVar activity (pre ++ "$".toList ++ NAME ++ post) =
        pre ++ "$".toList ++ NAME ++ post) ∧
    (∀ d rest, post = d :: rest → (d = ' ' ∨ d = '\n') →
      (pre ++ mapGet activity.EnvVars NAME) <+:
          SubstituteVar activity (pre ++ "$".toList ++ NAME ++ post) ∧
        rest <:+ SubstituteVar activity (pre ++ "$".toList ++ NAME ++ post)) := by
  obtain ⟨kv, hkv, hk⟩ := List.mem_map.mp hmem
  have hN : isIdent NAME := hk ▸ hkeys kv hkv
  constructor
  · intro hhead
    rw [bare_text_eq]
    exact foldl_substituteOne_bare_keep activity.EnvVars pre NAME post hpre hpost hN hne hkeys
      hhead
  · intro d rest hp hd
    subst hp
    rw [SubstituteVar_bare_exact activity pre NAME rest d hkeys hvals hpre
      (fun h => hpost (List.mem_cons_of_mem _ h)) hne hmem hd]
    exact ⟨List.prefix_append _ _, List.suffix_append _ _⟩

/-- Witness of C5 as amended: with `NAME = v`, the text `$NAME` is unchanged. -/
theorem SubstituteVar_bare_witness :
    SubstituteVar { EnvVars := [("NAME".toList, "v".toList)] } ([] ++ "$".toList ++ "NAME".toList ++ []) =
      [] ++ "$".toList ++ "NAME".toList ++ [] :=
  (SubstituteVar_bare { EnvVars := [("NAME".toList, "v".toList)] } [] "NAME".toList []
    (by decide) (by decide) (by decide) (by decide) (by decide) (by decide)).1
    (fun _ _ h => List.noConfusion h)

/-- Counterexample to C5 as stated: with `NAME = v`, `SubstituteVar` of the text
`$NAME` is `$NAME`, not `v`; and in `a $NAME b` the space that follows the token
is replaced together with it. -/
theorem SubstituteVar_bare_counterexample :
    SubstituteVar { EnvVars := [("NAME".toList, "v".toList)] } "$NAME".toList = "$NAME".toList ∧
    SubstituteVar { EnvVars := [("NAME".toList, "v".toList)] } "$NAME".toList ≠ "v".toList ∧
    SubstituteVar { EnvVars := [("NAME".toList, "v".toList)] } "a $NAME b".toList =
      "a vb".toList ∧
    SubstituteVar { EnvVars := [("NAME".toList, "v".toList)] } "a $NAME b".toList ≠
      "a v b".toList := by
  decide

/-! ## Driver -/

theorem ToActivityStage_foldl (steps : List Step) (acc : ActivityStage) :
    steps.foldl
      (fun (actiStage : ActivityStage) (step : Step) =>
        { actiStage with
          ActivitySteps := actiStage.ActivitySteps ++
            [({ Name := step.Name, Status := Status.Waiting } : ActivityStep)] })
      acc =
    { acc with
      ActivitySteps := acc.ActivitySteps ++
        steps.map (fun step => ({ Name := step.Name, Status := Status.Waiting } : ActivityStep)) } := by
  induction steps generalizing acc with
  | nil => simp
  | cons s steps ih => simp [ih]

theorem ToActivityStage_eq (stage : Stage) :
    ToActivityStage stage =
      { Name := stage.Name, NeedApproval := stage.NeedApprove, Status := Status.Waiting,
        ActivitySteps :=
          stage.Steps.map (fun step => ({ Name := step.Name, Status := Status.Waiting } : ActivityStep)) } := by
  unfold ToActivityStage
  simp only []
  rw [ToActivityStage_foldl]
  simp

theorem ToActivity_foldl (stages : List Stage) (acc : Activity) :
    stages.foldl
      (fun (activity : Activity) (stage : Stage) =>
        { activity with ActivityStages := activity.ActivityStages ++ [ToActivityStage stage] })
      acc =
    { acc with ActivityStages := acc.ActivityStages ++ stages.map ToActivityStage } := by
  induction stages generalizing acc with
  | nil => simp
  | cons s stages ih => simp [ih]

theorem getNodeNameToRun_ok (w : World) (clock : Nat) (nodes : List Str)
    (hn : w.GetActiveNodesName = Except.ok nodes) (hne : nodes ≠ []) :
    getNodeNameToRun w clock =
      ((nodes.getD (w.Intn (w.UnixNano clock) nodes.length % nodes.length) [], none),
        clock + 1) := by
  unfold getNodeNameToRun
  rw [hn]
  simp only []
  rw [if_neg (by simpa using hne)]

theorem ToActivity_ok (w : World) (clock : Nat) (p : PipelineDef) (nodes : List Str)
    (hn : w.GetActiveNodesName = Except.ok nodes) (hne : nodes ≠ []) :
    ToActivity w clock p =
      (({ Id := w.uuid, Pipeline := p, RunSequence := wrap64 (p.RunCount + 1),
          Status := Status.Waiting, StartTS := nowMs w (clock + 1),
          NodeName := nodes.getD (w.Intn (w.UnixNano clock) nodes.length % nodes.length) [],
          ActivityStages := p.Stages.map ToActivityStage }, none), clock + 2) := by
  unfold ToActivity
  rw [getNodeNameToRun_ok w clock nodes hn hne]
  simp only []
  rw [ToActivity_foldl]
  simp

/-- C7: when a worker node is available, `ToActivity` returns, without error,
an activity in status Waiting whose stages mirror the stages of the pipeline in
order: as many stages as the pipeline has; stage `i` has the name and the
approval flag of `Stage i`, status Waiting and as many steps as `Stage i`; step
`j` has the name of `Step j` and status Waiting. -/
theorem ToActivity_mirrors (w : World) (clock : Nat) (p : PipelineDef) (nodes : List Str)
    (hn : w.GetActiveNodesName = Except.ok nodes) (hne : nodes ≠ []) :
    (ToActivity w clock p).1.2 = none ∧
    (ToActivity w clock p).1.1.Status = Status.Waiting ∧
    (ToActivity w clock p).1.1.ActivityStages.length = p.Stages.length ∧
    (∀ (i : Nat) (stage : Stage), p.Stages[i]? = some stage →
      ∃ actiStage, (ToActivity w clock p).1.1.ActivityStages[i]? = some actiStage ∧
        actiStage.Name = stage.Name ∧ actiStage.NeedApproval = stage.NeedApprove ∧
        actiStage.Status = Status.Waiting ∧
        actiStage.ActivitySteps.length = stage.Steps.length ∧
        ∀ (j : Nat) (step : Step), stage.Steps[j]? = some step →
          ∃ actiStep, actiStage.ActivitySteps[j]? = some actiStep ∧
            actiStep.Name = step.Name ∧ actiStep.Status = Status.Waiting) := by
  rw [ToActivity_ok w clock p nodes hn hne]
  refine ⟨rfl, rfl, by simp, ?_⟩
  intro i stage hi
  refine ⟨ToActivityStage stage, by simp [hi], ?_⟩
  rw [ToActivityStage_eq]
  refine ⟨rfl, rfl, rfl, by simp, ?_⟩
  intro j step hj
  exact ⟨{ Name := step.Name, Status := Status.Waiting }, by simp [hj], rfl, rfl⟩

/-- Witness of C7: a pipeline of two stages with one and two steps, on a world
with one worker node. -/
theorem ToActivity_mirrors_witness :
    (ToActivity
      { UnixNano := fun n => 1000000 * n, Intn := fun _ _ => 0,
        GetActiveNodesName := Except.ok ["node".toList], uuid := "id".toList,
        BuildJob := fun _ _ => none } 0
      { Stages := [{ Name := "a".toList, Steps := [{ Name := "x".toList }] },
                   { Name := "b".toList, Steps := [{ Name := "y".toList }, { Name := "z".toList }] }] }
      ).1.1.ActivityStages.length = 2 :=
  (ToActivity_mirrors
      { UnixNano := fun n => 1000000 * n, Intn := fun _ _ => 0,
        GetActiveNodesName := Except.ok ["node".toList], uuid := "id".toList,
        BuildJob := fun _ _ => none } 0
      { Stages := [{ Name := "a".toList, Steps := [{ Name := "x".toList }] },
                   { Name := "b".toList, Steps := [{ Name := "y".toList }, { Name := "z".toList }] }] }
      ["node".toList] rfl (by decide)).2.2.1

theorem index?_natCast {α : Type} (l : List α) (k : Nat) : index? l (k : Int) = l[k]? := by
  unfold index?
  rw [if_neg (by omega)]
  simp

theorem index?_neg {α : Type} (l : List α) (i : Int) (h : i < 0) : index? l i = none := by
  unfold index?
  rw [if_pos h]

theorem updateAt_natCast {α : Type} (l : List α) (k : Nat) (f : α → α) (x : α)
    (h : l[k]? = some x) : updateAt l (k : Int) f = some (l.set k (f x)) := by
  unfold updateAt
  rw [index?_natCast, h]
  simp

theorem EvaluateCondition_congr (w : World) (a b : Activity) (h : a.EnvVars = b.EnvVars) (c : Str) :
    EvaluateCondition w a c = EvaluateCondition w b c := by
  unfold EvaluateCondition SubstituteVar visited
  simp only []
  rw [h]

theorem evalAll_congr (w : World) (a b : Activity) (h : a.EnvVars = b.EnvVars) (l : List Str) :
    evalAll w a l = evalAll w b l := by
  induction l with
  | nil => rfl
  | cons c l ih => simp only [evalAll, EvaluateCondition_congr w a b h c, ih]

theorem evalAny_congr (w : World) (a b : Activity) (h : a.EnvVars = b.EnvVars) (l : List Str) :
    evalAny w a l = evalAny w b l := by
  induction l with
  | nil => rfl
  | cons c l ih => simp only [evalAny, EvaluateCondition_congr w a b h c, ih]

/-- The evaluation of conditions reads the activity through `EnvVars` only. -/
theorem EvaluateConditions_congr (w : World) (a b : Activity) (h : a.EnvVars = b.EnvVars)
    (c : Option PipelineConditions) : EvaluateConditions w a c = EvaluateConditions w b c := by
  unfold EvaluateConditions
  cases c with
  | none => rfl
  | some c => simp only [evalAll_congr w a b h, evalAny_congr w a b h]

/-- One call of `RunStage` on a stage whose conditions evaluate to false. -/
theorem RunStage_skip_step (w : World) (fuel : Nat) (r : Run) (k : Nat) (stage : Stage)
    (actiStage : ActivityStage)
    (hacti : r.activity.ActivityStages[k]? = some actiStage)
    (hstage : r.activity.Pipeline.Stages[k]? = some stage)
    (hcond : HasStageCondition stage = true)
    (heval : EvaluateConditions w r.activity stage.Conditions = (false, none)) :
    RunStage w (fuel + 1) r (k : Int) =
      if k + 1 = r.activity.ActivityStages.length then
        some (none,
          { activity :=
              { r.activity with
                ActivityStages :=
                  r.activity.ActivityStages.set k { actiStage with Status := Status.Skip },
                Status := Status.Success, StopTS := nowMs w r.clock },
            clock := r.clock + 1,
            trace := r.trace ++ [Event.OnActivityCompelte r.activity.Id] })
      else
        RunStage w fuel
          { activity :=
              { r.activity with
                ActivityStages :=
                  r.activity.ActivityStages.set k { actiStage with Status := Status.Skip } },
            clock := r.clock + 1,
            trace := r.trace }
          ((k : Int) + 1) := by
  have hk : k < r.activity.ActivityStages.length := by
    rcases Nat.lt_or_ge k r.activity.ActivityStages.length with h | h
    · exact h
    · rw [List.getElem?_eq_none h] at hacti
      exact Option.noConfusion hacti
  rw [RunStage]
  rw [if_neg (by omega), index?_natCast, hstage]
  simp only [hcond, if_true, heval]
  rw [updateAt_natCast _ k _ actiStage hacti]
  simp only [List.length_set, OnActivityCompelte]
  by_cases hlast : k + 1 = r.activity.ActivityStages.length
  · rw [if_pos hlast, if_pos (by omega)]
  · rw [if_neg hlast, if_neg (by omega)]

theorem skipFrom_set (l : List ActivityStage) (k : Nat) (s : ActivityStage)
    (h : l[k]? = some s) :
    skipFrom (k + 1) (l.set k { s with Status := Status.Skip }) = skipFrom k l := by
  induction l generalizing k with
  | nil => simp at h
  | cons x l ih =>
    cases k with
    | zero =>
      simp only [List.getElem?_cons_zero, Option.some.injEq] at h
      subst h
      cases l <;> simp [skipFrom]
    | succ k =>
      simp only [List.getElem?_cons_succ] at h
      simp only [List.set_cons_succ, skipFrom, ih k h]

theorem skipFrom_of_length_le (l : List ActivityStage) (k : Nat) (h : l.length ≤ k) :
    skipFrom k l = l := by
  induction l generalizing k with
  | nil => cases k <;> simp [skipFrom]
  | cons x l ih =>
    cases k with
    | zero => simp at h
    | succ k =>
      simp only [List.length_cons, Nat.add_le_add_iff_right] at h
      simp only [skipFrom, ih k h]

/-- From ordinal `k` on, all stages have conditions that evaluate to false. -/
theorem RunStage_skip_rest (w : World) (m : Nat) :
    ∀ (r : Run) (k : Nat), k + m + 1 = r.activity.ActivityStages.length →
      (∀ j, k ≤ j → j < r.activity.ActivityStages.length →
        ∃ stage, r.activity.Pipeline.Stages[j]? = some stage ∧ HasStageCondition stage = true ∧
          EvaluateConditions w r.activity stage.Conditions = (false, none)) →
      ∀ fuel, m + 1 ≤ fuel →
        RunStage w fuel r (k : Int) =
          some (none,
            { activity :=
                { r.activity with
                  ActivityStages := skipFrom k r.activity.ActivityStages,
                  Status := Status.Success, StopTS := nowMs w (r.clock + m) },
              clock := r.clock + m + 1,
              trace := r.trace ++ [Event.OnActivityCompelte r.activity.Id] }) := by
  induction m with
  | zero =>
    intro r k hlen hall fuel hfuel
    obtain ⟨f, rfl⟩ : ∃ f, fuel = f + 1 := ⟨fuel - 1, by omega⟩
    obtain ⟨stage, hstage, hcond, heval⟩ := hall k (Nat.le_refl k) (by omega)
    have hk : k < r.activity.ActivityStages.length := by omega
    have hacti : r.activity.ActivityStages[k]? = some r.activity.ActivityStages[k] :=
      List.getElem?_eq_getElem hk
    rw [RunStage_skip_step w f r k stage _ hacti hstage hcond heval, if_pos (by omega)]
    have h1 := skipFrom_set r.activity.ActivityStages k _ hacti
    rw [skipFrom_of_length_le _ (k + 1) (by rw [List.length_set]; omega)] at h1
    rw [h1]
    rfl
  | succ m ih =>
    intro r k hlen hall fuel hfuel
    obtain ⟨f, rfl⟩ : ∃ f, fuel = f + 1 := ⟨fuel - 1, by omega⟩
    obtain ⟨stage, hstage, hcond, heval⟩ := hall k (Nat.le_refl k) (by omega)
    have hk : k < r.activity.ActivityStages.length := by omega
    have hacti : r.activity.ActivityStages[k]? = some r.activity.ActivityStages[k] :=
      List.getElem?_eq_getElem hk
    rw [RunStage_skip_step w f r k stage _ hacti hstage hcond heval, if_neg (by omega)]
    have hnext := ih
      { activity :=
          { r.activity with
            ActivityStages :=
              r.activity.ActivityStages.set k
                { r.activity.ActivityStages[k] with Status := Status.Skip } },
        clock := r.clock + 1,
        trace := r.trace }
      (k + 1) (by simp only [List.length_set]; omega)
      (by
        intro j hj hjl
        simp only [List.length_set] at hjl
        obtain ⟨st, h1, h2, h3⟩ := hall j (by omega) hjl
        refine ⟨st, h1, h2, ?_⟩
        rw [EvaluateConditions_congr w _ r.activity (by rfl) st.Conditions]
        exact h3)
      f (by omega)
    have hcast : ((k : Int) + 1) = ((k + 1 : Nat) : Int) := by push_cast; rfl
    rw [hcast, hnext]
    have e1 : r.clock + 1 + m = r.clock + (m + 1) := by omega
    simp only [skipFrom_set r.activity.ActivityStages k _ hacti, e1]

/-- C8: for an in-range ordinal `k` whose stage has conditions that evaluate to
false, `RunStage` marks stage `k` Skip without any backend call. If `k` is the
last stage it sets the activity to Success, `StopTS` to the time it read, runs
`OnActivityCompelte` once and returns no error. Otherwise what it does and
returns after that is what `RunStage` does at `k + 1`. So when the conditions
of every stage evaluate to false, `RunStage` at ordinal 0 returns no error,
leaves every stage Skip and the activity Success, and the only call it makes is
one `OnActivityCompelte`. -/
theorem RunStage_skip (w : World) (r : Run) (k : Nat) (stage : Stage)
    (actiStage : ActivityStage)
    (hacti : r.activity.ActivityStages[k]? = some actiStage)
    (hstage : r.activity.Pipeline.Stages[k]? = some stage)
    (hcond : HasStageCondition stage = true)
    (heval : EvaluateConditions w r.activity stage.Conditions = (false, none)) :
    (k + 1 = r.activity.ActivityStages.length → ∀ fuel,
      RunStage w (fuel + 1) r (k : Int) =
        some (none,
          { activity :=
              { r.activity with
                ActivityStages :=
                  r.activity.ActivityStages.set k { actiStage with Status := Status.Skip },
                Status := Status.Success, StopTS := nowMs w r.clock },
            clock := r.clock + 1,
            trace := r.trace ++ [Event.OnActivityCompelte r.activity.Id] })) ∧
    (k + 1 ≠ r.activity.ActivityStages.length → ∀ fuel,
      RunStage w (fuel + 1) r (k : Int) =
        RunStage w fuel
          { activity :=
              { r.activity with
                ActivityStages :=
                  r.activity.ActivityStages.set k { actiStage with Status := Status.Skip } },
            clock := r.clock + 1,
            trace := r.trace }
          ((k : Int) + 1)) ∧
    ((∀ j, j < r.activity.ActivityStages.length →
        ∃ st, r.activity.Pipeline.Stages[j]? = some st ∧ HasStageCondition st = true ∧
          EvaluateConditions w r.activity st.Conditions = (false, none)) →
      ∀ fuel, r.activity.ActivityStages.length ≤ fuel →
        RunStage w fuel r 0 =
          some (none,
            { activity :=
                { r.activity with
                  ActivityStages :=
                    r.activity.ActivityStages.map (fun s => { s with Status := Status.Skip }),
                  Status := Status.Success,
                  StopTS := nowMs w (r.clock + (r.activity.ActivityStages.length - 1)) },
              clock := r.clock + r.activity.ActivityStages.length,
              trace := r.trace ++ [Event.OnActivityCompelte r.activity.Id] })) := by
  have hk : k < r.activity.ActivityStages.length := by
    rcases Nat.lt_or_ge k r.activity.ActivityStages.length with h | h
    · exact h
    · rw [List.getElem?_eq_none h] at hacti
      exact Option.noConfusion hacti
  refine ⟨?_, ?_, ?_⟩
  · intro hlast fuel
    rw [RunStage_skip_step w fuel r k stage actiStage hacti hstage hcond heval, if_pos hlast]
  · intro hlast fuel
    rw [RunStage_skip_step w fuel r k stage actiStage hacti hstage hcond heval, if_neg hlast]
  · intro hall fuel hfuel
    have h := RunStage_skip_rest w (r.activity.ActivityStages.length - 1) r 0 (by omega)
      (fun j _ hj => hall j hj) fuel (by omega)
    have e : r.clock + (r.activity.ActivityStages.length - 1) + 1 =
        r.clock + r.activity.ActivityStages.length := by omega
    rw [e] at h
    exact h

/-- Witness of C8: on the example run both stages are skipped and the activity
succeeds, the only call being the clean-up. -/
theorem RunStage_skip_witness :
    ∃ x, RunStage exWorld 2 exSkipRun 0 = some (none, x) ∧
      x.activity.Status = Status.Success ∧
      x.activity.ActivityStages.map (fun s => s.Status) = [Status.Skip, Status.Skip] ∧
      x.trace = [Event.OnActivityCompelte "id".toList] :=
  ⟨_, (RunStage_skip exWorld exSkipRun 0 exSkipStage0
        { Name := "s0".toList, Status := Status.Waiting,
          ActivitySteps := [{ Name := "x".toList, Status := Status.Waiting }] }
        (by decide) (by decide) (by decide) (by decide)).2.2
      (fun j hj =>
        match j, hj with
        | 0, _ => ⟨exSkipStage0, by decide, by decide, by decide⟩
        | 1, _ => ⟨exSkipStage1, by decide, by decide, by decide⟩
        | n + 2, h => absurd (show n + 2 < 2 from h) (by omega))
      2 (by decide),
    by decide, by decide, by decide⟩

theorem wrap64_of_range (x : Int) (h1 : -(2 ^ 63) ≤ x) (h2 : x < 2 ^ 63) : wrap64 x = x := by
  unfold wrap64
  rw [Int.emod_eq_of_lt (by omega) (by omega)]
  omega

/-- C9: when `RunStep` is called on a step of the last stage whose conditions
evaluate to false, and the stage with that step marked Skip is successful in
the sense of `IsStageSuccess` (as it is for the last step once the others are
Success or Skip), `RunStep` returns no error, marks the step Skip and the stage
Success with `Duration` the time read minus the stage's `StartTS`, sets the
activity to Success with `StopTS` the time read, triggers no job and runs
`OnActivityCompelte` once. -/
theorem RunStep_skip_last (w : World) (r : Run) (k i : Nat) (stage : Stage) (step : Step)
    (actiStage : ActivityStage) (actiStep : ActivityStep)
    (hlast : k + 1 = r.activity.ActivityStages.length)
    (hacti : r.activity.ActivityStages[k]? = some actiStage)
    (hactiStep : actiStage.ActivitySteps[i]? = some actiStep)
    (hstage : r.activity.Pipeline.Stages[k]? = some stage)
    (hstep : stage.Steps[i]? = some step)
    (hcond : HasStepCondition step = true)
    (heval : EvaluateConditions w r.activity step.Conditions = (false, none))
    (hsucc : IsStageSuccess
      { actiStage with
        ActivitySteps :=
          actiStage.ActivitySteps.set i { actiStep with Status := Status.Skip } } = true) :
    (∀ fuel, RunStep w (fuel + 1) r (k : Int) (i : Int) =
      some (none,
        { activity :=
            { r.activity with
              ActivityStages :=
                r.activity.ActivityStages.set k
                  { actiStage with
                    ActivitySteps :=
                      actiStage.ActivitySteps.set i { actiStep with Status := Status.Skip },
                    Status := Status.Success,
                    Duration := wrap64 (nowMs w r.clock - actiStage.StartTS) },
              Status := Status.Success, StopTS := nowMs w r.clock },
          clock := r.clock + 1,
          trace := r.trace ++ [Event.OnActivityCompelte r.activity.Id] })) ∧
    (-(2 ^ 63) ≤ nowMs w r.clock - actiStage.StartTS →
      nowMs w r.clock - actiStage.StartTS < 2 ^ 63 →
      wrap64 (nowMs w r.clock - actiStage.StartTS) = nowMs w r.clock - actiStage.StartTS) := by
  refine ⟨?_, wrap64_of_range _⟩
  intro fuel
  have hk : k < r.activity.ActivityStages.length := by omega
  have hi : i < actiStage.ActivitySteps.length := by
    rcases Nat.lt_or_ge i actiStage.ActivitySteps.length with h | h
    · exact h
    · rw [List.getElem?_eq_none h] at hactiStep
      exact Option.noConfusion hactiStep
  rw [RunStep]
  rw [if_neg (by omega), index?_natCast, hacti]
  simp only []
  rw [if_neg (by omega), index?_natCast, hstage]
  simp only []
  rw [index?_natCast, hstep]
  simp only [hcond, if_true, heval]
  rw [updateAt_natCast _ i _ actiStep hactiStep]
  simp only [hsucc, if_true, List.length_set, Int.toNat_ofNat, OnActivityCompelte]
  rw [if_pos (by omega)]

/-- Witness of C9: on the example run, the only step of the last stage is
skipped and the activity succeeds, the only call being the clean-up. -/
theorem RunStep_skip_last_witness :
    ∃ x, RunStep exWorld 1 exSkipRun 1 0 = some (none, x) ∧
      x.activity.Status = Status.Success ∧ x.activity.StopTS = 7 ∧
      x.activity.ActivityStages.map (fun s => (s.Status, s.Duration)) =
        [(Status.Waiting, 0), (Status.Success, 7)] ∧
      x.trace = [Event.OnActivityCompelte "id".toList] :=
  ⟨_, (RunStep_skip_last exWorld exSkipRun 1 0 exSkipStage1
        { Name := "y".toList, Conditions := exFalseCond }
        { Name := "s1".toList, Status := Status.Waiting,
          ActivitySteps := [{ Name := "y".toList, Status := Status.Waiting }] }
        { Name := "y".toList, Status := Status.Waiting }
        (by decide) (by decide) (by decide) (by decide) (by decide) (by decide) (by decide)
        (by decide)).1 0,
    by decide, by decide, by decide, by decide⟩

/-- One call of `RunStep` on a step without conditions: the job is triggered. -/
theorem RunStep_trigger_step (w : World) (fuel : Nat) (r : Run) (k i : Nat) (stage : Stage)
    (step : Step) (actiStage : ActivityStage)
    (hacti : r.activity.ActivityStages[k]? = some actiStage)
    (hi : i < actiStage.ActivitySteps.length)
    (hstage : r.activity.Pipeline.Stages[k]? = some stage)
    (hstep : stage.Steps[i]? = some step)
    (hnc : HasStepCondition step = false) :
    RunStep w (fuel + 1) r (k : Int) (i : Int) =
      some ((w.BuildJob r.trace (jobOf r actiStage i)).map Err.error,
        { r with trace := r.trace ++ [triggerOf r actiStage k i] }) := by
  have hk : k < r.activity.ActivityStages.length := by
    rcases Nat.lt_or_ge k r.activity.ActivityStages.length with h | h
    · exact h
    · rw [List.getElem?_eq_none h] at hacti
      exact Option.noConfusion hacti
  rw [RunStep]
  rw [if_neg (by omega), index?_natCast, hacti]
  simp only []
  rw [if_neg (by omega), index?_natCast, hstage]
  simp only []
  rw [index?_natCast, hstep]
  simp only [hnc, Bool.false_eq_true, if_false, getJobName, index?_natCast, hacti]
  unfold jobOf triggerOf
  cases hb : w.BuildJob r.trace
      (List.intercalate "_".toList
        [r.activity.Pipeline.Name, r.activity.Id, actiStage.Name, Itoa (i : Int)]) with
  | none => rfl
  | some e => rfl

/-- One call of `RunStage` on a stage that is not skipped. -/
theorem RunStage_start_step (w : World) (fuel : Nat) (r : Run) (k : Nat) (stage : Stage)
    (actiStage : ActivityStage)
    (hacti : r.activity.ActivityStages[k]? = some actiStage)
    (hstage : r.activity.Pipeline.Stages[k]? = some stage)
    (hns : HasStageCondition stage = false ∨
      EvaluateConditions w r.activity stage.Conditions = (true, none)) :
    RunStage w (fuel + 1) r (k : Int) =
      if stage.Parallel then
        forSteps (fun r i => RunStep w fuel r (k : Int) i) (List.range stage.Steps.length)
          { activity :=
              { r.activity with
                ActivityStages :=
                  r.activity.ActivityStages.set k
                    { actiStage with StartTS := nowMs w r.clock } },
            clock := r.clock + 1, trace := r.trace }
      else
        RunStep w fuel
          { activity :=
              { r.activity with
                ActivityStages :=
                  r.activity.ActivityStages.set k
                    { actiStage with StartTS := nowMs w r.clock } },
            clock := r.clock + 1, trace := r.trace }
          (k : Int) 0 := by
  have hk : k < r.activity.ActivityStages.length := by
    rcases Nat.lt_or_ge k r.activity.ActivityStages.length with h | h
    · exact h
    · rw [List.getElem?_eq_none h] at hacti
      exact Option.noConfusion hacti
  have hc : (if HasStageCondition stage = true then
      EvaluateConditions w r.activity stage.Conditions else (true, none)) = (true, none) := by
    rcases hns with h | h
    · rw [h]; rfl
    · rw [h]; split_ifs <;> rfl
  rw [RunStage]
  rw [if_neg (by omega), index?_natCast, hstage]
  simp only [hc]
  rw [updateAt_natCast _ k _ actiStage hacti]

theorem getElem?_lt_length {α : Type} (l : List α) (k : Nat) (x : α) (h : l[k]? = some x) :
    k < l.length := by
  rcases Nat.lt_or_ge k l.length with h1 | h1
  · exact h1
  · rw [List.getElem?_eq_none h1] at h
    exact Option.noConfusion h

theorem RunStep_trigger_started (w : World) (fuel : Nat) (r : Run) (k i : Nat) (stage : Stage)
    (actiStage : ActivityStage) (evs : List Event)
    (hacti : r.activity.ActivityStages[k]? = some actiStage)
    (hstage : r.activity.Pipeline.Stages[k]? = some stage)
    (hnc : ∀ step ∈ stage.Steps, HasStepCondition step = false)
    (hlock : actiStage.ActivitySteps.length = stage.Steps.length)
    (hi : i < stage.Steps.length) :
    RunStep w (fuel + 1) (startedRun w r k actiStage evs) (k : Int) (i : Int) =
      some ((w.BuildJob (r.trace ++ evs) (jobOf r actiStage i)).map Err.error,
        startedRun w r k actiStage (evs ++ [triggerOf r actiStage k i])) := by
  have hk := getElem?_lt_length _ k _ hacti
  have h := RunStep_trigger_step w fuel (startedRun w r k actiStage evs) k i stage stage.Steps[i]
    { actiStage with StartTS := nowMs w r.clock }
    (by simp [startedRun, hk]) (by simpa [hlock] using hi) hstage
    (List.getElem?_eq_getElem hi) (hnc _ (List.getElem_mem hi))
  rw [h]
  simp only [startedRun, List.append_assoc]
  rfl

theorem forSteps_all_ok (w : World) (fuel : Nat) (r : Run) (k : Nat) (stage : Stage)
    (actiStage : ActivityStage)
    (hacti : r.activity.ActivityStages[k]? = some actiStage)
    (hstage : r.activity.Pipeline.Stages[k]? = some stage)
    (hnc : ∀ step ∈ stage.Steps, HasStepCondition step = false)
    (hlock : actiStage.ActivitySteps.length = stage.Steps.length) (len : Nat) :
    ∀ a, a + len ≤ stage.Steps.length →
      (∀ i, a ≤ i → i < a + len →
        w.BuildJob (r.trace ++ (List.range i).map (triggerOf r actiStage k))
          (jobOf r actiStage i) = none) →
      forSteps (fun r i => RunStep w (fuel + 1) r (k : Int) i) (List.range' a len)
          (startedRun w r k actiStage ((List.range a).map (triggerOf r actiStage k))) =
        some (none,
          startedRun w r k actiStage ((List.range (a + len)).map (triggerOf r actiStage k))) := by
  induction len with
  | zero => intro a _ _; rfl
  | succ len ih =>
    intro a hle hok
    rw [List.range'_succ, forSteps,
      RunStep_trigger_started w fuel r k a stage actiStage _ hacti hstage hnc hlock (by omega),
      hok a (Nat.le_refl a) (by omega)]
    simp only [Option.map_none']
    have e : (List.range a).map (triggerOf r actiStage k) ++ [triggerOf r actiStage k a] =
        (List.range (a + 1)).map (triggerOf r actiStage k) := by
      rw [List.range_succ, List.map_append]; rfl
    rw [e, ih (a + 1) (by omega) (fun i h1 h2 => hok i (by omega) (by omega))]
    have e2 : a + 1 + len = a + (len + 1) := by omega
    rw [e2]

theorem forSteps_first_error (w : World) (fuel : Nat) (r : Run) (k : Nat) (stage : Stage)
    (actiStage : ActivityStage)
    (hacti : r.activity.ActivityStages[k]? = some actiStage)
    (hstage : r.activity.Pipeline.Stages[k]? = some stage)
    (hnc : ∀ step ∈ stage.Steps, HasStepCondition step = false)
    (hlock : actiStage.ActivitySteps.length = stage.Steps.length) (m : Nat) (e : Str)
    (hfail : w.BuildJob (r.trace ++ (List.range m).map (triggerOf r actiStage k))
      (jobOf r actiStage m) = some e) (len : Nat) :
    ∀ a, a ≤ m → m < a + len → a + len ≤ stage.Steps.length →
      (∀ i, a ≤ i → i < m →
        w.BuildJob (r.trace ++ (List.range i).map (triggerOf r actiStage k))
          (jobOf r actiStage i) = none) →
      forSteps (fun r i => RunStep w (fuel + 1) r (k : Int) i) (List.range' a len)
          (startedRun w r k actiStage ((List.range a).map (triggerOf r actiStage k))) =
        some (some (Err.error e),
          startedRun w r k actiStage ((List.range (m + 1)).map (triggerOf r actiStage k))) := by
  induction len with
  | zero => intro a h1 h2; omega
  | succ len ih =>
    intro a ham hml hle hok
    have e1 : (List.range a).map (triggerOf r actiStage k) ++ [triggerOf r actiStage k a] =
        (List.range (a + 1)).map (triggerOf r actiStage k) := by
      rw [List.range_succ, List.map_append]; rfl
    rw [List.range'_succ, forSteps,
      RunStep_trigger_started w fuel r k a stage actiStage _ hacti hstage hnc hlock (by omega)]
    by_cases hm : a = m
    · subst hm
      rw [hfail, e1]
      rfl
    · rw [hok a (Nat.le_refl a) (by omega)]
      simp only [Option.map_none']
      rw [e1]
      exact ih (a + 1) (by omega) (by omega) (by omega) (fun i h1 h2 => hok i (by omega) h2)

theorem map_set_same {α β : Type} (g : α → β) (l : List α) (k : Nat) (x y : α)
    (h : l[k]? = some x) (hg : g y = g x) : (l.set k y).map g = l.map g := by
  induction l generalizing k with
  | nil => rfl
  | cons a l ih =>
    cases k with
    | zero =>
      simp only [List.getElem?_cons_zero, Option.some.injEq] at h
      subst h
      simp [hg]
    | succ k =>
      simp only [List.getElem?_cons_succ] at h
      simp [ih k h]

/-- C10, as the code has it: for an in-range ordinal `k` whose stage is not
skipped and whose steps carry no conditions (the stage of the activity having
as many steps as its definition), `RunStage` records the time it read as the
`StartTS` of stage `k` and changes nothing else of the activity, so no status
becomes Building. On a sequential stage with at least one step it makes exactly
one call of `BuildJob`, for step 0, and returns the error of that call, if any.
On a parallel stage with `n` steps it makes `n` calls, for the steps `0..n-1`
in order, when every call succeeds; when the call for step `m` is the first to
fail it returns that error having made the calls for the steps `0..m` only. -/
theorem RunStage_triggers (w : World) (r : Run) (k : Nat) (stage : Stage)
    (actiStage : ActivityStage)
    (hacti : r.activity.ActivityStages[k]? = some actiStage)
    (hstage : r.activity.Pipeline.Stages[k]? = some stage)
    (hns : HasStageCondition stage = false ∨
      EvaluateConditions w r.activity stage.Conditions = (true, none))
    (hnc : ∀ step ∈ stage.Steps, HasStepCondition step = false)
    (hlock : actiStage.ActivitySteps.length = stage.Steps.length) :
    (stage.Parallel = false → 0 < stage.Steps.length → ∀ fuel,
      RunStage w (fuel + 2) r (k : Int) =
        some ((w.BuildJob r.trace (jobOf r actiStage 0)).map Err.error,
          startedRun w r k actiStage [triggerOf r actiStage k 0])) ∧
    (stage.Parallel = true →
      (∀ i, i < stage.Steps.length →
        w.BuildJob (r.trace ++ (List.range i).map (triggerOf r actiStage k))
          (jobOf r actiStage i) = none) →
      ∀ fuel,
        RunStage w (fuel + 2) r (k : Int) =
          some (none,
            startedRun w r k actiStage
              ((List.range stage.Steps.length).map (triggerOf r actiStage k)))) ∧
    (stage.Parallel = true → ∀ m e, m < stage.Steps.length →
      (∀ i, i < m →
        w.BuildJob (r.trace ++ (List.range i).map (triggerOf r actiStage k))
          (jobOf r actiStage i) = none) →
      w.BuildJob (r.trace ++ (List.range m).map (triggerOf r actiStage k))
        (jobOf r actiStage m) = some e →
      ∀ fuel,
        RunStage w (fuel + 2) r (k : Int) =
          some (some (Err.error e),
            startedRun w r k actiStage
              ((List.range (m + 1)).map (triggerOf r actiStage k)))) ∧
    (∀ evs,
      (startedRun w r k actiStage evs).activity.Status = r.activity.Status ∧
      (startedRun w r k actiStage evs).activity.ActivityStages.map
          (fun s => (s.Status, s.ActivitySteps)) =
        r.activity.ActivityStages.map (fun s => (s.Status, s.ActivitySteps)) ∧
      (startedRun w r k actiStage evs).activity.ActivityStages[k]? =
        some { actiStage with StartTS := nowMs w r.clock }) := by
  have hk := getElem?_lt_length _ k _ hacti
  have hstart : ∀ fuel, RunStage w (fuel + 2) r (k : Int) =
      if stage.Parallel then
        forSteps (fun r i => RunStep w (fuel + 1) r (k : Int) i)
          (List.range stage.Steps.length) (startedRun w r k actiStage [])
      else RunStep w (fuel + 1) (startedRun w r k actiStage []) (k : Int) 0 := by
    intro fuel
    rw [RunStage_start_step w (fuel + 1) r k stage actiStage hacti hstage hns]
    simp only [startedRun, List.append_nil]
  refine ⟨?_, ?_, ?_, ?_⟩
  · intro hpar hpos fuel
    rw [hstart, hpar]
    simp only [Bool.false_eq_true, if_false]
    have h := RunStep_trigger_started w fuel r k 0 stage actiStage [] hacti hstage hnc hlock hpos
    simp only [List.append_nil, List.nil_append, Nat.cast_zero] at h
    exact h
  · intro hpar hok fuel
    rw [hstart, hpar]
    simp only [if_true]
    have h := forSteps_all_ok w fuel r k stage actiStage hacti hstage hnc hlock
      stage.Steps.length 0 (by omega) (fun i _ hi => hok i (by omega))
    simp only [List.range_zero, List.map_nil, Nat.zero_add] at h
    rw [← List.range_eq_range'] at h
    exact h
  · intro hpar m e hm hok hfail fuel
    rw [hstart, hpar]
    simp only [if_true]
    have h := forSteps_first_error w fuel r k stage actiStage hacti hstage hnc hlock m e hfail
      stage.Steps.length 0 (Nat.zero_le m) (by omega) (by omega) (fun i _ hi => hok i hi)
    simp only [List.range_zero, List.map_nil] at h
    rw [← List.range_eq_range'] at h
    exact h
  · intro evs
    refine ⟨rfl, ?_, ?_⟩
    · exact map_set_same _ _ k actiStage _ hacti rfl
    · simp [startedRun, hk]

/-- Witness of C10 as amended: the parallel example stage triggers its two
steps in order. -/
theorem RunStage_triggers_witness :
    ∃ x, RunStage exWorld 2 exParallelRun 0 = some (none, x) ∧
      x.trace = [Event.BuildJob 0 0 "p_id_s0_0".toList, Event.BuildJob 0 1 "p_id_s0_1".toList] ∧
      x.activity.ActivityStages.map (fun s => (s.Status, s.StartTS)) = [(Status.Waiting, 7)] :=
  ⟨_, (RunStage_triggers exWorld exParallelRun 0 exParallelStage
        { Name := "s0".toList, Status := Status.Waiting,
          ActivitySteps := [{ Name := "x".toList, Status := Status.Waiting },
                            { Name := "y".toList, Status := Status.Waiting }] }
        (by decide) (by decide) (Or.inl (by decide)) (by decide) (by decide)).2.1
      (by decide) (fun _ _ => rfl) 0,
    by decide, by decide⟩

/-- Counterexample to C10 as stated: the example stage is in range, sequential,
not skipped and has no step with conditions, yet `RunStage` issues no trigger
on it: it has no step 0, and `RunStep` answers with the range error. -/
theorem RunStage_triggers_counterexample :
    HasStageCondition exEmptyStage = false ∧ exEmptyStage.Parallel = false ∧
    exEmptyRun.activity.Pipeline.Stages[0]? = some exEmptyStage ∧
    (RunStage exWorld 5 exEmptyRun 0).map (fun x => (x.1, x.2.trace)) =
      some (some outOfRange, []) := by
  decide

/-! ## Abort -/

theorem StopStep_calls (b : Jenkins) (w : World) (a : Activity) (actiStage : ActivityStage)
    (i j : Nat) (step : ActivityStep) (fx : Effects) :
    stopStepCalls (StopStep b w a actiStage i j step fx).2.2.calls =
      stopStepCalls fx.calls ++ [Call.StopStep i j] := by
  unfold StopStep
  simp only []
  cases b.GetJobInfo (stepJobName a actiStage j) with
  | error e => simp [stopStepCalls]
  | ok info =>
    simp only []
    split_ifs with hq
    · cases info.QueueItem with
      | none => simp [stopStepCalls]
      | some q =>
        cases q with
        | none => simp [stopStepCalls]
        | some queueId =>
          simp only []
          cases b.CancelQueueItem queueId <;> simp [stopStepCalls]
    · cases b.GetBuildInfo (stepJobName a actiStage j) with
      | error e => simp [stopStepCalls]
      | ok buildInfo =>
        simp only []
        split_ifs with hb
        · cases b.StopJob (stepJobName a actiStage j) <;> simp [stopStepCalls]
        · simp [stopStepCalls]

theorem stopSteps_cons (b : Jenkins) (w : World) (a : Activity) (actiStage : ActivityStage)
    (i j : Nat) (step : ActivityStep) (rest : List ActivityStep) (fx : Effects) :
    stopSteps b w a actiStage i j (step :: rest) fx =
      ((StopStep b w a actiStage i j step fx).2.1 ::
        (stopSteps b w a actiStage i (j + 1) rest (StopStep b w a actiStage i j step fx).2.2).1,
       (stopSteps b w a actiStage i (j + 1) rest (StopStep b w a actiStage i j step fx).2.2).2) := by
  simp only [stopSteps]

theorem stopSteps_calls (b : Jenkins) (w : World) (a : Activity) (actiStage : ActivityStage)
    (i : Nat) (steps : List ActivityStep) :
    ∀ (j : Nat) (fx : Effects),
      stopStepCalls (stopSteps b w a actiStage i j steps fx).2.calls =
        stopStepCalls fx.calls ++ (List.range' j steps.length).map (Call.StopStep i) := by
  induction steps with
  | nil => intro j fx; simp [stopSteps]
  | cons step rest ih =>
    intro j fx
    rw [stopSteps_cons]
    simp only [List.length_cons, List.range'_succ, List.map_cons]
    rw [ih (j + 1), StopStep_calls]
    simp

theorem stopSteps_length (b : Jenkins) (w : World) (a : Activity) (actiStage : ActivityStage)
    (i : Nat) (steps : List ActivityStep) :
    ∀ (j : Nat) (fx : Effects),
      (stopSteps b w a actiStage i j steps fx).1.length = steps.length := by
  induction steps with
  | nil => intro j fx; simp [stopSteps]
  | cons step rest ih =>
    intro j fx
    rw [stopSteps_cons]
    simp [ih]

theorem stopStages_done (b : Jenkins) (w : World) (a : Activity) (now : Int)
    (stage : ActivityStage) (rest : List ActivityStage) (i : Nat) (fx : Effects)
    (h : stageDone stage) :
    stopStages b w a now i (stage :: rest) fx =
      (stage :: (stopStages b w a now (i + 1) rest fx).1,
        (stopStages b w a now (i + 1) rest fx).2) := by
  simp only [stopStages]
  rw [if_pos h]

theorem stopStages_first (b : Jenkins) (w : World) (a : Activity) (now : Int)
    (stage : ActivityStage) (rest : List ActivityStage) (i : Nat) (fx : Effects)
    (h : ¬ stageDone stage) :
    stopStages b w a now i (stage :: rest) fx =
      ({ stage with
          ActivitySteps := (stopSteps b w a stage i 0 stage.ActivitySteps fx).1,
          Status := Status.Abort,
          Duration := wrap64 (now - stage.StartTS) } :: rest,
        (stopSteps b w a stage i 0 stage.ActivitySteps fx).2) := by
  simp only [stopStages]
  rw [if_neg h]

theorem stopStages_before (b : Jenkins) (w : World) (a : Activity) (now : Int)
    (pre rest : List ActivityStage) (h : ∀ s ∈ pre, stageDone s) :
    ∀ (i : Nat) (fx : Effects),
      stopStages b w a now i (pre ++ rest) fx =
        (pre ++ (stopStages b w a now (i + pre.length) rest fx).1,
          (stopStages b w a now (i + pre.length) rest fx).2) := by
  induction pre with
  | nil => intro i fx; rfl
  | cons s pre ih =>
    intro i fx
    rw [List.cons_append, stopStages_done b w a now s _ i fx (h s (List.mem_cons_self _ _)),
      ih (fun x hx => h x (List.mem_cons_of_mem _ hx))]
    simp only [List.length_cons, List.cons_append]
    have e : i + 1 + pre.length = i + (pre.length + 1) := by omega
    rw [e]

theorem stopStages_all_done (b : Jenkins) (w : World) (a : Activity) (now : Int)
    (l : List ActivityStage) (h : ∀ s ∈ l, stageDone s) (i : Nat) (fx : Effects) :
    stopStages b w a now i l fx = (l, fx) := by
  have := stopStages_before b w a now l [] h i fx
  simpa [stopStages] using this

/-- What `StopActivity` returns when the first stage that is neither Success
nor Skip is `stage`, after the stages `pre`. -/
theorem StopActivity_first (b : Jenkins) (w : World) (a : Activity) (fx : Effects)
    (pre post : List ActivityStage) (stage : ActivityStage)
    (hsplit : a.ActivityStages = pre ++ stage :: post)
    (hpre : ∀ s ∈ pre, stageDone s) (hstage : ¬ stageDone stage) :
    StopActivity b w a fx =
      (none,
        { a with
          Status := Status.Abort,
          StopTS := nowMs w fx.clock,
          ActivityStages :=
            pre ++
              { stage with
                ActivitySteps :=
                  (stopSteps b w { a with Status := Status.Abort, StopTS := nowMs w fx.clock }
                    stage pre.length 0 stage.ActivitySteps
                    { fx with clock := fx.clock + 1 }).1,
                Status := Status.Abort,
                Duration := wrap64 (nowMs w fx.clock - stage.StartTS) } :: post },
        (stopSteps b w { a with Status := Status.Abort, StopTS := nowMs w fx.clock }
          stage pre.length 0 stage.ActivitySteps { fx with clock := fx.clock + 1 }).2) := by
  unfold StopActivity
  simp only [hsplit]
  rw [stopStages_before _ _ _ _ pre _ hpre, stopStages_first _ _ _ _ stage post _ _ hstage]
  simp only [Nat.zero_add]

/-- C11: with `stage` the first stage that is neither Success nor Skip,
`StopActivity` leaves the stages before it and the stages after it as they
are, and of that stage it sets the status to Abort and the duration to the time
read at the start minus the stage's `StartTS` (its steps are those left by the
calls of `StopStep`; name, approval flag and `StartTS` are kept). When every
stage is Success or Skip, no stage is changed. -/
theorem StopActivity_frame (b : Jenkins) (w : World) (a : Activity) (fx : Effects) :
    (∀ (pre post : List ActivityStage) (stage : ActivityStage),
      a.ActivityStages = pre ++ stage :: post → (∀ s ∈ pre, stageDone s) → ¬ stageDone stage →
      ∃ steps, steps.length = stage.ActivitySteps.length ∧
        (StopActivity b w a fx).2.1.ActivityStages =
          pre ++
            { stage with
              ActivitySteps := steps,
              Status := Status.Abort,
              Duration := wrap64 (nowMs w fx.clock - stage.StartTS) } :: post) ∧
    ((∀ s ∈ a.ActivityStages, stageDone s) →
      (StopActivity b w a fx).2.1.ActivityStages = a.ActivityStages) ∧
    (∀ startTS : Int, -(2 ^ 63) ≤ nowMs w fx.clock - startTS →
      nowMs w fx.clock - startTS < 2 ^ 63 →
      wrap64 (nowMs w fx.clock - startTS) = nowMs w fx.clock - startTS) := by
  refine ⟨?_, ?_, fun s => wrap64_of_range _⟩
  · intro pre post stage hsplit hpre hstage
    rw [StopActivity_first b w a fx pre post stage hsplit hpre hstage]
    exact ⟨_, stopSteps_length _ _ _ _ _ _ _ _, rfl⟩
  · intro hall
    unfold StopActivity
    simp only []
    rw [stopStages_all_done _ _ _ _ _ hall]

/-- Witness of C11: stage 0 Success, stage 1 Building with two steps, stage 2
Waiting: stage 0 is unchanged, stage 1 is Abort, stage 2 is still Waiting and
`StopStep` is entered exactly twice. -/
theorem StopActivity_frame_witness :
    (∃ steps, steps.length = 2 ∧
      (StopActivity exBusyJenkins exWorld exStopActivity {}).2.1.ActivityStages =
        [{ Name := "s0".toList, Status := Status.Success,
           ActivitySteps := [{ Name := "x".toList, Status := Status.Success }] },
         { Name := "s1".toList, Status := Status.Abort, StartTS := 2, Duration := 3,
           ActivitySteps := steps },
         { Name := "s2".toList, Status := Status.Waiting,
           ActivitySteps := [{ Name := "u".toList, Status := Status.Waiting }] }]) ∧
    stopStepCalls (StopActivity exBusyJenkins exWorld exStopActivity {}).2.2.calls =
      [Call.StopStep 1 0, Call.StopStep 1 1] :=
  ⟨(StopActivity_frame exBusyJenkins exWorld exStopActivity {}).1
      [{ Name := "s0".toList, Status := Status.Success,
         ActivitySteps := [{ Name := "x".toList, Status := Status.Success }] }]
      [{ Name := "s2".toList, Status := Status.Waiting,
         ActivitySteps := [{ Name := "u".toList, Status := Status.Waiting }] }]
      { Name := "s1".toList, Status := Status.Building, StartTS := 2,
        ActivitySteps := [{ Name := "y".toList, Status := Status.Building },
                          { Name := "z".toList, Status := Status.Building }] }
      rfl (by decide) (by decide),
    by decide⟩

/-- C12: whatever the individual calls of `StopStep` answer, `StopActivity`
returns no error; with `stage` the first stage that is neither Success nor
Skip, `StopStep` is entered exactly once for every step of that stage, in
ordinal order, and the stage is marked Abort. When every stage is Success or
Skip, `StopStep` is not entered. -/
theorem StopActivity_best_effort (b : Jenkins) (w : World) (a : Activity) (fx : Effects) :
    (StopActivity b w a fx).1 = none ∧
    (∀ (pre post : List ActivityStage) (stage : ActivityStage),
      a.ActivityStages = pre ++ stage :: post → (∀ s ∈ pre, stageDone s) → ¬ stageDone stage →
      stopStepCalls (StopActivity b w a fx).2.2.calls =
          stopStepCalls fx.calls ++
            (List.range stage.ActivitySteps.length).map (Call.StopStep pre.length) ∧
        ∃ st, (StopActivity b w a fx).2.1.ActivityStages[pre.length]? = some st ∧
          st.Status = Status.Abort) ∧
    ((∀ s ∈ a.ActivityStages, stageDone s) →
      (StopActivity b w a fx).2.2.calls = fx.calls) := by
  refine ⟨by unfold StopActivity; rfl, ?_, ?_⟩
  · intro pre post stage hsplit hpre hstage
    rw [StopActivity_first b w a fx pre post stage hsplit hpre hstage]
    refine ⟨?_, ?_⟩
    · simp only []
      rw [stopSteps_calls, List.range_eq_range']
    · simp only []
      rw [List.getElem?_append_right (Nat.le_refl _)]
      simp
  · intro hall
    unfold StopActivity
    simp only []
    rw [stopStages_all_done _ _ _ _ _ hall]

/-- C13, as the code has it: whatever the status of the activity, also Success
or Fail, `StopActivity` sets the status to Abort and `StopTS` to the time it
reads at the start. -/
theorem StopActivity_overwrites (b : Jenkins) (w : World) (a : Activity) (fx : Effects) :
    (StopActivity b w a fx).2.1.Status = Status.Abort ∧
    (StopActivity b w a fx).2.1.StopTS = nowMs w fx.clock := by
  unfold StopActivity
  exact ⟨rfl, rfl⟩

/-- Counterexample to C13 as stated: an activity that is Success with `StopTS`
1 is Abort with `StopTS` 5 after `StopActivity`. -/
theorem StopActivity_overwrites_counterexample :
    (StopActivity exNoJenkins exWorld { Status := Status.Success, StopTS := 1 } {}).2.1.Status =
      Status.Abort ∧
    (StopActivity exNoJenkins exWorld { Status := Status.Success, StopTS := 1 } {}).2.1.StopTS =
      5 := by
  decide

/-! ## Reconciliation -/

/-- The cases of the body of the inner loop of `SyncActivity`. -/
theorem syncStep_cases (b : Jenkins) (a : Activity) (stage : ActivityStage) (j : Nat)
    (step : ActivityStep) (sh : StageHead) (ah : ActivityHead) :
    ((step.Status = Status.Fail ∨ step.Status = Status.Success) ∧
      syncStep b a stage j step sh ah =
        { flow := Flow.next, step := step, stage := sh, activity := ah }) ∨
    (¬ (step.Status = Status.Fail ∨ step.Status = Status.Success) ∧
      ((∃ e, b.GetJobInfo (stepJobName a stage j) = Except.error e ∧
          syncStep b a stage j step sh ah =
            { flow := Flow.fail (Err.error e), step := step, stage := sh, activity := ah }) ∨
       (∃ info e, b.GetJobInfo (stepJobName a stage j) = Except.ok info ∧
          b.GetBuildInfo (stepJobName a stage j) = Except.error e ∧
          syncStep b a stage j step sh ah =
            if stage.NeedApproval = true ∧ j = 0 then
              { flow := Flow.stop, step := step,
                stage := { sh with Status := Status.Pending },
                activity := { ah with Status := Status.Pending } }
            else { flow := Flow.stop, step := step, stage := sh, activity := ah }) ∨
       (∃ info bi, b.GetJobInfo (stepJobName a stage j) = Except.ok info ∧
          b.GetBuildInfo (stepJobName a stage j) = Except.ok bi ∧
          ((bi.Result = "SUCCESS".toList ∧
              syncStep b a stage j step sh ah =
                { flow := Flow.next,
                  step := { step with
                    StartTS := bi.Timestamp, Duration := bi.Duration,
                    Status := Status.Success },
                  stage :=
                    if (j : Int) = (stage.ActivitySteps.length : Int) - 1 then
                      { Status := Status.Success,
                        Duration := wrap64 (bi.Timestamp + bi.Duration - stage.StartTS) }
                    else sh,
                  activity := ah }) ∨
           (bi.Result ≠ "SUCCESS".toList ∧ bi.Result = "FAILURE".toList ∧
              syncStep b a stage j step sh ah =
                { flow := Flow.next,
                  step := { step with
                    StartTS := bi.Timestamp, Duration := bi.Duration,
                    Status := Status.Fail },
                  stage :=
                    { Status := Status.Fail,
                      Duration := wrap64 (bi.Timestamp + bi.Duration - stage.StartTS) },
                  activity :=
                    { Status := Status.Fail,
                      StopTS := wrap64 (bi.Timestamp + bi.Duration) } }) ∨
           (bi.Result ≠ "SUCCESS".toList ∧ bi.Result ≠ "FAILURE".toList ∧
              bi.Building = true ∧
              syncStep b a stage j step sh ah =
                { flow := Flow.stop,
                  step := { step with StartTS := bi.Timestamp, Status := Status.Building },
                  stage := { sh with Status := Status.Building },
                  activity := { ah with Status := Status.Building } }) ∨
           (bi.Result ≠ "SUCCESS".toList ∧ bi.Result ≠ "FAILURE".toList ∧
              bi.Building = false ∧
              syncStep b a stage j step sh ah =
                { flow := Flow.next, step := step, stage := sh, activity := ah }))))) := by
  by_cases hdone : step.Status = Status.Fail ∨ step.Status = Status.Success
  · left
    exact ⟨hdone, by unfold syncStep; rw [if_pos hdone]⟩
  · right
    refine ⟨hdone, ?_⟩
    unfold syncStep
    rw [if_neg hdone]
    simp only []
    cases hj : b.GetJobInfo (stepJobName a stage j) with
    | error e => exact Or.inl ⟨e, rfl, rfl⟩
    | ok info =>
      right
      cases hb : b.GetBuildInfo (stepJobName a stage j) with
      | error e => exact Or.inl ⟨info, e, rfl, rfl, rfl⟩
      | ok bi =>
        right
        refine ⟨info, bi, rfl, rfl, ?_⟩
        simp only []
        by_cases h1 : bi.Result = "SUCCESS".toList
        · exact Or.inl ⟨h1, by rw [if_pos h1]⟩
        · by_cases h2 : bi.Result = "FAILURE".toList
          · exact Or.inr (Or.inl ⟨h1, h2, by rw [if_neg h1, if_pos h2]⟩)
          · cases h3 : bi.Building with
            | true =>
              exact Or.inr (Or.inr (Or.inl ⟨h1, h2, rfl, by rw [if_neg h1, if_neg h2]; simp⟩))
            | false =>
              exact Or.inr (Or.inr (Or.inr ⟨h1, h2, rfl, by rw [if_neg h1, if_neg h2]; simp⟩))

theorem syncSteps_nil (b : Jenkins) (a : Activity) (stage : ActivityStage) (j : Nat)
    (sh : StageHead) (ah : ActivityHead) :
    syncSteps b a stage j [] sh ah =
      { flow := Flow.next, steps := [], stage := sh, activity := ah } := by
  simp only [syncSteps]

theorem syncSteps_cons_next (b : Jenkins) (a : Activity) (stage : ActivityStage) (j : Nat)
    (step : ActivityStep) (rest : List ActivityStep) (sh : StageHead) (ah : ActivityHead)
    (h : (syncStep b a stage j step sh ah).flow = Flow.next) :
    syncSteps b a stage j (step :: rest) sh ah =
      { flow := (syncSteps b a stage (j + 1) rest (syncStep b a stage j step sh ah).stage
          (syncStep b a stage j step sh ah).activity).flow,
        steps := (syncStep b a stage j step sh ah).step ::
          (syncSteps b a stage (j + 1) rest (syncStep b a stage j step sh ah).stage
            (syncStep b a stage j step sh ah).activity).steps,
        stage := (syncSteps b a stage (j + 1) rest (syncStep b a stage j step sh ah).stage
          (syncStep b a stage j step sh ah).activity).stage,
        activity := (syncSteps b a stage (j + 1) rest (syncStep b a stage j step sh ah).stage
          (syncStep b a stage j step sh ah).activity).activity } := by
  rw [syncSteps]
  cases hr : syncStep b a stage j step sh ah with
  | mk flow step2 sh2 ah2 =>
    rw [hr] at h
    simp only at h
    subst h
    rfl

theorem syncSteps_cons_halt (b : Jenkins) (a : Activity) (stage : ActivityStage) (j : Nat)
    (step : ActivityStep) (rest : List ActivityStep) (sh : StageHead) (ah : ActivityHead)
    (h : (syncStep b a stage j step sh ah).flow ≠ Flow.next) :
    syncSteps b a stage j (step :: rest) sh ah =
      { flow := (syncStep b a stage j step sh ah).flow,
        steps := (syncStep b a stage j step sh ah).step :: rest,
        stage := (syncStep b a stage j step sh ah).stage,
        activity := (syncStep b a stage j step sh ah).activity } := by
  rw [syncSteps]
  cases hr : syncStep b a stage j step sh ah with
  | mk flow step2 sh2 ah2 =>
    rw [hr] at h
    simp only at h
    cases flow with
    | next => exact absurd rfl h
    | stop => rfl
    | fail e => rfl

theorem syncStages_cons_fail (b : Jenkins) (a : Activity) (stage : ActivityStage)
    (rest : List ActivityStage) (ah : ActivityHead) (e : Err)
    (h : (syncSteps b a stage 0 stage.ActivitySteps
      { Status := stage.Status, Duration := stage.Duration } ah).flow = Flow.fail e) :
    syncStages b a (stage :: rest) ah =
      { err := some e,
        stages := syncedStage stage (syncSteps b a stage 0 stage.ActivitySteps
          { Status := stage.Status, Duration := stage.Duration } ah) :: rest,
        activity := (syncSteps b a stage 0 stage.ActivitySteps
          { Status := stage.Status, Duration := stage.Duration } ah).activity } := by
  rw [syncStages]
  simp only [h]

theorem syncStages_cons_go (b : Jenkins) (a : Activity) (stage : ActivityStage)
    (rest : List ActivityStage) (ah : ActivityHead)
    (h : ∀ e, (syncSteps b a stage 0 stage.ActivitySteps
      { Status := stage.Status, Duration := stage.Duration } ah).flow ≠ Flow.fail e) :
    syncStages b a (stage :: rest) ah =
      { err := (syncStages b a rest (syncSteps b a stage 0 stage.ActivitySteps
          { Status := stage.Status, Duration := stage.Duration } ah).activity).err,
        stages := syncedStage stage (syncSteps b a stage 0 stage.ActivitySteps
            { Status := stage.Status, Duration := stage.Duration } ah) ::
          (syncStages b a rest (syncSteps b a stage 0 stage.ActivitySteps
            { Status := stage.Status, Duration := stage.Duration } ah).activity).stages,
        activity := (syncStages b a rest (syncSteps b a stage 0 stage.ActivitySteps
          { Status := stage.Status, Duration := stage.Duration } ah).activity).activity } := by
  cases hf : (syncSteps b a stage 0 stage.ActivitySteps
      { Status := stage.Status, Duration := stage.Duration } ah).flow with
  | fail e => exact absurd hf (h e)
  | next => rw [syncStages]; simp only [hf]
  | stop => rw [syncStages]; simp only [hf]

/-- Running the body of the inner loop again on the step it has left. -/
theorem syncStep_again (b : Jenkins) (a : Activity) (stage : ActivityStage) (j : Nat)
    (step : ActivityStep) (sh : StageHead) (ah : ActivityHead) :
    ((syncStep b a stage j step sh ah).flow = Flow.next →
      ∀ sh2 ah2, syncStep b a stage j (syncStep b a stage j step sh ah).step sh2 ah2 =
        { flow := Flow.next, step := (syncStep b a stage j step sh ah).step,
          stage := sh2, activity := ah2 }) ∧
    ((syncStep b a stage j step sh ah).flow = Flow.stop →
      ∀ ah2, ∃ ah3, ah3.StopTS = ah2.StopTS ∧
        syncStep b a stage j (syncStep b a stage j step sh ah).step
            (syncStep b a stage j step sh ah).stage ah2 =
          { flow := Flow.stop, step := (syncStep b a stage j step sh ah).step,
            stage := (syncStep b a stage j step sh ah).stage, activity := ah3 }) ∧
    (∀ e, (syncStep b a stage j step sh ah).flow = Flow.fail e →
      ∀ sh2 ah2, syncStep b a stage j (syncStep b a stage j step sh ah).step sh2 ah2 =
        { flow := Flow.fail e, step := (syncStep b a stage j step sh ah).step,
          stage := sh2, activity := ah2 }) := by
  rcases syncStep_cases b a stage j step sh ah with ⟨hd, hr⟩ | ⟨hd, hc⟩
  · rw [hr]
    refine ⟨fun _ sh2 ah2 => ?_, fun h => by simp at h, fun e h => by simp at h⟩
    simp only []
    unfold syncStep
    rw [if_pos hd]
  · rcases hc with ⟨e, hj, hr⟩ | ⟨info, e, hj, hb, hr⟩ | ⟨info, bi, hj, hb, hres⟩
    · rw [hr]
      refine ⟨fun h => by simp at h, fun h => by simp at h, fun e2 h sh2 ah2 => ?_⟩
      simp only [StepSync.mk.injEq, Flow.fail.injEq] at h
      simp only []
      unfold syncStep
      rw [if_neg hd]
      simp only [hj]
      rw [← h]
    · by_cases hp : stage.NeedApproval = true ∧ j = 0
      · rw [hr, if_pos hp]
        refine ⟨fun h => by simp at h, fun _ ah2 => ?_, fun e2 h => by simp at h⟩
        refine ⟨{ ah2 with Status := Status.Pending }, rfl, ?_⟩
        simp only []
        unfold syncStep
        rw [if_neg hd]
        simp only [hj, hb]
        rw [if_pos hp]
      · rw [hr, if_neg hp]
        refine ⟨fun h => by simp at h, fun _ ah2 => ?_, fun e2 h => by simp at h⟩
        refine ⟨ah2, rfl, ?_⟩
        simp only []
        unfold syncStep
        rw [if_neg hd]
        simp only [hj, hb]
        rw [if_neg hp]
    · rcases hres with ⟨h1, hr⟩ | ⟨h1, h2, hr⟩ | ⟨h1, h2, h3, hr⟩ | ⟨h1, h2, h3, hr⟩
      · rw [hr]
        refine ⟨fun _ sh2 ah2 => ?_, fun h => by simp at h, fun e2 h => by simp at h⟩
        simp only []
        unfold syncStep
        rw [if_pos (Or.inr rfl)]
      · rw [hr]
        refine ⟨fun _ sh2 ah2 => ?_, fun h => by simp at h, fun e2 h => by simp at h⟩
        simp only []
        unfold syncStep
        rw [if_pos (Or.inl rfl)]
      · rw [hr]
        refine ⟨fun h => by simp at h, fun _ ah2 => ?_, fun e2 h => by simp at h⟩
        refine ⟨{ ah2 with Status := Status.Building }, rfl, ?_⟩
        simp only []
        unfold syncStep
        rw [if_neg (by simp)]
        simp only [hj, hb]
        rw [if_neg h1, if_neg h2, if_pos h3]
      · rw [hr]
        refine ⟨fun _ sh2 ah2 => ?_, fun h => by simp at h, fun e2 h => by simp at h⟩
        simp only []
        unfold syncStep
        rw [if_neg hd]
        simp only [hj, hb]
        rw [if_neg h1, if_neg h2, if_neg (by simp [h3])]

/-- Running the inner loop again on the steps and the stage fields it has
left gives the same flow, steps and stage fields, and keeps `StopTS`. -/
theorem syncSteps_again (b : Jenkins) (a : Activity) (stage : ActivityStage)
    (rest : List ActivityStep) :
    ∀ (j : Nat) (sh : StageHead) (ah ah2 : ActivityHead),
      ∃ ah3, ah3.StopTS = ah2.StopTS ∧
        syncSteps b a stage j (syncSteps b a stage j rest sh ah).steps
            (syncSteps b a stage j rest sh ah).stage ah2 =
          { flow := (syncSteps b a stage j rest sh ah).flow,
            steps := (syncSteps b a stage j rest sh ah).steps,
            stage := (syncSteps b a stage j rest sh ah).stage,
            activity := ah3 } := by
  induction rest with
  | nil =>
    intro j sh ah ah2
    exact ⟨ah2, rfl, by simp only [syncSteps_nil]⟩
  | cons step rest ih =>
    intro j sh ah ah2
    obtain ⟨hnext, hstop, hfail⟩ := syncStep_again b a stage j step sh ah
    cases hf : (syncStep b a stage j step sh ah).flow with
    | next =>
      rw [syncSteps_cons_next b a stage j step rest sh ah hf]
      simp only []
      obtain ⟨ah3, h3, hrun⟩ := ih (j + 1) (syncStep b a stage j step sh ah).stage
        (syncStep b a stage j step sh ah).activity ah2
      refine ⟨ah3, h3, ?_⟩
      rw [syncSteps_cons_next _ _ _ _ _ _ _ _ (by rw [hnext hf])]
      rw [hnext hf]
      simp only []
      rw [hrun]
    | stop =>
      have hne : (syncStep b a stage j step sh ah).flow ≠ Flow.next := by rw [hf]; simp
      rw [syncSteps_cons_halt b a stage j step rest sh ah hne]
      simp only []
      obtain ⟨ah3, h3, hrun⟩ := hstop hf ah2
      refine ⟨ah3, h3, ?_⟩
      rw [syncSteps_cons_halt _ _ _ _ _ _ _ _ (by rw [hrun]; simp)]
      rw [hrun, hf]
    | fail e =>
      have hne : (syncStep b a stage j step sh ah).flow ≠ Flow.next := by rw [hf]; simp
      rw [syncSteps_cons_halt b a stage j step rest sh ah hne]
      simp only []
      refine ⟨ah2, rfl, ?_⟩
      rw [syncSteps_cons_halt _ _ _ _ _ _ _ _ (by rw [hfail e hf]; simp)]
      rw [hfail e hf, hf]

theorem syncSteps_length (b : Jenkins) (a : Activity) (stage : ActivityStage)
    (rest : List ActivityStep) :
    ∀ (j : Nat) (sh : StageHead) (ah : ActivityHead),
      (syncSteps b a stage j rest sh ah).steps.length = rest.length := by
  induction rest with
  | nil => intro j sh ah; simp [syncSteps_nil]
  | cons step rest ih =>
    intro j sh ah
    by_cases hf : (syncStep b a stage j step sh ah).flow = Flow.next
    · rw [syncSteps_cons_next b a stage j step rest sh ah hf]
      simp [ih]
    · rw [syncSteps_cons_halt b a stage j step rest sh ah hf]
      simp

/-- The inner loop reads the activity and the stage through the job names, the
approval flag, the number of steps and `StartTS` only. -/
theorem syncStep_congr (b : Jenkins) (a a2 : Activity) (stage stage2 : ActivityStage)
    (h1 : a2.Pipeline.Name = a.Pipeline.Name) (h2 : a2.Id = a.Id)
    (h3 : stage2.Name = stage.Name) (h4 : stage2.NeedApproval = stage.NeedApproval)
    (h5 : stage2.ActivitySteps.length = stage.ActivitySteps.length)
    (h6 : stage2.StartTS = stage.StartTS) (j : Nat) (step : ActivityStep) (sh : StageHead)
    (ah : ActivityHead) :
    syncStep b a2 stage2 j step sh ah = syncStep b a stage j step sh ah := by
  unfold syncStep stepJobName
  rw [h1, h2, h3, h4, h5, h6]

theorem syncSteps_congr (b : Jenkins) (a a2 : Activity) (stage stage2 : ActivityStage)
    (h1 : a2.Pipeline.Name = a.Pipeline.Name) (h2 : a2.Id = a.Id)
    (h3 : stage2.Name = stage.Name) (h4 : stage2.NeedApproval = stage.NeedApproval)
    (h5 : stage2.ActivitySteps.length = stage.ActivitySteps.length)
    (h6 : stage2.StartTS = stage.StartTS) (rest : List ActivityStep) :
    ∀ (j : Nat) (sh : StageHead) (ah : ActivityHead),
      syncSteps b a2 stage2 j rest sh ah = syncSteps b a stage j rest sh ah := by
  induction rest with
  | nil => intro j sh ah; simp only [syncSteps_nil]
  | cons step rest ih =>
    intro j sh ah
    have hs := syncStep_congr b a a2 stage stage2 h1 h2 h3 h4 h5 h6 j step sh ah
    by_cases hf : (syncStep b a stage j step sh ah).flow = Flow.next
    · rw [syncSteps_cons_next b a stage j step rest sh ah hf,
        syncSteps_cons_next b a2 stage2 j step rest sh ah (by rw [hs]; exact hf), hs, ih]
    · rw [syncSteps_cons_halt b a stage j step rest sh ah hf,
        syncSteps_cons_halt b a2 stage2 j step rest sh ah (by rw [hs]; exact hf), hs]

/-- Running the outer loop again on the stages it has left gives the same
error and the same stages, and keeps `StopTS`. -/
theorem syncStages_again (b : Jenkins) (a a2 : Activity)
    (h1 : a2.Pipeline.Name = a.Pipeline.Name) (h2 : a2.Id = a.Id)
    (stages : List ActivityStage) :
    ∀ (ah ah2 : ActivityHead),
      ∃ ah3, ah3.StopTS = ah2.StopTS ∧
        syncStages b a2 (syncStages b a stages ah).stages ah2 =
          { err := (syncStages b a stages ah).err,
            stages := (syncStages b a stages ah).stages,
            activity := ah3 } := by
  induction stages with
  | nil =>
    intro ah ah2
    exact ⟨ah2, rfl, by simp only [syncStages]⟩
  | cons stage rest ih =>
    intro ah ah2
    have hlen := syncSteps_length b a stage stage.ActivitySteps 0
      { Status := stage.Status, Duration := stage.Duration } ah
    obtain ⟨ah3, h3, hrun⟩ := syncSteps_again b a stage stage.ActivitySteps 0
      { Status := stage.Status, Duration := stage.Duration } ah ah2
    have hinner : syncSteps b a2
        (syncedStage stage (syncSteps b a stage 0 stage.ActivitySteps
          { Status := stage.Status, Duration := stage.Duration } ah)) 0
        (syncedStage stage (syncSteps b a stage 0 stage.ActivitySteps
          { Status := stage.Status, Duration := stage.Duration } ah)).ActivitySteps
        { Status := (syncedStage stage (syncSteps b a stage 0 stage.ActivitySteps
            { Status := stage.Status, Duration := stage.Duration } ah)).Status,
          Duration := (syncedStage stage (syncSteps b a stage 0 stage.ActivitySteps
            { Status := stage.Status, Duration := stage.Duration } ah)).Duration } ah2 =
        { flow := (syncSteps b a stage 0 stage.ActivitySteps
            { Status := stage.Status, Duration := stage.Duration } ah).flow,
          steps := (syncSteps b a stage 0 stage.ActivitySteps
            { Status := stage.Status, Duration := stage.Duration } ah).steps,
          stage := (syncSteps b a stage 0 stage.ActivitySteps
            { Status := stage.Status, Duration := stage.Duration } ah).stage,
          activity := ah3 } := by
      rw [syncSteps_congr b a a2 stage
        (syncedStage stage (syncSteps b a stage 0 stage.ActivitySteps
          { Status := stage.Status, Duration := stage.Duration } ah))
        h1 h2 rfl rfl (by simp [syncedStage, hlen]) rfl]
      exact hrun
    have hsame : ∀ ah4 : ActivityHead,
        syncedStage
          (syncedStage stage (syncSteps b a stage 0 stage.ActivitySteps
            { Status := stage.Status, Duration := stage.Duration } ah))
          { flow := (syncSteps b a stage 0 stage.ActivitySteps
              { Status := stage.Status, Duration := stage.Duration } ah).flow,
            steps := (syncSteps b a stage 0 stage.ActivitySteps
              { Status := stage.Status, Duration := stage.Duration } ah).steps,
            stage := (syncSteps b a stage 0 stage.ActivitySteps
              { Status := stage.Status, Duration := stage.Duration } ah).stage,
            activity := ah4 } =
        syncedStage stage (syncSteps b a stage 0 stage.ActivitySteps
          { Status := stage.Status, Duration := stage.Duration } ah) := fun _ => rfl
    cases hf : (syncSteps b a stage 0 stage.ActivitySteps
        { Status := stage.Status, Duration := stage.Duration } ah).flow with
    | fail e =>
      rw [syncStages_cons_fail b a stage rest ah e hf]
      simp only []
      refine ⟨ah3, h3, ?_⟩
      rw [syncStages_cons_fail b a2 _ rest ah2 e (by rw [hinner]; exact hf), hinner, hsame]
    | next =>
      have hgo : ∀ e, (syncSteps b a stage 0 stage.ActivitySteps
          { Status := stage.Status, Duration := stage.Duration } ah).flow ≠ Flow.fail e := by
        intro e; rw [hf]; simp
      rw [syncStages_cons_go b a stage rest ah hgo]
      simp only []
      obtain ⟨ah5, h5, hrest⟩ := ih (syncSteps b a stage 0 stage.ActivitySteps
        { Status := stage.Status, Duration := stage.Duration } ah).activity ah3
      refine ⟨ah5, by rw [h5, h3], ?_⟩
      rw [syncStages_cons_go b a2 _ _ ah2 (by rw [hinner]; exact hgo), hinner, hsame]
      simp only []
      rw [hrest]
    | stop =>
      have hgo : ∀ e, (syncSteps b a stage 0 stage.ActivitySteps
          { Status := stage.Status, Duration := stage.Duration } ah).flow ≠ Flow.fail e := by
        intro e; rw [hf]; simp
      rw [syncStages_cons_go b a stage rest ah hgo]
      simp only []
      obtain ⟨ah5, h5, hrest⟩ := ih (syncSteps b a stage 0 stage.ActivitySteps
        { Status := stage.Status, Duration := stage.Duration } ah).activity ah3
      refine ⟨ah5, by rw [h5, h3], ?_⟩
      rw [syncStages_cons_go b a2 _ _ ah2 (by rw [hinner]; exact hgo), hinner, hsame]
      simp only []
      rw [hrest]

/-- C15, as the code has it: with the answers of the backend held fixed,
running `SyncActivity` a second time returns the same error and leaves the
activity as the first run left it, except for `Activity.Status`: every stage
and step (status, `StartTS`, `Duration`) and `StopTS` are the same. -/
theorem SyncActivity_again (b : Jenkins) (a : Activity) :
    (SyncActivity b (SyncActivity b a).2).1 = (SyncActivity b a).1 ∧
    (SyncActivity b (SyncActivity b a).2).2 =
      { (SyncActivity b a).2 with
        Status := (SyncActivity b (SyncActivity b a).2).2.Status } := by
  obtain ⟨ah3, h3, hrun⟩ := syncStages_again b a (SyncActivity b a).2 rfl rfl a.ActivityStages
    { Status := a.Status, StopTS := a.StopTS }
    { Status := (SyncActivity b a).2.Status, StopTS := (SyncActivity b a).2.StopTS }
  have hstages : (SyncActivity b a).2.ActivityStages =
      (syncStages b a a.ActivityStages { Status := a.Status, StopTS := a.StopTS }).stages := rfl
  have herr : (SyncActivity b a).1 =
      (syncStages b a a.ActivityStages { Status := a.Status, StopTS := a.StopTS }).err := rfl
  have hsecond : SyncActivity b (SyncActivity b a).2 =
      ((syncStages b (SyncActivity b a).2 (SyncActivity b a).2.ActivityStages
          { Status := (SyncActivity b a).2.Status, StopTS := (SyncActivity b a).2.StopTS }).err,
        { (SyncActivity b a).2 with
          ActivityStages :=
            (syncStages b (SyncActivity b a).2 (SyncActivity b a).2.ActivityStages
              { Status := (SyncActivity b a).2.Status,
                StopTS := (SyncActivity b a).2.StopTS }).stages,
          Status :=
            (syncStages b (SyncActivity b a).2 (SyncActivity b a).2.ActivityStages
              { Status := (SyncActivity b a).2.Status,
                StopTS := (SyncActivity b a).2.StopTS }).activity.Status,
          StopTS :=
            (syncStages b (SyncActivity b a).2 (SyncActivity b a).2.ActivityStages
              { Status := (SyncActivity b a).2.Status,
                StopTS := (SyncActivity b a).2.StopTS }).activity.StopTS }) := rfl
  rw [hstages] at hsecond
  rw [hrun] at hsecond
  rw [hsecond]
  simp only [h3]
  exact ⟨herr.symm, rfl⟩

/-- Counterexample to C15 as stated: with the job of stage 0 running and the
job of stage 1 failed, the first run leaves the activity Fail and the second
run, on the same answers, sets it to Building. -/
theorem SyncActivity_again_counterexample :
    (SyncActivity exLateFailure exTwoStages).2.Status = Status.Fail ∧
    (SyncActivity exLateFailure (SyncActivity exLateFailure exTwoStages).2).2.Status =
      Status.Building ∧
    SyncActivity exLateFailure (SyncActivity exLateFailure exTwoStages).2 ≠
      SyncActivity exLateFailure exTwoStages := by
  decide

/-- A relation that every round of the inner loop respects holds between the
start and the end of the loop. -/
theorem syncSteps_rel (b : Jenkins) (a : Activity) (stage : ActivityStage)
    (Rs : ActivityStep → ActivityStep → Prop) (Rh : StageHead → StageHead → Prop)
    (Ra : ActivityHead → ActivityHead → Prop)
    (hs : ∀ t, Rs t t) (hh : ∀ x, Rh x x) (ha : ∀ x, Ra x x)
    (hht : ∀ x y z, Rh x y → Rh y z → Rh x z) (hat : ∀ x y z, Ra x y → Ra y z → Ra x z)
    (hstep : ∀ j step sh ah,
      Rs step (syncStep b a stage j step sh ah).step ∧
      Rh sh (syncStep b a stage j step sh ah).stage ∧
      Ra ah (syncStep b a stage j step sh ah).activity)
    (rest : List ActivityStep) :
    ∀ (j : Nat) (sh : StageHead) (ah : ActivityHead),
      List.Forall₂ Rs rest (syncSteps b a stage j rest sh ah).steps ∧
      Rh sh (syncSteps b a stage j rest sh ah).stage ∧
      Ra ah (syncSteps b a stage j rest sh ah).activity := by
  induction rest with
  | nil =>
    intro j sh ah
    rw [syncSteps_nil]
    exact ⟨List.Forall₂.nil, hh sh, ha ah⟩
  | cons step rest ih =>
    intro j sh ah
    obtain ⟨h1, h2, h3⟩ := hstep j step sh ah
    by_cases hf : (syncStep b a stage j step sh ah).flow = Flow.next
    · rw [syncSteps_cons_next b a stage j step rest sh ah hf]
      obtain ⟨i1, i2, i3⟩ := ih (j + 1) (syncStep b a stage j step sh ah).stage
        (syncStep b a stage j step sh ah).activity
      exact ⟨List.Forall₂.cons h1 i1, hht _ _ _ h2 i2, hat _ _ _ h3 i3⟩
    · rw [syncSteps_cons_halt b a stage j step rest sh ah hf]
      refine ⟨List.Forall₂.cons h1 ?_, h2, h3⟩
      exact List.forall₂_same.mpr (fun t _ => hs t)

/-- A relation that the inner loop respects on every stage holds between the
start and the end of the outer loop. -/
theorem syncStages_rel (b : Jenkins) (a : Activity)
    (Rst : ActivityStage → ActivityStage → Prop) (Ra : ActivityHead → ActivityHead → Prop)
    (hst : ∀ s, Rst s s) (ha : ∀ x, Ra x x)
    (hat : ∀ x y z, Ra x y → Ra y z → Ra x z)
    (stages : List ActivityStage)
    (hstage : ∀ stage ∈ stages, ∀ ah,
      Rst stage (syncedStage stage (syncSteps b a stage 0 stage.ActivitySteps
        { Status := stage.Status, Duration := stage.Duration } ah)) ∧
      Ra ah (syncSteps b a stage 0 stage.ActivitySteps
        { Status := stage.Status, Duration := stage.Duration } ah).activity) :
    ∀ (ah : ActivityHead),
      List.Forall₂ Rst stages (syncStages b a stages ah).stages ∧
      Ra ah (syncStages b a stages ah).activity := by
  induction stages with
  | nil =>
    intro ah
    simp only [syncStages]
    exact ⟨List.Forall₂.nil, ha ah⟩
  | cons stage rest ih =>
    intro ah
    obtain ⟨h1, h2⟩ := hstage stage (List.mem_cons_self _ _) ah
    by_cases hf : ∃ e, (syncSteps b a stage 0 stage.ActivitySteps
        { Status := stage.Status, Duration := stage.Duration } ah).flow = Flow.fail e
    · obtain ⟨e, he⟩ := hf
      rw [syncStages_cons_fail b a stage rest ah e he]
      exact ⟨List.Forall₂.cons h1 (List.forall₂_same.mpr (fun t _ => hst t)), h2⟩
    · rw [syncStages_cons_go b a stage rest ah (fun e he => hf ⟨e, he⟩)]
      obtain ⟨i1, i2⟩ := ih (fun s hs => hstage s (List.mem_cons_of_mem _ hs))
        (syncSteps b a stage 0 stage.ActivitySteps
          { Status := stage.Status, Duration := stage.Duration } ah).activity
      exact ⟨List.Forall₂.cons h1 i1, hat _ _ _ h2 i2⟩

/-- What one round of the inner loop can do to the statuses. -/
theorem syncStep_effect (b : Jenkins) (a : Activity) (stage : ActivityStage) (j : Nat)
    (step : ActivityStep) (sh : StageHead) (ah : ActivityHead) :
    ((syncStep b a stage j step sh ah).step = step ∨
      (¬ (step.Status = Status.Fail ∨ step.Status = Status.Success) ∧
        ((syncStep b a stage j step sh ah).step.Status = Status.Success ∨
         (syncStep b a stage j step sh ah).step.Status = Status.Fail ∨
         (syncStep b a stage j step sh ah).step.Status = Status.Building))) ∧
    ((syncStep b a stage j step sh ah).stage = sh ∨
      (syncStep b a stage j step sh ah).stage.Status = Status.Success ∨
      (syncStep b a stage j step sh ah).stage.Status = Status.Fail ∨
      (syncStep b a stage j step sh ah).stage.Status = Status.Building ∨
      ((syncStep b a stage j step sh ah).stage.Status = Status.Pending ∧
        stage.NeedApproval = true ∧
        ∃ e, b.GetBuildInfo (stepJobName a stage 0) = Except.error e)) ∧
    ((syncStep b a stage j step sh ah).activity = ah ∨
      (syncStep b a stage j step sh ah).activity.Status = Status.Fail ∨
      (syncStep b a stage j step sh ah).activity.Status = Status.Building ∨
      ((syncStep b a stage j step sh ah).activity.Status = Status.Pending ∧
        stage.NeedApproval = true ∧
        ∃ e, b.GetBuildInfo (stepJobName a stage 0) = Except.error e)) := by
  rcases syncStep_cases b a stage j step sh ah with ⟨hd, hr⟩ | ⟨hd, hc⟩
  · rw [hr]; exact ⟨Or.inl rfl, Or.inl rfl, Or.inl rfl⟩
  · rcases hc with ⟨e, hj, hr⟩ | ⟨info, e, hj, hb, hr⟩ | ⟨info, bi, hj, hb, hres⟩
    · rw [hr]; exact ⟨Or.inl rfl, Or.inl rfl, Or.inl rfl⟩
    · by_cases hp : stage.NeedApproval = true ∧ j = 0
      · rw [hr, if_pos hp]
        have hb0 : ∃ e, b.GetBuildInfo (stepJobName a stage 0) = Except.error e :=
          ⟨e, by rw [← hp.2]; exact hb⟩
        exact ⟨Or.inl rfl, Or.inr (Or.inr (Or.inr (Or.inr ⟨rfl, hp.1, hb0⟩))),
          Or.inr (Or.inr (Or.inr ⟨rfl, hp.1, hb0⟩))⟩
      · rw [hr, if_neg hp]; exact ⟨Or.inl rfl, Or.inl rfl, Or.inl rfl⟩
    · rcases hres with ⟨h1, hr⟩ | ⟨h1, h2, hr⟩ | ⟨h1, h2, h3, hr⟩ | ⟨h1, h2, h3, hr⟩
      · rw [hr]
        refine ⟨Or.inr ⟨hd, Or.inl rfl⟩, ?_, Or.inl rfl⟩
        simp only []
        split_ifs
        · exact Or.inr (Or.inl rfl)
        · exact Or.inl rfl
      · rw [hr]
        exact ⟨Or.inr ⟨hd, Or.inr (Or.inl rfl)⟩, Or.inr (Or.inr (Or.inl rfl)), Or.inr (Or.inl rfl)⟩
      · rw [hr]
        exact ⟨Or.inr ⟨hd, Or.inr (Or.inr rfl)⟩, Or.inr (Or.inr (Or.inr (Or.inl rfl))),
          Or.inr (Or.inr (Or.inl rfl))⟩
      · rw [hr]; exact ⟨Or.inl rfl, Or.inl rfl, Or.inl rfl⟩

/-! ## Reconciliation from the log -/

theorem parseStepTime_status (lp : LogParser) (step : ActivityStep) (log : Str) (ts : Int) :
    (parseStepTime lp step log ts).Status = step.Status := by
  unfold parseStepTime
  simp only []
  cases (lp.stamps log).head? with
  | none => rfl
  | some first =>
    simp only []
    cases lp.ParseDuration (trimRightSpaces (trimLeftNewlines first)) with
    | none => rfl
    | some ds =>
      simp only []
      split_ifs
      · rfl
      · cases lp.ParseDuration
          (trimRightSpaces (trimLeftNewlines ((lp.stamps log).getLast?.getD []))) <;> rfl

theorem parseLoop_cons (lp : LogParser) (outputs : List Str) (last : Status) (ts : Int)
    (i : Nat) (step : ActivityStep) (rest : List ActivityStep) (stageTime : Int)
    (updated : Bool) :
    ∃ (step2 : ActivityStep) (t2 : Int) (u2 : Bool),
      step2.Status =
        (if (i : Int) < (outputs.length : Int) - 1 - 1 then Status.Success
         else if (i : Int) = (outputs.length : Int) - 1 - 1 then last else Status.Waiting) ∧
      parseLoop lp outputs last ts i (step :: rest) stageTime updated =
        (step2 :: (parseLoop lp outputs last ts (i + 1) rest t2 u2).1,
          (parseLoop lp outputs last ts (i + 1) rest t2 u2).2) := by
  rw [parseLoop]
  simp only []
  refine ⟨_, _, _, ?_, rfl⟩
  split_ifs <;> first | rfl | simp only [parseStepTime_status]

/-- The statuses that the loop of `parseSteps` leaves, when the delimiter
matches `m` times. -/
theorem parseLoop_statuses (lp : LogParser) (outputs : List Str) (last : Status) (ts : Int)
    (m : Nat) (hm : outputs.length = m + 1) (rest : List ActivityStep) :
    ∀ (i : Nat) (stageTime : Int) (updated : Bool),
      (parseLoop lp outputs last ts i rest stageTime updated).1.map (fun s => s.Status) =
        (List.range' i rest.length).map (segmentStatus m last) := by
  induction rest with
  | nil => intro i stageTime updated; simp [parseLoop]
  | cons step rest ih =>
    intro i stageTime updated
    obtain ⟨step2, t2, u2, hs, hrun⟩ := parseLoop_cons lp outputs last ts i step rest stageTime
      updated
    rw [hrun]
    simp only [List.map_cons, List.length_cons, List.range'_succ, ih]
    congr 1
    rw [hs, hm]
    unfold segmentStatus
    have e1 : ((i : Int) < ((m + 1 : Nat) : Int) - 1 - 1) ↔ i + 1 < m := by omega
    have e2 : ((i : Int) = ((m + 1 : Nat) : Int) - 1 - 1) ↔ i + 1 = m := by omega
    simp only [e1, e2]

theorem suffix_markers_differ (raw : Str)
    (h1 : HasSuffix raw "  Finished: SUCCESS\n".toList = true)
    (h2 : HasSuffix raw "  Finished: FAILURE\n".toList = true) : False := by
  unfold HasSuffix at h1 h2
  rw [List.isSuffixOf_iff_suffix] at h1 h2
  have h3 := List.suffix_of_suffix_length_le h1 h2 (by decide)
  have h4 := h3.eq_of_length (by decide)
  exact absurd h4 (by decide)

theorem markFinished_steps (actiStage : ActivityStage) (raw : Str) :
    (markFinished actiStage raw).ActivitySteps = actiStage.ActivitySteps := by
  unfold markFinished
  split_ifs <;> rfl

/-- On an output that is not that of a source check-out, `parseSteps` is the
loop over the steps. -/
theorem parseSteps_shell (lp : LogParser) (actiStage : ActivityStage) (rawOutput : Str)
    (hscm : Contains ((lp.split rawOutput).headD []) cloneMarker = false) :
    parseSteps lp actiStage rawOutput =
      parseShell lp (markFinished actiStage rawOutput) (lastStatusOf rawOutput)
        (lp.split rawOutput) := by
  unfold parseSteps
  simp only []
  rw [if_neg (by unfold isCheckout; rw [hscm]; simp)]

/-- C20: when the delimiter of a shell invocation splits the output into
`m + 1` segments and the output is not that of a source check-out, `parseSteps`
sets step `i` to Success for `i < m - 1`, step `m - 1` to the last status
(Success when the output ends with the success marker, Fail when it ends with
the failure marker, Building otherwise) and every step `i ≥ m` to Waiting; the
stage becomes Success or Fail on those two endings. -/
theorem parseSteps_statuses (lp : LogParser) (actiStage : ActivityStage) (rawOutput : Str)
    (m : Nat) (hm : (lp.split rawOutput).length = m + 1)
    (hscm : Contains ((lp.split rawOutput).headD []) cloneMarker = false) :
    (parseSteps lp actiStage rawOutput).2.ActivitySteps.map (fun s => s.Status) =
      (List.range actiStage.ActivitySteps.length).map
        (segmentStatus m (lastStatusOf rawOutput)) ∧
    (HasSuffix rawOutput "  Finished: SUCCESS\n".toList = true →
      lastStatusOf rawOutput = Status.Success ∧
      (parseSteps lp actiStage rawOutput).2.Status = Status.Success) ∧
    (HasSuffix rawOutput "  Finished: FAILURE\n".toList = true →
      lastStatusOf rawOutput = Status.Fail ∧
      (parseSteps lp actiStage rawOutput).2.Status = Status.Fail) ∧
    (HasSuffix rawOutput "  Finished: SUCCESS\n".toList = false →
      HasSuffix rawOutput "  Finished: FAILURE\n".toList = false →
      lastStatusOf rawOutput = Status.Building ∧
      (parseSteps lp actiStage rawOutput).2.Status = actiStage.Status) := by
  rw [parseSteps_shell lp actiStage rawOutput hscm]
  have hstatus : (parseShell lp (markFinished actiStage rawOutput) (lastStatusOf rawOutput)
      (lp.split rawOutput)).2.Status = (markFinished actiStage rawOutput).Status := rfl
  refine ⟨?_, ?_, ?_, ?_⟩
  · have h := parseLoop_statuses lp (lp.split rawOutput) (lastStatusOf rawOutput)
      (markFinished actiStage rawOutput).StartTS m hm
      (markFinished actiStage rawOutput).ActivitySteps 0 0 false
    rw [← List.range_eq_range'] at h
    unfold parseShell
    simp only []
    rw [h, markFinished_steps]
  · intro hS
    rw [hstatus]
    unfold lastStatusOf markFinished
    rw [if_pos hS, if_pos hS]
    exact ⟨rfl, rfl⟩
  · intro hF
    have hS : ¬ HasSuffix rawOutput "  Finished: SUCCESS\n".toList = true :=
      fun hS => suffix_markers_differ rawOutput hS hF
    rw [hstatus]
    unfold lastStatusOf markFinished
    rw [if_neg hS, if_pos hF, if_neg hS, if_pos hF]
    exact ⟨rfl, rfl⟩
  · intro hS hF
    rw [hstatus]
    unfold lastStatusOf markFinished
    rw [if_neg (by rw [hS]; simp), if_neg (by rw [hF]; simp), if_neg (by rw [hS]; simp),
      if_neg (by rw [hF]; simp)]
    exact ⟨rfl, rfl⟩

/-- Witness of C20: three steps, two delimiters and the failure marker: step 0
Success, step 1 Fail, step 2 Waiting, the stage Fail, and `SyncActivityStale`
then sets the activity to Fail. -/
theorem parseSteps_statuses_witness :
    (parseSteps exParser exThreeStepStage exFailedOutput).2.ActivitySteps.map
        (fun s => s.Status) = [Status.Success, Status.Fail, Status.Waiting] ∧
    (parseSteps exParser exThreeStepStage exFailedOutput).2.Status = Status.Fail ∧
    (SyncActivityStale exFailedLog exParser exThreeSteps).2.Status = Status.Fail ∧
    (SyncActivityStale exFailedLog exParser exThreeSteps).2.ActivityStages.map
        (fun s => (s.Status, s.ActivitySteps.map (fun t => t.Status))) =
      [(Status.Fail, [Status.Success, Status.Fail, Status.Waiting])] :=
  ⟨(parseSteps_statuses exParser exThreeStepStage exFailedOutput 2 (by decide)
      (by decide)).1.trans (by decide),
   ((parseSteps_statuses exParser exThreeStepStage exFailedOutput 2 (by decide)
      (by decide)).2.2.1 (by decide)).2,
   by decide, by decide⟩

/-- C19, at a failing input: on the example activity the first call of
`SyncActivityStale` leaves the stage and the activity Fail; a second call on
the same answers of the backend changes nothing in the activity, no status
included, and yet returns `changed = true`. -/
theorem SyncActivityStale_changed_on_fail :
    (SyncActivityStale exFailedLog exParser exThreeSteps).1 = (true, none) ∧
    SyncActivityStale exFailedLog exParser
        (SyncActivityStale exFailedLog exParser exThreeSteps).2 =
      ((true, none), (SyncActivityStale exFailedLog exParser exThreeSteps).2) := by
  decide

/-! ## Reconciliation: what the statuses can become -/

/-- A relation that the inner loop respects on every stage of the activity
holds between the activity before and after `SyncActivity`. -/
theorem SyncActivity_rel (b : Jenkins) (a : Activity)
    (Rst : ActivityStage → ActivityStage → Prop) (Ra : ActivityHead → ActivityHead → Prop)
    (hst : ∀ s, Rst s s) (ha : ∀ x, Ra x x) (hat : ∀ x y z, Ra x y → Ra y z → Ra x z)
    (hstage : ∀ stage ∈ a.ActivityStages, ∀ ah,
      Rst stage (syncedStage stage (syncSteps b a stage 0 stage.ActivitySteps
        { Status := stage.Status, Duration := stage.Duration } ah)) ∧
      Ra ah (syncSteps b a stage 0 stage.ActivitySteps
        { Status := stage.Status, Duration := stage.Duration } ah).activity) :
    List.Forall₂ Rst a.ActivityStages (SyncActivity b a).2.ActivityStages ∧
    Ra { Status := a.Status, StopTS := a.StopTS }
      { Status := (SyncActivity b a).2.Status, StopTS := (SyncActivity b a).2.StopTS } :=
  syncStages_rel b a Rst Ra hst ha hat a.ActivityStages hstage
    { Status := a.Status, StopTS := a.StopTS }

theorem stepKept_refl (t : ActivityStep) : stepKept t t := ⟨fun _ => rfl, fun h => h⟩

theorem syncStep_kept (b : Jenkins) (a : Activity) (stage : ActivityStage) (j : Nat)
    (step : ActivityStep) (sh : StageHead) (ah : ActivityHead) :
    stepKept step (syncStep b a stage j step sh ah).step ∧
    ((syncStep b a stage j step sh ah).stage.Status = Status.Waiting →
      sh.Status = Status.Waiting) ∧
    ((syncStep b a stage j step sh ah).activity.Status = Status.Waiting →
      ah.Status = Status.Waiting) := by
  obtain ⟨h1, h2, h3⟩ := syncStep_effect b a stage j step sh ah
  refine ⟨?_, ?_, ?_⟩
  · rcases h1 with h | ⟨hd, h⟩
    · rw [h]; exact stepKept_refl step
    · refine ⟨fun hsf => absurd (Or.symm hsf) hd, fun hw => ?_⟩
      rcases h with h | h | h <;> rw [h] at hw <;> exact Status.noConfusion hw
  · intro hw
    rcases h2 with h | h | h | h | ⟨h, -⟩
    · rw [h] at hw; exact hw
    all_goals rw [h] at hw; exact Status.noConfusion hw
  · intro hw
    rcases h3 with h | h | h | ⟨h, -⟩
    · rw [h] at hw; exact hw
    all_goals rw [h] at hw; exact Status.noConfusion hw

/-- C14, as the code has it: `SyncActivity` never sets a status to Waiting and
never touches a step that is Success or Fail: after it, every step that was
Success or Fail is as it was, and a step, a stage or the activity is Waiting
only if it was Waiting before. -/
theorem SyncActivity_keeps (b : Jenkins) (a : Activity) :
    List.Forall₂ stageKept a.ActivityStages (SyncActivity b a).2.ActivityStages ∧
    ((SyncActivity b a).2.Status = Status.Waiting → a.Status = Status.Waiting) := by
  refine SyncActivity_rel b a stageKept (fun x y => y.Status = Status.Waiting →
      x.Status = Status.Waiting)
    (fun s => ⟨fun h => h, List.forall₂_same.mpr (fun t _ => stepKept_refl t)⟩)
    (fun x h => h) (fun x y z h1 h2 h => h1 (h2 h)) ?_
  intro stage _ ah
  obtain ⟨h1, h2, h3⟩ := syncSteps_rel b a stage stepKept
    (fun x y => y.Status = Status.Waiting → x.Status = Status.Waiting)
    (fun x y => y.Status = Status.Waiting → x.Status = Status.Waiting)
    stepKept_refl (fun x h => h) (fun x h => h) (fun x y z h1 h2 h => h1 (h2 h))
    (fun x y z h1 h2 h => h1 (h2 h))
    (fun j step sh ah => syncStep_kept b a stage j step sh ah)
    stage.ActivitySteps 0 { Status := stage.Status, Duration := stage.Duration } ah
  exact ⟨⟨h2, h1⟩, h3⟩

/-- Counterexample to C14 as stated: with the job of a skipped step reported as
running, `SyncActivity` moves the step from Skip, its stage from Success and
the activity from Success to Building; and `parseSteps`, on an output without
delimiter, moves a step from Success to Waiting. -/
theorem SyncActivity_keeps_counterexample :
    (SyncActivity exRunning exSkippedDone).2.Status = Status.Building ∧
    (SyncActivity exRunning exSkippedDone).2.ActivityStages.map
        (fun s => (s.Status, s.ActivitySteps.map (fun t => t.Status))) =
      [(Status.Building, [Status.Building])] ∧
    (parseSteps exParser
        { Name := "s0".toList, Status := Status.Building,
          ActivitySteps := [{ Name := "x".toList, Status := Status.Success }] }
        "a".toList).2.ActivitySteps.map (fun t => t.Status) = [Status.Waiting] := by
  decide

/-- C17, as the code has it: `SyncActivity` marks a stage Pending only when
that stage requires approval and the backend has no build for its step 0, and
the activity Pending only when some stage is in that case; the earlier stages
are not looked at. -/
theorem SyncActivity_pending (b : Jenkins) (a : Activity) :
    List.Forall₂ (pendingJustified b a) a.ActivityStages
      (SyncActivity b a).2.ActivityStages ∧
    ((SyncActivity b a).2.Status = Status.Pending →
      a.Status = Status.Pending ∨ ∃ s ∈ a.ActivityStages, awaitsApproval b a s) := by
  refine SyncActivity_rel b a (pendingJustified b a)
    (fun x y => y.Status = Status.Pending →
      x.Status = Status.Pending ∨ ∃ s ∈ a.ActivityStages, awaitsApproval b a s)
    (fun s h => Or.inl h) (fun x h => Or.inl h)
    (fun x y z h1 h2 h => (h2 h).elim h1 Or.inr) ?_
  intro stage hmem ah
  obtain ⟨-, h2, h3⟩ := syncSteps_rel b a stage (fun _ _ => True)
    (fun x y => y.Status = Status.Pending → x.Status = Status.Pending ∨ awaitsApproval b a stage)
    (fun x y => y.Status = Status.Pending → x.Status = Status.Pending ∨ awaitsApproval b a stage)
    (fun _ => trivial) (fun x h => Or.inl h) (fun x h => Or.inl h)
    (fun x y z h1 h2 h => (h2 h).elim h1 Or.inr)
    (fun x y z h1 h2 h => (h2 h).elim h1 Or.inr)
    (fun j step sh ah => by
      obtain ⟨-, e2, e3⟩ := syncStep_effect b a stage j step sh ah
      refine ⟨trivial, fun hp => ?_, fun hp => ?_⟩
      · rcases e2 with h | h | h | h | ⟨-, h⟩
        · rw [h] at hp; exact Or.inl hp
        · rw [h] at hp; exact Status.noConfusion hp
        · rw [h] at hp; exact Status.noConfusion hp
        · rw [h] at hp; exact Status.noConfusion hp
        · exact Or.inr h
      · rcases e3 with h | h | h | ⟨-, h⟩
        · rw [h] at hp; exact Or.inl hp
        · rw [h] at hp; exact Status.noConfusion hp
        · rw [h] at hp; exact Status.noConfusion hp
        · exact Or.inr h)
    stage.ActivitySteps 0 { Status := stage.Status, Duration := stage.Duration } ah
  exact ⟨h2, fun hp => (h3 hp).elim Or.inl (fun h => Or.inr ⟨stage, hmem, h⟩)⟩

/-- Counterexample to C17 as stated: stage 0 is running and stage 1, which
requires approval, has no build: `SyncActivity` marks stage 1 and the activity
Pending while stage 0 is Building. -/
theorem SyncActivity_pending_counterexample :
    (SyncActivity exRunning exApproval).2.Status = Status.Pending ∧
    (SyncActivity exRunning exApproval).2.ActivityStages.map (fun s => s.Status) =
      [Status.Building, Status.Pending] := by
  decide

/-! ## Reconciliation: when a stage becomes Success -/

/-- A round of the inner loop leaves the stage Success only when it has not
written the stage, or when it is the round of the last step and the backend
reports SUCCESS for it. -/
theorem syncStep_success (b : Jenkins) (a : Activity) (stage : ActivityStage) (j : Nat)
    (step : ActivityStep) (sh : StageHead) (ah : ActivityHead)
    (h : (syncStep b a stage j step sh ah).stage.Status = Status.Success) :
    (syncStep b a stage j step sh ah).stage = sh ∨
    (j + 1 = stage.ActivitySteps.length ∧
      (syncStep b a stage j step sh ah).flow = Flow.next ∧
      (syncStep b a stage j step sh ah).step.Status = Status.Success ∧
      ∃ bi, b.GetBuildInfo (stepJobName a stage j) = Except.ok bi ∧
        bi.Result = "SUCCESS".toList ∧
        (syncStep b a stage j step sh ah).stage =
          { Status := Status.Success,
            Duration := wrap64 (bi.Timestamp + bi.Duration - stage.StartTS) }) := by
  rcases syncStep_cases b a stage j step sh ah with ⟨hd, hr⟩ | ⟨hd, hc⟩
  · rw [hr]; exact Or.inl rfl
  · rcases hc with ⟨e, hj, hr⟩ | ⟨info, e, hj, hb, hr⟩ | ⟨info, bi, hj, hb, hres⟩
    · rw [hr]; exact Or.inl rfl
    · by_cases hp : stage.NeedApproval = true ∧ j = 0
      · rw [hr, if_pos hp] at h
        exact Status.noConfusion h
      · rw [hr, if_neg hp]; exact Or.inl rfl
    · rcases hres with ⟨h1, hr⟩ | ⟨h1, h2, hr⟩ | ⟨h1, h2, h3, hr⟩ | ⟨h1, h2, h3, hr⟩
      · by_cases hl : (j : Int) = (stage.ActivitySteps.length : Int) - 1
        · right
          rw [hr]
          refine ⟨by omega, rfl, rfl, bi, hb, h1, ?_⟩
          simp only []
          rw [if_pos hl]
        · left
          rw [hr]
          simp only []
          rw [if_neg hl]
      · rw [hr] at h; exact Status.noConfusion h
      · rw [hr] at h; exact Status.noConfusion h
      · rw [hr]; exact Or.inl rfl

/-- The inner loop leaves the stage Success only when it has not written the
stage, or when the backend reports SUCCESS for the last step, which the loop
has marked Success. -/
theorem syncSteps_success (b : Jenkins) (a : Activity) (stage : ActivityStage)
    (rest : List ActivityStep) :
    ∀ (j : Nat) (sh : StageHead) (ah : ActivityHead),
      (syncSteps b a stage j rest sh ah).stage.Status = Status.Success →
      (syncSteps b a stage j rest sh ah).stage = sh ∨
      ∃ (bi : JenkinsBuildInfo) (t : ActivityStep),
        j + 1 ≤ stage.ActivitySteps.length ∧
        b.GetBuildInfo (stepJobName a stage (stage.ActivitySteps.length - 1)) = Except.ok bi ∧
        bi.Result = "SUCCESS".toList ∧
        (syncSteps b a stage j rest sh ah).steps[stage.ActivitySteps.length - 1 - j]? =
          some t ∧
        t.Status = Status.Success ∧
        (syncSteps b a stage j rest sh ah).stage =
          { Status := Status.Success,
            Duration := wrap64 (bi.Timestamp + bi.Duration - stage.StartTS) } := by
  induction rest with
  | nil =>
    intro j sh ah _
    rw [syncSteps_nil]
    exact Or.inl rfl
  | cons step rest ih =>
    intro j sh ah
    by_cases hf : (syncStep b a stage j step sh ah).flow = Flow.next
    · rw [syncSteps_cons_next b a stage j step rest sh ah hf]
      simp only []
      intro h
      rcases ih (j + 1) _ _ h with hi | ⟨bi, t, hle, hb, hres, hget, ht, hst⟩
      · rw [hi] at h
        rcases syncStep_success b a stage j step sh ah h with hs | ⟨hl, -, hst, bi, hb, hres, hs⟩
        · left; rw [hi, hs]
        · right
          have e : stage.ActivitySteps.length - 1 = j := by omega
          refine ⟨bi, _, by omega, by rw [e]; exact hb, hres, ?_, hst, by rw [hi, hs]⟩
          rw [e, Nat.sub_self]
          exact List.getElem?_cons_zero
      · right
        refine ⟨bi, t, by omega, hb, hres, ?_, ht, hst⟩
        have e : stage.ActivitySteps.length - 1 - j =
            (stage.ActivitySteps.length - 1 - (j + 1)) + 1 := by omega
        rw [e, List.getElem?_cons_succ]
        exact hget
    · rw [syncSteps_cons_halt b a stage j step rest sh ah hf]
      simp only []
      intro h
      rcases syncStep_success b a stage j step sh ah h with hs | ⟨-, hn, -⟩
      · exact Or.inl hs
      · exact absurd hn hf

/-- C18, as the code has it: after `SyncActivity` a stage is Success only if it
was Success and keeps its duration, or if the backend reports SUCCESS for its
last step: that step is then Success and the stage's Duration is the build's
Timestamp + Duration minus the stage's StartTS. The other steps are not looked
at. -/
theorem SyncActivity_stage_success (b : Jenkins) (a : Activity) :
    List.Forall₂ (successJustified b a) a.ActivityStages
      (SyncActivity b a).2.ActivityStages := by
  refine (syncStages_rel b a (successJustified b a) (fun _ _ => True)
    (fun s h => Or.inl ⟨h, rfl⟩) (fun _ => trivial) (fun _ _ _ _ _ => trivial)
    a.ActivityStages ?_ { Status := a.Status, StopTS := a.StopTS }).1
  intro stage _ ah
  refine ⟨fun h => ?_, trivial⟩
  have hlen := syncSteps_length b a stage stage.ActivitySteps 0
    { Status := stage.Status, Duration := stage.Duration } ah
  rcases syncSteps_success b a stage stage.ActivitySteps 0
    { Status := stage.Status, Duration := stage.Duration } ah h with
    hs | ⟨bi, t, -, hb, hres, hget, ht, hst⟩
  · left
    have h2 : (syncSteps b a stage 0 stage.ActivitySteps
        { Status := stage.Status, Duration := stage.Duration } ah).stage.Status =
        Status.Success := h
    rw [hs] at h2
    refine ⟨h2, ?_⟩
    show (syncSteps b a stage 0 stage.ActivitySteps
        { Status := stage.Status, Duration := stage.Duration } ah).stage.Duration =
        stage.Duration
    rw [hs]
  · right
    refine ⟨bi, t, hb, hres, ?_, ht, ?_⟩
    · show (syncSteps b a stage 0 stage.ActivitySteps
        { Status := stage.Status, Duration := stage.Duration } ah).steps.getLast? = some t
      rw [List.getLast?_eq_getElem?, hlen]
      exact hget
    · show (syncSteps b a stage 0 stage.ActivitySteps
        { Status := stage.Status, Duration := stage.Duration } ah).stage.Duration = _
      rw [hst]

/-- Counterexample to C18 as stated: the backend reports FAILURE for step 0 and
SUCCESS for step 1, the last one: `SyncActivity` reports the stage Success
while its step 0 is Fail. -/
theorem SyncActivity_stage_success_counterexample :
    (SyncActivity exFailThenSuccess exTwoSteps).2.ActivityStages.map
        (fun s => (s.Status, s.ActivitySteps.map (fun t => t.Status))) =
      [(Status.Success, [Status.Fail, Status.Success])] := by
  decide

/-! ## Reconciliation: a failed build -/

/-- A quiet round writes nothing and returns no error. -/
theorem syncStep_quiet (b : Jenkins) (a : Activity) (stage : ActivityStage) (j : Nat)
    (step : ActivityStep) (sh : StageHead) (ah : ActivityHead)
    (hq : quietStep b a stage j step) :
    (syncStep b a stage j step sh ah).step = step ∧
    (syncStep b a stage j step sh ah).stage = sh ∧
    (syncStep b a stage j step sh ah).activity = ah ∧
    ∀ e, (syncStep b a stage j step sh ah).flow ≠ Flow.fail e := by
  rcases syncStep_cases b a stage j step sh ah with ⟨hd, hr⟩ | ⟨hd, hc⟩
  · rw [hr]; exact ⟨rfl, rfl, rfl, fun e h => Flow.noConfusion h⟩
  · rcases hq with hq | ⟨⟨info, hj⟩, ⟨e, hb⟩, hna⟩
    · exact absurd hq hd
    · rcases hc with ⟨e2, hj2, hr⟩ | ⟨info2, e2, hj2, hb2, hr⟩ | ⟨info2, bi, hj2, hb2, hres⟩
      · rw [hj] at hj2; exact Except.noConfusion hj2
      · rw [hr, if_neg hna]; exact ⟨rfl, rfl, rfl, fun e h => Flow.noConfusion h⟩
      · rw [hb] at hb2; exact Except.noConfusion hb2

/-- The inner loop over quiet steps writes nothing and returns no error. -/
theorem syncSteps_quiet (b : Jenkins) (a : Activity) (stage : ActivityStage)
    (rest : List ActivityStep) :
    ∀ (j : Nat) (sh : StageHead) (ah : ActivityHead),
      (∀ (k : Nat) (t : ActivityStep), rest[k]? = some t → quietStep b a stage (j + k) t) →
      (syncSteps b a stage j rest sh ah).steps = rest ∧
      (syncSteps b a stage j rest sh ah).stage = sh ∧
      (syncSteps b a stage j rest sh ah).activity = ah ∧
      ∀ e, (syncSteps b a stage j rest sh ah).flow ≠ Flow.fail e := by
  induction rest with
  | nil =>
    intro j sh ah _
    rw [syncSteps_nil]
    exact ⟨rfl, rfl, rfl, fun e h => Flow.noConfusion h⟩
  | cons step rest ih =>
    intro j sh ah hq
    obtain ⟨h1, h2, h3, h4⟩ := syncStep_quiet b a stage j step sh ah (hq 0 step List.getElem?_cons_zero)
    by_cases hf : (syncStep b a stage j step sh ah).flow = Flow.next
    · rw [syncSteps_cons_next b a stage j step rest sh ah hf, h1, h2, h3]
      obtain ⟨i1, i2, i3, i4⟩ := ih (j + 1) sh ah (fun k t hk => by
        have := hq (k + 1) t (by rw [List.getElem?_cons_succ]; exact hk)
        rw [show j + 1 + k = j + (k + 1) by omega]
        exact this)
      exact ⟨by rw [i1], i2, i3, i4⟩
    · rw [syncSteps_cons_halt b a stage j step rest sh ah hf, h1, h2, h3]
      exact ⟨rfl, rfl, rfl, h4⟩

/-- The inner loop runs through the steps that are already Fail or Success and
goes on with the others. -/
theorem syncSteps_done_append (b : Jenkins) (a : Activity) (stage : ActivityStage)
    (done : List ActivityStep) :
    ∀ (j : Nat) (rest : List ActivityStep) (sh : StageHead) (ah : ActivityHead),
      (∀ t ∈ done, t.Status = Status.Fail ∨ t.Status = Status.Success) →
      syncSteps b a stage j (done ++ rest) sh ah =
        { flow := (syncSteps b a stage (j + done.length) rest sh ah).flow,
          steps := done ++ (syncSteps b a stage (j + done.length) rest sh ah).steps,
          stage := (syncSteps b a stage (j + done.length) rest sh ah).stage,
          activity := (syncSteps b a stage (j + done.length) rest sh ah).activity } := by
  induction done with
  | nil =>
    intro j rest sh ah _
    rfl
  | cons step done ih =>
    intro j rest sh ah hd
    have hs : syncStep b a stage j step sh ah =
        { flow := Flow.next, step := step, stage := sh, activity := ah } := by
      unfold syncStep
      rw [if_pos (hd step (List.mem_cons_self _ _))]
    rw [List.cons_append, syncSteps_cons_next b a stage j step (done ++ rest) sh ah
      (by rw [hs]), hs]
    simp only []
    rw [ih (j + 1) rest sh ah (fun t ht => hd t (List.mem_cons_of_mem _ ht))]
    simp only [List.length_cons, List.cons_append]
    rw [show j + 1 + done.length = j + (done.length + 1) by omega]

/-- A stage whose loop has written nothing is as it was. -/
theorem syncedStage_same (stage : ActivityStage) (r : StepsSync)
    (h1 : r.steps = stage.ActivitySteps)
    (h2 : r.stage = { Status := stage.Status, Duration := stage.Duration }) :
    syncedStage stage r = stage := by
  unfold syncedStage
  rw [h1, h2]

/-- The outer loop runs through quiet stages without writing and goes on with
the others. -/
theorem syncStages_quiet_append (b : Jenkins) (a : Activity) (pre : List ActivityStage) :
    ∀ (rest : List ActivityStage) (ah : ActivityHead),
      (∀ s ∈ pre, quietStage b a s) →
      syncStages b a (pre ++ rest) ah =
        { err := (syncStages b a rest ah).err,
          stages := pre ++ (syncStages b a rest ah).stages,
          activity := (syncStages b a rest ah).activity } := by
  induction pre with
  | nil =>
    intro rest ah _
    rfl
  | cons stage pre ih =>
    intro rest ah hq
    obtain ⟨h1, h2, h3, h4⟩ := syncSteps_quiet b a stage stage.ActivitySteps 0
      { Status := stage.Status, Duration := stage.Duration } ah (fun k t hk => by
        rw [Nat.zero_add]
        exact hq stage (List.mem_cons_self _ _) k t hk)
    rw [List.cons_append, syncStages_cons_go b a stage (pre ++ rest) ah h4, h3,
      syncedStage_same stage _ h1 h2,
      ih rest ah (fun s hs => hq s (List.mem_cons_of_mem _ hs))]
    rfl

/-- The round of a step whose build has failed. -/
theorem syncStep_failure (b : Jenkins) (a : Activity) (stage : ActivityStage) (j : Nat)
    (step : ActivityStep) (sh : StageHead) (ah : ActivityHead) (bi : JenkinsBuildInfo)
    (hnd : ¬ (step.Status = Status.Fail ∨ step.Status = Status.Success))
    (hjob : ∃ info, b.GetJobInfo (stepJobName a stage j) = Except.ok info)
    (hbuild : b.GetBuildInfo (stepJobName a stage j) = Except.ok bi)
    (hres : bi.Result = "FAILURE".toList) :
    syncStep b a stage j step sh ah =
      { flow := Flow.next,
        step := { step with
          StartTS := bi.Timestamp, Duration := bi.Duration, Status := Status.Fail },
        stage :=
          { Status := Status.Fail,
            Duration := wrap64 (bi.Timestamp + bi.Duration - stage.StartTS) },
        activity :=
          { Status := Status.Fail, StopTS := wrap64 (bi.Timestamp + bi.Duration) } } := by
  obtain ⟨info, hj⟩ := hjob
  rcases syncStep_cases b a stage j step sh ah with ⟨hd, -⟩ | ⟨-, hc⟩
  · exact absurd hd hnd
  · rcases hc with ⟨e2, hj2, -⟩ | ⟨info2, e2, -, hb2, -⟩ | ⟨info2, bi2, -, hb2, hr⟩
    · rw [hj] at hj2; exact Except.noConfusion hj2
    · rw [hbuild] at hb2; exact Except.noConfusion hb2
    · rw [hbuild] at hb2
      have e : bi = bi2 := by injection hb2
      subst e
      rcases hr with ⟨h1, -⟩ | ⟨-, -, hr⟩ | ⟨-, h2, -⟩ | ⟨-, h2, -⟩
      · rw [hres] at h1; exact absurd h1 (by decide)
      · exact hr
      · exact absurd hres h2
      · exact absurd hres h2

/-- C16, as the code has it: the loops go on after a failed build, so the
claim holds when nothing is left to write afterwards. Let the backend report
FAILURE for a step that is neither Fail nor Success, the steps before it in its
stage being Fail or Success, and every step of the other stages and every later
step of its stage being quiet (already Fail or Success, or without a build and
not waiting for approval). Then `SyncActivity` returns no error, the step and
its stage are Fail, `Status` of the activity is Fail, its `StopTS` is the
build's Timestamp + Duration, and nothing else in the activity has changed. -/
theorem SyncActivity_failure (b : Jenkins) (a : Activity)
    (pre post : List ActivityStage) (stage : ActivityStage)
    (spre spost : List ActivityStep) (step : ActivityStep) (bi : JenkinsBuildInfo)
    (hstages : a.ActivityStages = pre ++ stage :: post)
    (hsteps : stage.ActivitySteps = spre ++ step :: spost)
    (hnd : ¬ (step.Status = Status.Fail ∨ step.Status = Status.Success))
    (hjob : ∃ info, b.GetJobInfo (stepJobName a stage spre.length) = Except.ok info)
    (hbuild : b.GetBuildInfo (stepJobName a stage spre.length) = Except.ok bi)
    (hres : bi.Result = "FAILURE".toList)
    (hpre : ∀ s ∈ pre, quietStage b a s)
    (hspre : ∀ t ∈ spre, t.Status = Status.Fail ∨ t.Status = Status.Success)
    (hspost : ∀ (k : Nat) (t : ActivityStep), spost[k]? = some t →
      quietStep b a stage (spre.length + 1 + k) t)
    (hpost : ∀ s ∈ post, quietStage b a s) :
    SyncActivity b a =
      (none,
        { a with
          Status := Status.Fail,
          StopTS := wrap64 (bi.Timestamp + bi.Duration),
          ActivityStages :=
            pre ++
              { stage with
                Status := Status.Fail,
                Duration := wrap64 (bi.Timestamp + bi.Duration - stage.StartTS),
                ActivitySteps :=
                  spre ++
                    { step with
                      StartTS := bi.Timestamp, Duration := bi.Duration,
                      Status := Status.Fail } :: spost } :: post }) := by
  have hround := syncStep_failure b a stage spre.length step
    { Status := stage.Status, Duration := stage.Duration }
    { Status := a.Status, StopTS := a.StopTS } bi hnd hjob hbuild hres
  obtain ⟨q1, q2, q3, q4⟩ := syncSteps_quiet b a stage spost (spre.length + 1)
    { Status := Status.Fail,
      Duration := wrap64 (bi.Timestamp + bi.Duration - stage.StartTS) }
    { Status := Status.Fail, StopTS := wrap64 (bi.Timestamp + bi.Duration) } hspost
  have hinner : syncSteps b a stage 0 stage.ActivitySteps
      { Status := stage.Status, Duration := stage.Duration }
      { Status := a.Status, StopTS := a.StopTS } =
      { flow := (syncSteps b a stage (spre.length + 1) spost
          { Status := Status.Fail,
            Duration := wrap64 (bi.Timestamp + bi.Duration - stage.StartTS) }
          { Status := Status.Fail, StopTS := wrap64 (bi.Timestamp + bi.Duration) }).flow,
        steps := spre ++
          { step with
            StartTS := bi.Timestamp, Duration := bi.Duration, Status := Status.Fail } :: spost,
        stage :=
          { Status := Status.Fail,
            Duration := wrap64 (bi.Timestamp + bi.Duration - stage.StartTS) },
        activity :=
          { Status := Status.Fail, StopTS := wrap64 (bi.Timestamp + bi.Duration) } } := by
    rw [hsteps, syncSteps_done_append b a stage spre 0 (step :: spost) _ _ hspre,
      Nat.zero_add,
      syncSteps_cons_next b a stage spre.length step spost _ _ (by rw [hround]), hround]
    simp only []
    rw [q1, q2, q3]
  have houter : syncStages b a (stage :: post) { Status := a.Status, StopTS := a.StopTS } =
      { err := none,
        stages :=
          { stage with
            Status := Status.Fail,
            Duration := wrap64 (bi.Timestamp + bi.Duration - stage.StartTS),
            ActivitySteps :=
              spre ++
                { step with
                  StartTS := bi.Timestamp, Duration := bi.Duration,
                  Status := Status.Fail } :: spost } :: post,
        activity :=
          { Status := Status.Fail, StopTS := wrap64 (bi.Timestamp + bi.Duration) } } := by
    rw [syncStages_cons_go b a stage post _ (by rw [hinner]; exact q4), hinner]
    simp only []
    have hq := syncStages_quiet_append b a post []
      { Status := Status.Fail, StopTS := wrap64 (bi.Timestamp + bi.Duration) } hpost
    rw [List.append_nil] at hq
    rw [hq]
    simp only [syncStages, List.append_nil]
    rfl
  unfold SyncActivity
  simp only []
  rw [hstages, syncStages_quiet_append b a pre (stage :: post) _ hpre, houter]

/-- Witness of C16: two stages of one step each, the build of stage 0 has
failed and stage 1 has no build. -/
theorem SyncActivity_failure_witness :
    SyncActivity exOnlyFailure exTwoStages =
      (none,
        { exTwoStages with
          Status := Status.Fail,
          StopTS := 6,
          ActivityStages :=
            [{ Name := "s0".toList, Status := Status.Fail, Duration := 6,
               ActivitySteps :=
                 [{ Name := "x".toList, Status := Status.Fail, StartTS := 4,
                    Duration := 2 }] },
             { Name := "s1".toList, Status := Status.Waiting,
               ActivitySteps := [{ Name := "y".toList, Status := Status.Waiting }] }] }) :=
  (SyncActivity_failure exOnlyFailure exTwoStages []
    [{ Name := "s1".toList, Status := Status.Waiting,
       ActivitySteps := [{ Name := "y".toList, Status := Status.Waiting }] }]
    { Name := "s0".toList, Status := Status.Waiting,
      ActivitySteps := [{ Name := "x".toList, Status := Status.Waiting }] }
    [] [] { Name := "x".toList, Status := Status.Waiting }
    { Result := "FAILURE".toList, Timestamp := 4, Duration := 2 }
    rfl rfl (by decide) ⟨{}, rfl⟩ rfl rfl
    (fun s hs => absurd hs (List.not_mem_nil s))
    (fun t ht => absurd ht (List.not_mem_nil t))
    (fun k t hk => by simp at hk)
    (fun s hs k t hk => by
      rw [List.mem_singleton] at hs
      subst hs
      cases k with
      | zero => exact Or.inr ⟨⟨{}, rfl⟩, ⟨"no build".toList, rfl⟩, by decide⟩
      | succ k => simp at hk)).trans (by decide)

/-- Counterexample to C16 as stated: the backend reports FAILURE for the step
of stage 0 and a running build for the step of stage 1: when `SyncActivity`
returns, `Status` of the activity is Building and stage 1 has been modified. -/
theorem SyncActivity_failure_counterexample :
    (SyncActivity exEarlyFailure exTwoStages).2.Status = Status.Building ∧
    (SyncActivity exEarlyFailure exTwoStages).2.ActivityStages.map
        (fun s => (s.Status, s.ActivitySteps.map (fun t => t.Status))) =
      [(Status.Fail, [Status.Fail]), (Status.Building, [Status.Building])] := by
  decide

/-! ## Commit of a build -/

theorem getLast?_cons_getD (x c : Str) (l : List Str) :
    ((x :: l).getLast?).getD c = (l.getLast?).getD x := by
  cases l with
  | nil => rfl
  | cons y l =>
    rw [List.getLast?_cons_cons, List.getLast?_eq_getLast (y :: l) (List.cons_ne_nil _ _)]
    rfl

theorem getCommit_foldl (l : List Str) :
    ∀ c : Str, l.foldl (fun commit sha1 => if sha1 ≠ [] then sha1 else commit) c =
      ((l.filter (fun sha1 => decide (sha1 ≠ []))).getLast?).getD c := by
  induction l with
  | nil => intro c; rfl
  | cons x l ih =>
    intro c
    rw [List.foldl_cons, ih]
    by_cases hx : x ≠ []
    · rw [if_pos hx, List.filter_cons_of_pos (by simpa using hx), getLast?_cons_getD]
    · rw [if_neg hx, List.filter_cons_of_neg (by simpa using hx)]

/-- C22, as the code has it: `getCommit` leaves a non-empty `CommitInfo` as it
is; when `CommitInfo` is empty it sets it to the last non-empty SHA1 among the
actions of the build, in action order (the loop does not stop at the first
one), and leaves it empty when no action has a non-empty SHA1. -/
theorem getCommit_last (commitInfo : Str) (buildInfo : JenkinsBuildInfo) :
    (commitInfo ≠ [] → getCommit commitInfo buildInfo = commitInfo) ∧
    (commitInfo = [] →
      getCommit commitInfo buildInfo =
        ((buildInfo.Actions.filter (fun sha1 => decide (sha1 ≠ []))).getLast?).getD []) ∧
    (commitInfo = [] → (∀ sha1 ∈ buildInfo.Actions, sha1 = []) →
      getCommit commitInfo buildInfo = []) := by
  refine ⟨fun h => ?_, fun h => ?_, fun h hall => ?_⟩
  · unfold getCommit
    rw [if_pos h]
  · subst h
    unfold getCommit
    rw [if_neg (by simp), getCommit_foldl]
  · subst h
    unfold getCommit
    rw [if_neg (by simp), getCommit_foldl]
    have e : buildInfo.Actions.filter (fun sha1 => decide (sha1 ≠ [])) = [] := by
      rw [List.filter_eq_nil_iff]
      intro s hs
      simp [hall s hs]
    rw [e]
    rfl

/-- Counterexample to C22 as stated: with an empty `CommitInfo` and two actions
whose SHA1 are `a` and `b`, `getCommit` records `b`, not the first one. -/
theorem getCommit_last_counterexample :
    getCommit [] { Actions := ["a".toList, "b".toList] } = "b".toList := by
  decide

/-! ## Shell quoting -/

/-- C30, at a failing input: for the script made of a backslash and a double
quote, `QuoteShell` returns the five characters `"`, `\`, `\`, `"`, `"`: the
double quote at position 3 is strictly inside and has two backslashes, an even
number, in front of it, and the backslash of the script has not been doubled,
whereas doubling the backslashes first gives three backslashes in front of
that double quote; `EscapeShell` does double the backslash before it escapes
the dollar. In general `QuoteShell` is the
replacement of the double quotes alone. -/
theorem QuoteShell_keeps_backslash :
    QuoteShell "\\\"".toList = "\"\\\\\"\"".toList ∧
    (QuoteShell "\\\"".toList)[3]? = some '"' ∧
    backslashesBefore (QuoteShell "\\\"".toList) 3 = 2 ∧
    quoteShellClaimed "\\\"".toList = "\"\\\\\\\"\"".toList ∧
    backslashesBefore (quoteShellClaimed "\\\"".toList) 4 = 3 ∧
    escapeBackslashDollar "\\$".toList = "\\\\\\$".toList ∧
    (∀ script : Str,
      QuoteShell script =
        "\"".toList ++ Replace script "\"".toList "\\\"".toList ++ "\"".toList) :=
  ⟨by decide, by decide, by decide, by decide, by decide, by decide, fun _ => rfl⟩

/-! ## Range checks of the driver -/

/-- The range checks that are reached: `RunStage` returns the error "index out
of range" and leaves the activity unchanged when the ordinal is not less than
the number of stages; `RunStep` does so when the stage ordinal is not less than
the number of stages, and, for a stage ordinal in range, when the step ordinal
is negative or not less than the number of steps of that stage. No slice is
read out of bounds in these cases. -/
theorem RunStep_out_of_range (w : World) (fuel : Nat) (r : Run) (stageOrdinal stepOrdinal : Int)
    (h : (r.activity.ActivityStages.length : Int) ≤ stageOrdinal ∨
      ∃ actiStage, index? r.activity.ActivityStages stageOrdinal = some actiStage ∧
        (stepOrdinal < 0 ∨ (actiStage.ActivitySteps.length : Int) ≤ stepOrdinal)) :
    RunStep w (fuel + 1) r stageOrdinal stepOrdinal = some (some outOfRange, r) ∧
    ((r.activity.ActivityStages.length : Int) ≤ stageOrdinal →
      RunStage w (fuel + 1) r stageOrdinal = some (some outOfRange, r)) := by
  refine ⟨?_, fun hk => ?_⟩
  · rcases h with hk | ⟨actiStage, hs, hj⟩
    · rw [RunStep, if_pos hk]
    · have hlt : ¬ (r.activity.ActivityStages.length : Int) ≤ stageOrdinal := by
        intro hk
        unfold index? at hs
        split_ifs at hs with hneg
        rw [List.getElem?_eq_none (by omega)] at hs
        exact Option.noConfusion hs
      rw [RunStep, if_neg hlt, hs]
      simp only []
      rw [if_pos (by omega)]
  · rw [RunStage, if_pos hk]

/-- Example of the range checks that are reached: on a run with two stages of
one step each, stage ordinal 2 and, for stage 0, the step ordinals 1 and -1 are
refused. -/
theorem RunStep_out_of_range_witness :
    (RunStep exWorld 1 exSkipRun 2 0 = some (some outOfRange, exSkipRun) ∧
      RunStage exWorld 1 exSkipRun 2 = some (some outOfRange, exSkipRun)) ∧
    RunStep exWorld 1 exSkipRun 0 1 = some (some outOfRange, exSkipRun) ∧
    RunStep exWorld 1 exSkipRun 0 (-1) = some (some outOfRange, exSkipRun) :=
  ⟨⟨(RunStep_out_of_range exWorld 0 exSkipRun 2 0 (Or.inl (by decide))).1,
    (RunStep_out_of_range exWorld 0 exSkipRun 2 0 (Or.inl (by decide))).2 (by decide)⟩,
   (RunStep_out_of_range exWorld 0 exSkipRun 0 1
      (Or.inr ⟨_, rfl, Or.inr (by decide)⟩)).1,
   (RunStep_out_of_range exWorld 0 exSkipRun 0 (-1)
      (Or.inr ⟨_, rfl, Or.inl (by decide)⟩)).1⟩

/-- C28, at a failing input: on a run with two stages, for the stage ordinal
-1, `RunStep` ends in the runtime panic of a slice read out of range, not in
the error "index out of range": its test `stageOrdinal < 0` stands after the
operand `len(activity.ActivityStages[stageOrdinal].ActivitySteps) <= stepOrdinal`
of the same condition, which reads `ActivityStages[stageOrdinal]` first.
`RunStage` has no test for a negative ordinal and reads `Pipeline.Stages[-1]`.
It is so for every run and every negative stage ordinal. -/
theorem RunStep_negative_ordinal_panics :
    RunStep exWorld 1 exSkipRun (-1) 0 = some (some indexPanic, exSkipRun) ∧
    RunStage exWorld 1 exSkipRun (-1) = some (some indexPanic, exSkipRun) ∧
    indexPanic ≠ outOfRange ∧
    (∀ (w : World) (fuel : Nat) (r : Run) (stageOrdinal stepOrdinal : Int),
      stageOrdinal < 0 →
      RunStep w (fuel + 1) r stageOrdinal stepOrdinal = some (some indexPanic, r) ∧
      RunStage w (fuel + 1) r stageOrdinal = some (some indexPanic, r)) := by
  refine ⟨by decide, by decide, by decide, ?_⟩
  intro w fuel r stageOrdinal stepOrdinal h
  have hlt : ¬ (r.activity.ActivityStages.length : Int) ≤ stageOrdinal := by omega
  have hs : index? r.activity.ActivityStages stageOrdinal = none := by
    unfold index?
    rw [if_pos h]
  have hp : index? r.activity.Pipeline.Stages stageOrdinal = none := by
    unfold index?
    rw [if_pos h]
  constructor
  · rw [RunStep, if_neg hlt, hs]
  · rw [RunStage, if_neg hlt, hp]

/-! ## Job names -/

theorem digitChar_value (d : Nat) (h : d < 10) : (Nat.digitChar d).toNat - 48 = d := by
  interval_cases d <;> rfl

theorem digitChar_ne_underscore (d : Nat) (h : d < 10) : Nat.digitChar d ≠ '_' := by
  interval_cases d <;> decide

theorem toDigitsCore_value (fuel : Nat) :
    ∀ (n : Nat) (ds : Str), n < fuel →
      (Nat.toDigitsCore 10 fuel n ds).foldl (fun acc c => 10 * acc + (c.toNat - 48)) 0 =
        ds.foldl (fun acc c => 10 * acc + (c.toNat - 48)) n := by
  induction fuel with
  | zero => intro n ds h; omega
  | succ fuel ih =>
    intro n ds h
    rw [Nat.toDigitsCore]
    by_cases hz : n / 10 = 0
    · rw [if_pos hz, List.foldl_cons, digitChar_value _ (Nat.mod_lt _ (by decide))]
      have : 10 * 0 + n % 10 = n := by omega
      rw [this]
    · rw [if_neg hz, ih (n / 10) _ (by omega), List.foldl_cons,
        digitChar_value _ (Nat.mod_lt _ (by decide))]
      have : 10 * (n / 10) + n % 10 = n := by omega
      rw [this]

theorem toDigitsCore_no_underscore (fuel : Nat) :
    ∀ (n : Nat) (ds : Str), '_' ∉ ds → '_' ∉ Nat.toDigitsCore 10 fuel n ds := by
  induction fuel with
  | zero => intro n ds h; exact h
  | succ fuel ih =>
    intro n ds h
    have hd : '_' ∉ Nat.digitChar (n % 10) :: ds := by
      intro hm
      rcases List.mem_cons.mp hm with e | e
      · exact digitChar_ne_underscore _ (Nat.mod_lt _ (by decide)) e.symm
      · exact h e
    rw [Nat.toDigitsCore]
    by_cases hz : n / 10 = 0
    · rw [if_pos hz]; exact hd
    · rw [if_neg hz]; exact ih _ _ hd

/-- For an ordinal that is not negative, `Itoa` can be read back. -/
theorem digitsValue_Itoa (j : Int) (h : 0 ≤ j) : digitsValue (Itoa j) = j.toNat := by
  unfold Itoa digitsValue
  rw [if_neg (by omega)]
  unfold Nat.toDigits
  rw [toDigitsCore_value _ _ _ (Nat.lt_succ_self _)]
  rfl

theorem Itoa_no_underscore (j : Int) (h : 0 ≤ j) : '_' ∉ Itoa j := by
  unfold Itoa
  rw [if_neg (by omega)]
  exact toDigitsCore_no_underscore _ _ _ (List.not_mem_nil _)

theorem Itoa_injective (i j : Int) (hi : 0 ≤ i) (hj : 0 ≤ j) (h : Itoa i = Itoa j) : i = j := by
  have e := congrArg digitsValue h
  rw [digitsValue_Itoa i hi, digitsValue_Itoa j hj] at e
  omega

/-- Two texts that end with an underscore followed by a part without
underscore agree only if both parts agree. -/
theorem underscore_split (x y d e : Str) (hd : '_' ∉ d) (he : '_' ∉ e)
    (h : x ++ '_' :: d = y ++ '_' :: e) : x = y ∧ d = e := by
  induction x generalizing y with
  | nil =>
    cases y with
    | nil =>
      simp only [List.nil_append, List.cons.injEq, true_and] at h
      exact ⟨rfl, h⟩
    | cons c y =>
      simp only [List.nil_append, List.cons_append, List.cons.injEq] at h
      exfalso
      apply hd
      rw [h.2]
      simp
  | cons b x ih =>
    cases y with
    | nil =>
      simp only [List.nil_append, List.cons_append, List.cons.injEq] at h
      exfalso
      apply he
      rw [← h.2]
      simp
    | cons c y =>
      simp only [List.cons_append, List.cons.injEq] at h
      obtain ⟨h1, h2⟩ := ih y h.2
      exact ⟨by rw [h.1, h1], h2⟩

theorem jobName_eq_iff (P I N M : Str) (i j : Int) (hi : 0 ≤ i) (hj : 0 ≤ j) :
    List.intercalate "_".toList [P, I, N, Itoa i] =
      List.intercalate "_".toList [P, I, M, Itoa j] ↔ N = M ∧ i = j := by
  constructor
  · intro h
    have e : ∀ (X D : Str), List.intercalate "_".toList [P, I, X, D] =
        (P ++ '_' :: I ++ '_' :: X) ++ '_' :: D := by
      intro X D
      simp [List.intercalate]
    rw [e, e] at h
    obtain ⟨h1, h2⟩ := underscore_split _ _ _ _ (Itoa_no_underscore i hi)
      (Itoa_no_underscore j hj) h
    refine ⟨?_, Itoa_injective i j hi hj h2⟩
    have h3 := List.append_cancel_left h1
    simpa using h3
  · rintro ⟨rfl, rfl⟩
    rfl

/-- C29, as the code has it: the job name is built from the name of the stage,
not from its ordinal. For two in-range pairs of ordinals, `getJobName` returns
the same name exactly when the two stages carry the same `Name` and the step
ordinals are equal; so the names are distinct for distinct pairs when the
stages of the activity have distinct names, and not otherwise. -/
theorem getJobName_eq_iff (activity : Activity) (k1 j1 k2 j2 : Int)
    (s1 s2 : ActivityStage)
    (h1 : index? activity.ActivityStages k1 = some s1)
    (h2 : index? activity.ActivityStages k2 = some s2)
    (hj1 : 0 ≤ j1) (hj2 : 0 ≤ j2) :
    (∃ n1 n2, getJobName activity k1 j1 = some n1 ∧ getJobName activity k2 j2 = some n2 ∧
      (n1 = n2 ↔ s1.Name = s2.Name ∧ j1 = j2)) ∧
    ((activity.ActivityStages.map (fun s => s.Name)).Nodup →
      (getJobName activity k1 j1 = getJobName activity k2 j2 ↔ k1 = k2 ∧ j1 = j2)) := by
  have e1 : getJobName activity k1 j1 = some (List.intercalate "_".toList
      [activity.Pipeline.Name, activity.Id, s1.Name, Itoa j1]) := by
    unfold getJobName; rw [h1]
  have e2 : getJobName activity k2 j2 = some (List.intercalate "_".toList
      [activity.Pipeline.Name, activity.Id, s2.Name, Itoa j2]) := by
    unfold getJobName; rw [h2]
  refine ⟨⟨_, _, e1, e2, jobName_eq_iff _ _ _ _ _ _ hj1 hj2⟩, fun hnd => ?_⟩
  rw [e1, e2, Option.some_inj, jobName_eq_iff _ _ _ _ _ _ hj1 hj2]
  have hk1 : 0 ≤ k1 := by
    by_contra hneg
    rw [index?_neg _ _ (by omega)] at h1
    exact Option.noConfusion h1
  have hk2 : 0 ≤ k2 := by
    by_contra hneg
    rw [index?_neg _ _ (by omega)] at h2
    exact Option.noConfusion h2
  have g1 : activity.ActivityStages[k1.toNat]? = some s1 := by
    rw [← index?_natCast, Int.toNat_of_nonneg hk1]; exact h1
  have g2 : activity.ActivityStages[k2.toNat]? = some s2 := by
    rw [← index?_natCast, Int.toNat_of_nonneg hk2]; exact h2
  constructor
  · rintro ⟨hn, hj⟩
    refine ⟨?_, hj⟩
    have l1 := getElem?_lt_length _ _ _ g1
    have l2 := getElem?_lt_length _ _ _ g2
    have m1 : (activity.ActivityStages.map (fun s => s.Name))[k1.toNat]? = some s1.Name := by
      rw [List.getElem?_map, g1]; rfl
    have m2 : (activity.ActivityStages.map (fun s => s.Name))[k2.toNat]? = some s2.Name := by
      rw [List.getElem?_map, g2]; rfl
    have l1b : k1.toNat < (activity.ActivityStages.map (fun s => s.Name)).length := by
      simpa using l1
    have l2b : k2.toNat < (activity.ActivityStages.map (fun s => s.Name)).length := by
      simpa using l2
    have q1 : (activity.ActivityStages.map (fun s => s.Name))[k1.toNat] = s1.Name := by
      have e := List.getElem?_eq_getElem l1b
      rw [m1] at e
      injection e with e
      exact e.symm
    have q2 : (activity.ActivityStages.map (fun s => s.Name))[k2.toNat] = s2.Name := by
      have e := List.getElem?_eq_getElem l2b
      rw [m2] at e
      injection e with e
      exact e.symm
    have e := (List.Nodup.getElem_inj_iff hnd).mp (q1.trans (hn.trans q2.symm))
    omega
  · rintro ⟨hk, hj⟩
    subst hk
    rw [h1] at h2
    exact ⟨by injection h2 with h2; rw [h2], hj⟩

/-- Witness of C29: on the example run of two stages named `s0` and `s1`, the
steps 0 of the two stages get different job names. -/
theorem getJobName_eq_iff_witness :
    getJobName exSkipRun.activity 0 0 ≠ getJobName exSkipRun.activity 1 0 := by
  intro h
  have e := ((getJobName_eq_iff exSkipRun.activity 0 0 1 0 _ _ rfl rfl (by decide)
    (by decide)).2 (by decide)).mp h
  exact absurd e.1 (by decide)

/-- Counterexample to C29 as stated: two stages carry the name `build`; the
in-range pairs (0, 0) and (1, 0) are distinct and get the same job name. -/
theorem getJobName_eq_iff_counterexample :
    getJobName exSameNames 0 0 = some "p_id_build_0".toList ∧
    getJobName exSameNames 1 0 = some "p_id_build_0".toList := by
  decide

/-! ## Conditions that cannot be parsed -/

theorem Index_nil (sep : Str) : Index [] sep = if sep.isPrefixOf [] then 0 else -1 := by
  rw [Index]

theorem Index_cons (sep : Str) (c : Char) (t : Str) :
    Index (c :: t) sep =
      if sep.isPrefixOf (c :: t) then 0
      else if Index t sep < 0 then -1 else Index t sep + 1 := by
  rw [Index]

theorem Index_ge (s sep : Str) : -1 ≤ Index s sep := by
  induction s with
  | nil => rw [Index_nil]; split_ifs <;> omega
  | cons c t ih => rw [Index_cons]; split_ifs <;> omega

/-- An occurrence found by `Index` lies inside the text. -/
theorem Index_fits (s sep : Str) (h : 0 ≤ Index s sep) :
    (Index s sep).toNat + sep.length ≤ s.length := by
  induction s with
  | nil =>
    rw [Index_nil] at h ⊢
    split_ifs at h ⊢ with hp
    · rw [List.isPrefixOf_iff_prefix] at hp
      rw [List.prefix_nil.mp hp]
      simp
    · omega
  | cons c t ih =>
    rw [Index_cons] at h ⊢
    split_ifs at h ⊢ with hp hneg
    · rw [List.isPrefixOf_iff_prefix] at hp
      have := hp.length_le
      simpa using this
    · omega
    · have := ih (by omega)
      simp only [List.length_cons]
      omega

theorem Index_of_not_mem (c : Char) (rest s : Str) (h : c ∉ s) : Index s (c :: rest) = -1 := by
  induction s with
  | nil => rw [Index_nil]; rfl
  | cons x t ih =>
    have hx : ¬ (c :: rest).isPrefixOf (x :: t) = true := by
      intro hp
      rw [List.isPrefixOf_iff_prefix] at hp
      obtain ⟨u, hu⟩ := hp
      simp only [List.cons_append, List.cons.injEq] at hu
      exact h (hu.1 ▸ List.mem_cons_self _ _)
    rw [Index_cons, if_neg hx, ih (fun hm => h (List.mem_cons_of_mem _ hm))]
    rfl

/-- On a text without newline the lazy group stops at the first occurrence of
the separator. -/
theorem lazyKey_Index (sep : Str) (s : Str) (hnl : '\n' ∉ s) :
    lazyKey sep s =
      if Index s sep < 0 then none
      else some (s.take (Index s sep).toNat, s.drop ((Index s sep).toNat + sep.length)) := by
  induction s with
  | nil =>
    rw [Index_nil]
    simp only [lazyKey]
    split_ifs with hp h1 h1
    · omega
    · simp
    · rfl
    · omega
  | cons c t ih =>
    have hc : c ≠ '\n' := fun h => hnl (h ▸ List.mem_cons_self _ _)
    have iht := ih (fun h => hnl (List.mem_cons_of_mem _ h))
    rw [Index_cons]
    by_cases hp : sep.isPrefixOf (c :: t) = true
    · rw [lazyKey_cons_hit sep c t hp, if_pos hp]
      simp
    · rw [if_neg hp]
      by_cases hneg : Index t sep < 0
      · rw [if_pos hneg, if_pos (by omega)]
        rw [if_pos hneg] at iht
        simp only [lazyKey]
        rw [if_neg hp, if_neg hc, iht]
      · rw [if_neg hneg, if_neg (by omega)]
        rw [if_neg hneg] at iht
        rw [lazyKey_cons_miss sep c t _ _ hp hc iht]
        have e1 : (Index t sep + 1).toNat = (Index t sep).toNat + 1 := by omega
        rw [e1, List.take_succ_cons]
        have e2 : (Index t sep).toNat + 1 + sep.length =
            ((Index t sep).toNat + sep.length) + 1 := by omega
        rw [e2, List.drop_succ_cons]

theorem findSubmatch_none (sep : Str) (s : Str) (hnl : '\n' ∉ s) (h : Index s sep < 0) :
    findSubmatch sep s = none := by
  induction s with
  | nil =>
    have e := lazyKey_Index sep [] hnl
    rw [if_pos h] at e
    simp only [findSubmatch, e]
  | cons c t ih =>
    have e := lazyKey_Index sep (c :: t) hnl
    rw [if_pos h] at e
    have ht : Index t sep < 0 := by
      rw [Index_cons] at h
      split_ifs at h with hp hneg
      · omega
      · exact hneg
      · have := Index_ge t sep
        omega
    simp only [findSubmatch, e]
    exact ih (fun hm => hnl (List.mem_cons_of_mem _ hm)) ht

/-- The groups of the leftmost match on a text without newline: the key is the
text before the first occurrence of the separator and the value the text after
it. -/
theorem GetParams_Index (sep : Str) (s : Str) (hnl : '\n' ∉ s) :
    GetParams sep s =
      if Index s sep < 0 then ([], [])
      else (s.take (Index s sep).toNat, s.drop ((Index s sep).toNat + sep.length)) := by
  unfold GetParams
  by_cases h : Index s sep < 0
  · rw [if_pos h, findSubmatch_none sep s hnl h]
    rfl
  · rw [if_neg h]
    have e := lazyKey_Index sep s hnl
    rw [if_neg h] at e
    rw [findSubmatch_of_lazyKey sep s _ _ e, takeWhile_no_newline]
    · rfl
    · exact fun hm => hnl (List.mem_of_mem_drop hm)

/-- Both groups are non-empty exactly when the first occurrence of the
separator is neither at the start nor at the end of the text. -/
theorem GetParams_nonempty_iff (sep : Str) (s : Str) (hsep : sep ≠ []) (hnl : '\n' ∉ s) :
    ((GetParams sep s).1 ≠ [] ∧ (GetParams sep s).2 ≠ []) ↔
      (0 < Index s sep ∧ Index s sep + (sep.length : Int) < (s.length : Int)) := by
  rw [GetParams_Index sep s hnl]
  by_cases h : Index s sep < 0
  · rw [if_pos h]
    constructor
    · intro hc; exact absurd rfl hc.1
    · intro hc; omega
  · rw [if_neg h]
    have hfit := Index_fits s sep (by omega)
    have hlen : 0 < sep.length := List.length_pos.mpr hsep
    simp only [ne_eq, List.take_eq_nil_iff, List.drop_eq_nil_iff, not_or, not_le]
    constructor
    · rintro ⟨⟨h1, -⟩, h2⟩
      omega
    · rintro ⟨h1, h2⟩
      refine ⟨⟨by omega, ?_⟩, by omega⟩
      intro hs
      have h0 : s.length = 0 := by rw [hs]; rfl
      omega

/-- C26: for every single-line condition `s`, with `p` the index of the first
`=` and `q` the index of the first `!=` in `s` (-1 when there is none),
`EvaluateCondition` returns the error "cannot parse condition" if and only if
neither `0 < q` and `q + 2 < len(s)` nor `0 < p` and `p + 1 < len(s)` holds,
and returns no error otherwise. So every condition without `=` is rejected. -/
theorem EvaluateCondition_error_iff (w : World) (activity : Activity) (s : Str) (hnl : '\n' ∉ s) :
    (EvaluateCondition w activity s =
        (false, some (Err.error ("cannot parse condition:".toList ++ s))) ↔
      ¬ ((0 < Index s "!=".toList ∧ Index s "!=".toList + 2 < (s.length : Int)) ∨
         (0 < Index s "=".toList ∧ Index s "=".toList + 1 < (s.length : Int)))) ∧
    ((EvaluateCondition w activity s).2 = none ↔
      ((0 < Index s "!=".toList ∧ Index s "!=".toList + 2 < (s.length : Int)) ∨
       (0 < Index s "=".toList ∧ Index s "=".toList + 1 < (s.length : Int)))) ∧
    ('=' ∉ s →
      EvaluateCondition w activity s =
        (false, some (Err.error ("cannot parse condition:".toList ++ s)))) := by
  have h1 := GetParams_nonempty_iff "!=".toList s (by decide) hnl
  have h2 := GetParams_nonempty_iff "=".toList s (by decide) hnl
  have hl1 : (("!=".toList.length : Nat) : Int) = 2 := rfl
  have hl2 : (("=".toList.length : Nat) : Int) = 1 := rfl
  rw [hl1] at h1
  rw [hl2] at h2
  have key : (EvaluateCondition w activity s =
        (false, some (Err.error ("cannot parse condition:".toList ++ s))) ↔
      ¬ ((0 < Index s "!=".toList ∧ Index s "!=".toList + 2 < (s.length : Int)) ∨
         (0 < Index s "=".toList ∧ Index s "=".toList + 1 < (s.length : Int)))) ∧
    ((EvaluateCondition w activity s).2 = none ↔
      ((0 < Index s "!=".toList ∧ Index s "!=".toList + 2 < (s.length : Int)) ∨
       (0 < Index s "=".toList ∧ Index s "=".toList + 1 < (s.length : Int)))) := by
    rw [← h1, ← h2]
    unfold EvaluateCondition
    simp only []
    by_cases c1 : (GetParams "!=".toList s).1 ≠ [] ∧ (GetParams "!=".toList s).2 ≠ []
    · rw [if_pos c1]
      constructor
      · constructor
        · intro h
          split_ifs at h <;> exact absurd (congrArg Prod.snd h) (by simp)
        · intro h; exact absurd (Or.inl c1) h
      · constructor
        · intro _; exact Or.inl c1
        · intro _; split_ifs <;> rfl
    · rw [if_neg c1]
      by_cases c2 : (GetParams "=".toList s).1 ≠ [] ∧ (GetParams "=".toList s).2 ≠ []
      · rw [if_pos c2]
        constructor
        · constructor
          · intro h
            split_ifs at h <;> exact absurd (congrArg Prod.snd h) (by simp)
          · intro h; exact absurd (Or.inr c2) h
        · constructor
          · intro _; exact Or.inr c2
          · intro _; split_ifs <;> rfl
      · rw [if_neg c2]
        constructor
        · constructor
          · intro _ h
            rcases h with h | h
            · exact c1 h
            · exact c2 h
          · intro _; rfl
        · constructor
          · intro h; exact absurd h (by simp)
          · intro h
            rcases h with h | h
            · exact absurd h c1
            · exact absurd h c2
  refine ⟨key.1, key.2, fun hne => key.1.mpr ?_⟩
  have e1 : Index s "=".toList = -1 := Index_of_not_mem '=' [] s hne
  intro h
  rcases h with ⟨h, -⟩ | ⟨h, -⟩
  · have e2 : Index s "!=".toList < 0 := by
      by_contra hc
      have g := lazyKey_Index "!=".toList s hnl
      rw [if_neg hc] at g
      have := lazyKey_sound _ _ _ _ g
      apply hne
      rw [this]
      simp
    omega
  · omega

/-- Witness of C26: the conditions `KEY=`, `KEY!=`, `=v` and `KEY` are
rejected, and `!=v` is accepted as an equality test on the key `!`. -/
theorem EvaluateCondition_error_iff_witness :
    (∀ activity : Activity,
      EvaluateCondition exWorld activity "KEY=".toList =
        (false, some (Err.error "cannot parse condition:KEY=".toList)) ∧
      EvaluateCondition exWorld activity "KEY!=".toList =
        (false, some (Err.error "cannot parse condition:KEY!=".toList)) ∧
      EvaluateCondition exWorld activity "=v".toList =
        (false, some (Err.error "cannot parse condition:=v".toList)) ∧
      EvaluateCondition exWorld activity "KEY".toList =
        (false, some (Err.error "cannot parse condition:KEY".toList)) ∧
      (EvaluateCondition exWorld activity "!=v".toList).2 = none) ∧
    EvaluateCondition exWorld { EnvVars := [("!".toList, "v".toList)] } "!=v".toList = (true, none) ∧
    EvaluateCondition exWorld { EnvVars := [("!".toList, "w".toList)] } "!=v".toList = (false, none) :=
  ⟨fun activity =>
    ⟨(EvaluateCondition_error_iff exWorld activity "KEY=".toList (by decide)).1.mpr (by decide),
     (EvaluateCondition_error_iff exWorld activity "KEY!=".toList (by decide)).1.mpr (by decide),
     (EvaluateCondition_error_iff exWorld activity "=v".toList (by decide)).1.mpr (by decide),
     (EvaluateCondition_error_iff exWorld activity "KEY".toList (by decide)).2.2 (by decide),
     (EvaluateCondition_error_iff exWorld activity "!=v".toList (by decide)).2.1.mpr (by decide)⟩,
   by decide, by decide⟩

/-! ## Reconciliation from the log: the duration of a stage -/

theorem parseLoop_cons_time (lp : LogParser) (outputs : List Str) (last : Status) (ts : Int)
    (i : Nat) (step : ActivityStep) (rest : List ActivityStep) (stageTime : Int)
    (updated : Bool) :
    ∃ (step2 : ActivityStep) (t2 : Int) (u2 : Bool),
      t2 = (if i < outputs.length - 1 then wrap64 (stageTime + step2.Duration)
            else stageTime) ∧
      parseLoop lp outputs last ts i (step :: rest) stageTime updated =
        (step2 :: (parseLoop lp outputs last ts (i + 1) rest t2 u2).1,
          (parseLoop lp outputs last ts (i + 1) rest t2 u2).2) := by
  rw [parseLoop]
  simp only []
  refine ⟨_, _, _, ?_, rfl⟩
  split_ifs with h1 h2 h3 h3 h4
  all_goals first | rfl | omega

/-- The `stageTime` that the loop of `parseSteps` returns is the sum of the
durations it leaves in the steps that have run. -/
theorem parseLoop_time (lp : LogParser) (outputs : List Str) (last : Status) (ts : Int)
    (rest : List ActivityStep) :
    ∀ (i : Nat) (stageTime : Int) (updated : Bool),
      (parseLoop lp outputs last ts i rest stageTime updated).2.1 =
        ((parseLoop lp outputs last ts i rest stageTime updated).1.take
          (outputs.length - 1 - i)).foldl (fun acc s => wrap64 (acc + s.Duration))
          stageTime := by
  induction rest with
  | nil => intro i stageTime updated; simp [parseLoop]
  | cons step rest ih =>
    intro i stageTime updated
    obtain ⟨step2, t2, u2, ht, hrun⟩ := parseLoop_cons_time lp outputs last ts i step rest
      stageTime updated
    rw [hrun]
    simp only []
    rw [ih (i + 1) t2 u2]
    by_cases hi : i < outputs.length - 1
    · rw [if_pos hi] at ht
      have e : outputs.length - 1 - i = (outputs.length - 1 - (i + 1)) + 1 := by omega
      rw [e, List.take_succ_cons, List.foldl_cons, ← ht]
    · rw [if_neg hi] at ht
      have e1 : outputs.length - 1 - i = 0 := by omega
      have e2 : outputs.length - 1 - (i + 1) = 0 := by omega
      rw [e1, e2, ht]
      rfl

theorem isCheckout_markFinished (outputs : List Str) (actiStage : ActivityStage) (raw : Str) :
    isCheckout outputs (markFinished actiStage raw) = isCheckout outputs actiStage := by
  unfold isCheckout
  rw [markFinished_steps]

/-- The duration that `parseSteps` gives to the stage. -/
theorem parseSteps_duration (lp : LogParser) (actiStage : ActivityStage) (rawOutput : Str) :
    (isCheckout (lp.split rawOutput) actiStage = false →
      (parseSteps lp actiStage rawOutput).2.Duration =
        sumDurations ((parseSteps lp actiStage rawOutput).2.ActivitySteps.take
          ((lp.split rawOutput).length - 1))) ∧
    (isCheckout (lp.split rawOutput) actiStage = true →
      ∃ step0 rest, (parseSteps lp actiStage rawOutput).2.ActivitySteps = step0 :: rest ∧
        (parseSteps lp actiStage rawOutput).2.Duration = step0.Duration) := by
  constructor
  · intro h
    unfold parseSteps
    simp only []
    rw [isCheckout_markFinished, h]
    simp only [Bool.false_eq_true, if_false]
    unfold parseShell sumDurations
    simp only []
    exact parseLoop_time lp _ _ _ _ 0 0 false
  · intro h
    unfold parseSteps
    simp only []
    rw [isCheckout_markFinished, h]
    simp only [if_true]
    unfold parseCheckout
    have hs : (markFinished actiStage rawOutput).ActivitySteps ≠ [] := by
      rw [markFinished_steps]
      intro he
      unfold isCheckout at h
      rw [he] at h
      simp at h
    cases hst : (markFinished actiStage rawOutput).ActivitySteps with
    | nil => exact absurd hst hs
    | cons step0 rest => exact ⟨_, _, rfl, rfl⟩

/-- C21, as the code has it: the round of `SyncActivityStale` for a stage that
is not Success and whose job has a build stores the stage that `parseSteps`
returns, and the build's `Duration` is not read for it. The stage's `Duration`
is the `int64` sum of the durations left in the steps that have run (the first
`n - 1` steps when the log splits into `n` segments), and the duration of
step 0 on the output of a source check-out; this is so whether or not the
stage is marked Success. -/
theorem SyncActivityStale_stage_duration (b : Jenkins) (lp : LogParser) (stages : Nat)
    (activity : Activity) (i : Nat) (updated : Bool) (actiStage : ActivityStage)
    (info : JenkinsJobInfo) (buildInfo : JenkinsBuildInfo)
    (hstage : activity.ActivityStages[i]? = some actiStage)
    (hns : actiStage.Status ≠ Status.Success)
    (hjob : b.GetJobInfo (activity.Pipeline.Name ++ "_".toList ++ actiStage.Name ++
      "_".toList ++ activity.Id) = Except.ok info)
    (hbuild : b.GetBuildInfo (activity.Pipeline.Name ++ "_".toList ++ actiStage.Name ++
      "_".toList ++ activity.Id) = Except.ok buildInfo) :
    ∃ stage2,
      (staleStage b lp stages activity i updated).2.1.ActivityStages[i]? = some stage2 ∧
      stage2 = (parseSteps lp
        { actiStage with Status := Status.Building, StartTS := buildInfo.Timestamp }
        (b.GetBuildRawOutput (activity.Pipeline.Name ++ "_".toList ++ actiStage.Name ++
          "_".toList ++ activity.Id))).2 ∧
      (isCheckout (lp.split (b.GetBuildRawOutput (activity.Pipeline.Name ++ "_".toList ++
          actiStage.Name ++ "_".toList ++ activity.Id))) actiStage = false →
        stage2.Duration = sumDurations (stage2.ActivitySteps.take
          ((lp.split (b.GetBuildRawOutput (activity.Pipeline.Name ++ "_".toList ++
            actiStage.Name ++ "_".toList ++ activity.Id))).length - 1))) ∧
      (isCheckout (lp.split (b.GetBuildRawOutput (activity.Pipeline.Name ++ "_".toList ++
          actiStage.Name ++ "_".toList ++ activity.Id))) actiStage = true →
        ∃ step0 rest, stage2.ActivitySteps = step0 :: rest ∧
          stage2.Duration = step0.Duration) := by
  have hi := getElem?_lt_length _ _ _ hstage
  have hd := parseSteps_duration lp
    { actiStage with Status := Status.Building, StartTS := buildInfo.Timestamp }
    (b.GetBuildRawOutput (activity.Pipeline.Name ++ "_".toList ++ actiStage.Name ++
      "_".toList ++ activity.Id))
  refine ⟨_, ?_, rfl, hd.1, hd.2⟩
  unfold staleStage
  rw [hstage]
  simp only []
  rw [if_neg hns, hjob]
  simp only []
  rw [hbuild]
  simp only []
  split
  · simp [hi]
  · rename_i a2 u2 hr
    simp only []
    revert hr
    repeat' split
    all_goals
      intro hr
      first
      | exact Option.noConfusion hr
      | (injection hr with hr
         injection hr with hr1 hr2
         rw [← hr1]
         simp [hi])

/-- Witness of C21: on the example log the round stores a stage that is
Success and whose duration is 6, the sum of the durations 3 and 3 of its two
steps. -/
theorem SyncActivityStale_stage_duration_witness :
    ∃ stage2,
      (staleStage exTimedLog exTimedParser 1 exTimedActivity 0 false).2.1.ActivityStages[0]? =
        some stage2 ∧
      stage2.Status = Status.Success ∧ stage2.Duration = 6 ∧
      stage2.ActivitySteps.map (fun t => t.Duration) = [3, 3] := by
  obtain ⟨stage2, h1, h2, -, -⟩ := SyncActivityStale_stage_duration exTimedLog exTimedParser 1
    exTimedActivity 0 false
    { Name := "s0".toList, Status := Status.Waiting,
      ActivitySteps := [{ Name := "x".toList, Status := Status.Waiting },
                        { Name := "y".toList, Status := Status.Waiting }] }
    {} { Result := "SUCCESS".toList, Timestamp := 100, Duration := 10 }
    rfl (by decide) rfl rfl
  refine ⟨stage2, h1, ?_, ?_, ?_⟩
  · rw [h2]; decide
  · rw [h2]; decide
  · rw [h2]; decide

/-- Counterexample to C21 as stated: the build lasted 10 and the two steps are
parsed with the durations 3 and 3; `SyncActivityStale` marks the stage and the
activity Success and leaves 6, the sum of the step durations, as the duration
of the stage. -/
theorem SyncActivityStale_stage_duration_counterexample :
    (SyncActivityStale exTimedLog exTimedParser exTimedActivity).2.ActivityStages.map
        (fun s => (s.Status, s.Duration, s.ActivitySteps.map (fun t => (t.Status, t.Duration)))) =
      [(Status.Success, 6, [(Status.Success, 3), (Status.Success, 3)])] ∧
    (SyncActivityStale exTimedLog exTimedParser exTimedActivity).2.Status = Status.Success ∧
    exTimedLog.GetBuildInfo "p_s0_id".toList =
      Except.ok { Result := "SUCCESS".toList, Timestamp := 100, Duration := 10 } :=
  ⟨by decide, by decide, rfl⟩

/-! ## Termination of the driver -/

theorem keeps_refl (r : Run) : keeps r r := ⟨rfl, rfl⟩

theorem keeps_trans (r r1 r2 : Run) (h1 : keeps r r1) (h2 : keeps r1 r2) : keeps r r2 :=
  ⟨h2.1.trans h1.1, h2.2.trans h1.2⟩

theorem index?_some_range {α : Type} (l : List α) (i : Int) (x : α)
    (h : index? l i = some x) : 0 ≤ i ∧ l[i.toNat]? = some x ∧ i.toNat < l.length := by
  unfold index? at h
  split_ifs at h with hneg
  exact ⟨by omega, h, getElem?_lt_length _ _ _ h⟩

theorem updateAt_some {α : Type} (l l2 : List α) (i : Int) (f : α → α)
    (h : updateAt l i f = some l2) :
    ∃ x, 0 ≤ i ∧ l[i.toNat]? = some x ∧ l2 = l.set i.toNat (f x) := by
  unfold updateAt at h
  cases hx : index? l i with
  | none => rw [hx] at h; exact Option.noConfusion h
  | some x =>
    rw [hx] at h
    simp only [Option.some.injEq] at h
    obtain ⟨h0, h1, -⟩ := index?_some_range l i x hx
    exact ⟨x, h0, h1, h.symm⟩

theorem shape_set (stages : List ActivityStage) (k : Nat) (s s2 : ActivityStage)
    (h : stages[k]? = some s) (hlen : s2.ActivitySteps.length = s.ActivitySteps.length) :
    shape (stages.set k s2) = shape stages :=
  map_set_same _ stages k s s2 h hlen

/-- One call of `RunStage` either returns at once or continues with one call of
`RunStage` at the next ordinal, of `RunStep` at step 0, or with the loop of
calls of `RunStep` of a parallel stage, the ordinal being in range. -/
theorem RunStage_unfold (w : World) (fuel : Nat) (r : Run) (k : Int) :
    (∃ e r2, RunStage w (fuel + 1) r k = some (e, r2) ∧ keeps r r2) ∨
    (∃ r1, keeps r r1 ∧ 0 ≤ k ∧ k.toNat < r.activity.ActivityStages.length ∧
      (RunStage w (fuel + 1) r k = RunStage w fuel r1 (k + 1) ∨
       (∃ n, RunStage w (fuel + 1) r k =
          forSteps (fun r i => RunStep w fuel r k i) (List.range n) r1) ∨
       RunStage w (fuel + 1) r k = RunStep w fuel r1 k 0)) := by
  rw [RunStage]
  by_cases h1 : (r.activity.ActivityStages.length : Int) ≤ k
  · rw [if_pos h1]
    exact Or.inl ⟨_, _, rfl, keeps_refl r⟩
  · rw [if_neg h1]
    cases hs : index? r.activity.Pipeline.Stages k with
    | none => exact Or.inl ⟨_, _, rfl, keeps_refl r⟩
    | some stage =>
      obtain ⟨hk0, -, -⟩ := index?_some_range _ _ _ hs
      have hk : k.toNat < r.activity.ActivityStages.length := by omega
      simp only []
      generalize (if HasStageCondition stage = true then
        EvaluateConditions w r.activity stage.Conditions else (true, none)) = cond
      obtain ⟨flag, err⟩ := cond
      cases err with
      | some e =>
        simp only []
        exact Or.inl ⟨_, _, rfl, ⟨rfl, rfl⟩⟩
      | none =>
        cases flag with
        | false =>
          simp only []
          cases hu : updateAt r.activity.ActivityStages k
              (fun s => { s with Status := Status.Skip }) with
          | none => exact Or.inl ⟨_, _, rfl, ⟨rfl, rfl⟩⟩
          | some stages =>
            obtain ⟨x, -, hx, hset⟩ := updateAt_some _ _ _ _ hu
            have hshape : shape stages = shape r.activity.ActivityStages := by
              rw [hset]; exact shape_set _ _ x _ hx rfl
            simp only []
            split_ifs with hlast
            · exact Or.inl ⟨_, _, rfl, ⟨rfl, hshape⟩⟩
            · refine Or.inr ⟨_, ?_, hk0, hk, Or.inl rfl⟩
              exact ⟨rfl, hshape⟩
        | true =>
          simp only []
          cases hu : updateAt r.activity.ActivityStages k
              (fun s => { s with StartTS := nowMs w r.clock }) with
          | none => exact Or.inl ⟨_, _, rfl, ⟨rfl, rfl⟩⟩
          | some stages =>
            obtain ⟨x, -, hx, hset⟩ := updateAt_some _ _ _ _ hu
            have hshape : shape stages = shape r.activity.ActivityStages := by
              rw [hset]; exact shape_set _ _ x _ hx rfl
            simp only []
            split_ifs with hpar
            · refine Or.inr ⟨_, ?_, hk0, hk, Or.inr (Or.inl ⟨_, rfl⟩)⟩
              exact ⟨rfl, hshape⟩
            · refine Or.inr ⟨_, ?_, hk0, hk, Or.inr (Or.inr rfl)⟩
              exact ⟨rfl, hshape⟩

/-- One call of `RunStep` either returns at once or continues with one call of
`RunStage` at the next stage ordinal or of `RunStep` at the next step ordinal,
both ordinals being in range. -/
theorem RunStep_unfold (w : World) (fuel : Nat) (r : Run) (k j : Int) :
    (∃ e r2, RunStep w (fuel + 1) r k j = some (e, r2) ∧ keeps r r2) ∨
    (∃ r1, keeps r r1 ∧ 0 ≤ k ∧ k.toNat < r.activity.ActivityStages.length ∧ 0 ≤ j ∧
      j.toNat < (shape r.activity.ActivityStages).getD k.toNat 0 ∧
      (RunStep w (fuel + 1) r k j = RunStage w fuel r1 (k + 1) ∨
       RunStep w (fuel + 1) r k j = RunStep w fuel r1 k (j + 1))) := by
  rw [RunStep]
  by_cases h1 : (r.activity.ActivityStages.length : Int) ≤ k
  · rw [if_pos h1]
    exact Or.inl ⟨_, _, rfl, keeps_refl r⟩
  · rw [if_neg h1]
    cases hs0 : index? r.activity.ActivityStages k with
    | none => exact Or.inl ⟨_, _, rfl, keeps_refl r⟩
    | some actiStage0 =>
      obtain ⟨hk0, hget, hk⟩ := index?_some_range _ _ _ hs0
      simp only []
      by_cases h2 : (actiStage0.ActivitySteps.length : Int) ≤ j ∨ k < 0 ∨ j < 0
      · rw [if_pos h2]
        exact Or.inl ⟨_, _, rfl, keeps_refl r⟩
      · rw [if_neg h2]
        have hj0 : 0 ≤ j := by omega
        have hj : j.toNat < (shape r.activity.ActivityStages).getD k.toNat 0 := by
          unfold shape
          rw [List.getD_eq_getElem?_getD, List.getElem?_map, hget]
          simp only [Option.map_some', Option.getD_some]
          omega
        cases hs : index? r.activity.Pipeline.Stages k with
        | none => exact Or.inl ⟨_, _, rfl, keeps_refl r⟩
        | some stage =>
          simp only []
          cases hst : index? stage.Steps j with
          | none => exact Or.inl ⟨_, _, rfl, keeps_refl r⟩
          | some step =>
            simp only []
            generalize (if HasStepCondition step = true then
              EvaluateConditions w r.activity step.Conditions else (true, none)) = cond
            obtain ⟨flag, err⟩ := cond
            cases err with
            | some e =>
              simp only []
              exact Or.inl ⟨_, _, rfl, keeps_refl r⟩
            | none =>
              cases flag with
              | false =>
                simp only []
                cases hu : updateAt actiStage0.ActivitySteps j
                    (fun s => { s with Status := Status.Skip }) with
                | none => exact Or.inl ⟨_, _, rfl, keeps_refl r⟩
                | some steps =>
                  obtain ⟨x, -, hx, hset⟩ := updateAt_some _ _ _ _ hu
                  have hlen : steps.length = actiStage0.ActivitySteps.length := by
                    rw [hset, List.length_set]
                  simp only []
                  split_ifs with hsucc hlast hseq
                  · exact Or.inl ⟨_, _, rfl,
                      ⟨rfl, shape_set _ _ actiStage0 _ hget hlen⟩⟩
                  · refine Or.inr ⟨_, ?_, hk0, hk, hj0, hj, Or.inl rfl⟩
                    exact ⟨rfl, shape_set _ _ actiStage0 _ hget hlen⟩
                  · refine Or.inr ⟨_, ?_, hk0, hk, hj0, hj, Or.inr rfl⟩
                    exact ⟨rfl, shape_set _ _ actiStage0 _ hget hlen⟩
                  · exact Or.inl ⟨_, _, rfl,
                      ⟨rfl, shape_set _ _ actiStage0 _ hget hlen⟩⟩
              | true =>
                simp only []
                cases hjn : getJobName r.activity k j with
                | none => exact Or.inl ⟨_, _, rfl, keeps_refl r⟩
                | some jobName =>
                  simp only []
                  cases w.BuildJob r.trace jobName with
                  | none => exact Or.inl ⟨_, _, rfl, ⟨rfl, rfl⟩⟩
                  | some e => exact Or.inl ⟨_, _, rfl, ⟨rfl, rfl⟩⟩

theorem stageMeasure_unfold (steps : List Nat) (k : Nat) (h : k < steps.length) :
    stageMeasure steps k = stepMeasure steps k 0 + 1 := by
  unfold stageMeasure stepMeasure
  rw [List.drop_eq_getElem_cons h, List.map_cons, List.sum_cons,
    List.getD_eq_getElem?_getD, List.getElem?_eq_getElem h]
  simp only [Option.getD_some]
  omega

theorem stepMeasure_le (steps : List Nat) (k j : Nat) :
    stepMeasure steps k j ≤ stepMeasure steps k 0 := by
  unfold stepMeasure
  omega

theorem stepMeasure_succ (steps : List Nat) (k j : Nat) (h : j < steps.getD k 0) :
    stepMeasure steps k (j + 1) + 1 = stepMeasure steps k j := by
  unfold stepMeasure
  omega

theorem stageMeasure_lt_step (steps : List Nat) (k j : Nat) :
    stageMeasure steps (k + 1) < stepMeasure steps k j := by
  unfold stageMeasure stepMeasure
  omega

theorem stageMeasure_succ (steps : List Nat) (k : Nat) (h : k < steps.length) :
    stageMeasure steps (k + 1) + 1 < stageMeasure steps k := by
  rw [stageMeasure_unfold steps k h]
  have := stageMeasure_lt_step steps k 0
  omega

theorem shape_length (stages : List ActivityStage) : (shape stages).length = stages.length := by
  unfold shape
  rw [List.length_map]

theorem forSteps_nil (runStep : Run → Int → Option (Option Err × Run)) (r : Run) :
    forSteps runStep [] r = some (none, r) := by
  rw [forSteps]

theorem forSteps_cons (runStep : Run → Int → Option (Option Err × Run)) (i : Nat)
    (rest : List Nat) (r : Run) :
    forSteps runStep (i :: rest) r =
      match runStep r i with
      | none => none
      | some (some err, r) => some (some err, r)
      | some (none, r) => forSteps runStep rest r := by
  rw [forSteps]

/-- The loop of a parallel stage returns when each of its calls does. -/
theorem forSteps_total (runStep : Run → Int → Option (Option Err × Run)) (r0 : Run)
    (h : ∀ (r : Run) (i : Int), keeps r0 r → ∃ out, runStep r i = some out ∧ keeps r out.2)
    (l : List Nat) :
    ∀ r, keeps r0 r → ∃ out, forSteps runStep l r = some out ∧ keeps r out.2 := by
  induction l with
  | nil =>
    intro r _
    exact ⟨_, forSteps_nil runStep r, keeps_refl r⟩
  | cons i rest ih =>
    intro r hr
    obtain ⟨⟨e, r2⟩, ho, hk⟩ := h r i hr
    rw [forSteps_cons, ho]
    cases e with
    | some err => exact ⟨_, rfl, hk⟩
    | none =>
      obtain ⟨out, h2, hk2⟩ := ih r2 (keeps_trans _ _ _ hr hk)
      exact ⟨out, h2, keeps_trans _ _ _ hk hk2⟩

theorem forSteps_keeps (runStep : Run → Int → Option (Option Err × Run))
    (h : ∀ (r : Run) (i : Int) out, runStep r i = some out → keeps r out.2)
    (l : List Nat) :
    ∀ r out, forSteps runStep l r = some out → keeps r out.2 := by
  induction l with
  | nil =>
    intro r out ho
    rw [forSteps_nil] at ho
    injection ho with ho
    rw [← ho]
    exact keeps_refl r
  | cons i rest ih =>
    intro r out ho
    rw [forSteps_cons] at ho
    cases hr : runStep r i with
    | none => rw [hr] at ho; exact Option.noConfusion ho
    | some o =>
      obtain ⟨e, r2⟩ := o
      have hk := h r i _ hr
      rw [hr] at ho
      cases e with
      | some err =>
        simp only [Option.some.injEq] at ho
        rw [← ho]
        exact hk
      | none =>
        simp only [] at ho
        exact keeps_trans _ _ _ hk (ih r2 out ho)

/-- With a bound on the depth of calls that is at least the measure, `RunStage`
and `RunStep` return, and they write nothing but statuses and times. -/
theorem driver_total (w : World) :
    ∀ fuel : Nat,
      (∀ (r : Run) (k : Int),
        stageMeasure (shape r.activity.ActivityStages) k.toNat ≤ fuel →
        ∃ out, RunStage w fuel r k = some out ∧ keeps r out.2) ∧
      (∀ (r : Run) (k j : Int),
        stepMeasure (shape r.activity.ActivityStages) k.toNat j.toNat ≤ fuel →
        ∃ out, RunStep w fuel r k j = some out ∧ keeps r out.2) := by
  intro fuel
  induction fuel with
  | zero =>
    constructor
    · intro r k h
      unfold stageMeasure at h
      omega
    · intro r k j h
      unfold stepMeasure at h
      omega
  | succ fuel ih =>
    obtain ⟨ihStage, ihStep⟩ := ih
    constructor
    · intro r k h
      rcases RunStage_unfold w fuel r k with ⟨e, r2, ho, hk⟩ |
        ⟨r1, hk1, hk0, hlt, hcall⟩
      · exact ⟨_, ho, hk⟩
      · have hlt2 : k.toNat < (shape r.activity.ActivityStages).length := by
          rw [shape_length]; exact hlt
        have hm1 := stageMeasure_succ _ _ hlt2
        have hm2 := stageMeasure_unfold _ _ hlt2
        have hk1n : (k + 1).toNat = k.toNat + 1 := by omega
        rcases hcall with hc | ⟨n, hc⟩ | hc
        · obtain ⟨out, ho, hk⟩ := ihStage r1 (k + 1) (by rw [hk1.2, hk1n]; omega)
          exact ⟨out, by rw [hc]; exact ho, keeps_trans _ _ _ hk1 hk⟩
        · obtain ⟨out, ho, hk⟩ := forSteps_total (fun r i => RunStep w fuel r k i) r1
            (fun r2 i h2 => ihStep r2 k i (by
              rw [h2.2, hk1.2]
              have := stepMeasure_le (shape r.activity.ActivityStages) k.toNat i.toNat
              omega))
            (List.range n) r1 (keeps_refl r1)
          exact ⟨out, by rw [hc]; exact ho, keeps_trans _ _ _ hk1 hk⟩
        · obtain ⟨out, ho, hk⟩ := ihStep r1 k 0 (by
            rw [hk1.2]
            have : (0 : Int).toNat = 0 := rfl
            rw [this]
            omega)
          exact ⟨out, by rw [hc]; exact ho, keeps_trans _ _ _ hk1 hk⟩
    · intro r k j h
      rcases RunStep_unfold w fuel r k j with ⟨e, r2, ho, hk⟩ |
        ⟨r1, hk1, hk0, hlt, hj0, hjlt, hcall⟩
      · exact ⟨_, ho, hk⟩
      · have hk1n : (k + 1).toNat = k.toNat + 1 := by omega
        have hj1n : (j + 1).toNat = j.toNat + 1 := by omega
        rcases hcall with hc | hc
        · obtain ⟨out, ho, hk⟩ := ihStage r1 (k + 1) (by
            rw [hk1.2, hk1n]
            have := stageMeasure_lt_step (shape r.activity.ActivityStages) k.toNat j.toNat
            omega)
          exact ⟨out, by rw [hc]; exact ho, keeps_trans _ _ _ hk1 hk⟩
        · obtain ⟨out, ho, hk⟩ := ihStep r1 k (j + 1) (by
            rw [hk1.2, hj1n]
            have := stepMeasure_succ (shape r.activity.ActivityStages) k.toNat j.toNat hjlt
            omega)
          exact ⟨out, by rw [hc]; exact ho, keeps_trans _ _ _ hk1 hk⟩

/-- Whatever the bound on the depth of calls, a result of `RunStage` or of
`RunStep` differs from the state at the call at most in statuses and times. -/
theorem driver_keeps (w : World) :
    ∀ fuel : Nat,
      (∀ (r : Run) (k : Int) out, RunStage w fuel r k = some out → keeps r out.2) ∧
      (∀ (r : Run) (k j : Int) out, RunStep w fuel r k j = some out → keeps r out.2) := by
  intro fuel
  induction fuel with
  | zero =>
    constructor
    · intro r k out h
      rw [RunStage] at h
      exact Option.noConfusion h
    · intro r k j out h
      rw [RunStep] at h
      exact Option.noConfusion h
  | succ fuel ih =>
    obtain ⟨ihStage, ihStep⟩ := ih
    constructor
    · intro r k out h
      rcases RunStage_unfold w fuel r k with ⟨e, r2, ho, hk⟩ |
        ⟨r1, hk1, -, -, hcall⟩
      · rw [ho] at h
        injection h with h
        rw [← h]
        exact hk
      · rcases hcall with hc | ⟨n, hc⟩ | hc
        · rw [hc] at h
          exact keeps_trans _ _ _ hk1 (ihStage r1 (k + 1) out h)
        · rw [hc] at h
          exact keeps_trans _ _ _ hk1
            (forSteps_keeps (fun r i => RunStep w fuel r k i)
              (fun r2 i o ho => ihStep r2 k i o ho) (List.range n) r1 out h)
        · rw [hc] at h
          exact keeps_trans _ _ _ hk1 (ihStep r1 k 0 out h)
    · intro r k j out h
      rcases RunStep_unfold w fuel r k j with ⟨e, r2, ho, hk⟩ |
        ⟨r1, hk1, -, -, -, -, hcall⟩
      · rw [ho] at h
        injection h with h
        rw [← h]
        exact hk
      · rcases hcall with hc | hc
        · rw [hc] at h
          exact keeps_trans _ _ _ hk1 (ihStage r1 (k + 1) out h)
        · rw [hc] at h
          exact keeps_trans _ _ _ hk1 (ihStep r1 k (j + 1) out h)

/-- C27: the mutually recursive `RunStage` and `RunStep` terminate, for every
activity, all ordinals and all outcomes of the conditions and of the backend:
with a bound on the depth of calls of at least the measure
(`stageMeasure`, `stepMeasure`) they return a result. The measure decreases
strictly at every recursive call: from `RunStage k` to `RunStage (k + 1)` and
to `RunStep k i`, and from `RunStep k j` to `RunStep k (j + 1)` and to
`RunStage (k + 1)`, the ordinals of the caller being in range. -/
theorem RunStage_RunStep_terminate (w : World) (r : Run) (k j : Int) (extra : Nat) :
    (∃ out,
      RunStage w (stageMeasure (shape r.activity.ActivityStages) k.toNat + extra) r k =
        some out) ∧
    (∃ out,
      RunStep w (stepMeasure (shape r.activity.ActivityStages) k.toNat j.toNat + extra) r k j =
        some out) ∧
    (k.toNat < r.activity.ActivityStages.length →
      stageMeasure (shape r.activity.ActivityStages) (k.toNat + 1) <
        stageMeasure (shape r.activity.ActivityStages) k.toNat ∧
      ∀ i : Nat, stepMeasure (shape r.activity.ActivityStages) k.toNat i <
        stageMeasure (shape r.activity.ActivityStages) k.toNat) ∧
    (j.toNat < (shape r.activity.ActivityStages).getD k.toNat 0 →
      stepMeasure (shape r.activity.ActivityStages) k.toNat (j.toNat + 1) <
        stepMeasure (shape r.activity.ActivityStages) k.toNat j.toNat) ∧
    stageMeasure (shape r.activity.ActivityStages) (k.toNat + 1) <
      stepMeasure (shape r.activity.ActivityStages) k.toNat j.toNat := by
  refine ⟨?_, ?_, ?_, ?_, stageMeasure_lt_step _ _ _⟩
  · obtain ⟨out, ho, -⟩ := (driver_total w _).1 r k (Nat.le_add_right _ extra)
    exact ⟨out, ho⟩
  · obtain ⟨out, ho, -⟩ := (driver_total w _).2 r k j (Nat.le_add_right _ extra)
    exact ⟨out, ho⟩
  · intro hlt
    have hlt2 : k.toNat < (shape r.activity.ActivityStages).length := by
      rw [shape_length]; exact hlt
    have h1 := stageMeasure_succ _ _ hlt2
    have h2 := stageMeasure_unfold _ _ hlt2
    refine ⟨by omega, fun i => ?_⟩
    have := stepMeasure_le (shape r.activity.ActivityStages) k.toNat i
    omega
  · intro hlt
    have := stepMeasure_succ _ _ _ hlt
    omega

/-! ## Starting a run -/

theorem ToActivity_cases (w : World) (clock : Nat) (p : PipelineDef) :
    (∃ nodes, w.GetActiveNodesName = Except.ok nodes ∧ nodes ≠ [] ∧
      ToActivity w clock p =
        (({ Id := w.uuid, Pipeline := p, RunSequence := wrap64 (p.RunCount + 1),
            Status := Status.Waiting, StartTS := nowMs w (clock + 1),
            NodeName := nodes.getD (w.Intn (w.UnixNano clock) nodes.length % nodes.length) [],
            ActivityStages := p.Stages.map ToActivityStage }, none), clock + 2)) ∨
    (((∃ m, w.GetActiveNodesName = Except.error m) ∨ w.GetActiveNodesName = Except.ok []) ∧
      ∃ a e c, ToActivity w clock p = ((a, some e), c)) := by
  cases hn : w.GetActiveNodesName with
  | error m =>
    right
    refine ⟨Or.inl ⟨m, rfl⟩, ?_⟩
    unfold ToActivity getNodeNameToRun
    rw [hn]
    exact ⟨_, _, _, rfl⟩
  | ok nodes =>
    by_cases hne : nodes = []
    · right
      subst hne
      refine ⟨Or.inr rfl, ?_⟩
      unfold ToActivity getNodeNameToRun
      rw [hn]
      exact ⟨_, _, _, rfl⟩
    · left
      exact ⟨nodes, rfl, hne, ToActivity_ok w clock p nodes hn hne⟩

theorem getD_mem (nodes : List Str) (i : Nat) (h : i < nodes.length) : nodes.getD i [] ∈ nodes := by
  rw [List.getD_eq_getElem?_getD, List.getElem?_eq_getElem h]
  exact List.getElem_mem h

/-- A call of `initActivityEnvvars` that does not panic writes `EnvVars` only,
and the pipeline has a stage. -/
theorem initActivityEnvvars_some (sv : Services) (a a1 : Activity)
    (h : initActivityEnvvars sv a = some a1) :
    (∃ vars, a1 = { a with EnvVars := vars }) ∧ a.Pipeline.Stages ≠ [] := by
  unfold initActivityEnvvars at h
  simp only [] at h
  cases hs : a.Pipeline.Stages[0]? with
  | none => rw [hs] at h; exact Option.noConfusion h
  | some stage0 =>
    rw [hs] at h
    simp only [] at h
    cases hst : stage0.Steps[0]? with
    | none => rw [hst] at h; exact Option.noConfusion h
    | some step0 =>
      rw [hst] at h
      simp only [Option.some.injEq] at h
      refine ⟨⟨_, h.symm⟩, ?_⟩
      intro he
      rw [he] at hs
      exact Option.noConfusion hs

theorem initActivityEnvvars_no_stage (sv : Services) (a : Activity)
    (h : a.Pipeline.Stages = []) : initActivityEnvvars sv a = none := by
  unfold initActivityEnvvars
  simp only []
  rw [h]
  rfl

/-- The calls of `CreateStage` are calls of `CreateJob`. -/
theorem createSteps_trace (sv : Services) (a : Activity) (k : Nat) (l : List Nat) :
    ∀ trace, ∃ jobs : List Str, (createSteps sv a k l trace).2 = trace ++ jobs.map Action.CreateJob := by
  induction l with
  | nil => intro trace; exact ⟨[], by simp [createSteps]⟩
  | cons i rest ih =>
    intro trace
    rw [createSteps]
    cases generateStepJenkinsProject a k i with
    | none => exact ⟨[], by simp⟩
    | some step =>
      simp only []
      cases getJobName a k i with
      | none => exact ⟨[], by simp⟩
      | some jobName =>
        simp only []
        cases sv.CreateJob trace jobName with
        | some e => exact ⟨[jobName], by simp⟩
        | none =>
          simp only []
          obtain ⟨jobs, hj⟩ := ih (trace ++ [Action.CreateJob jobName])
          exact ⟨jobName :: jobs, by rw [hj]; simp⟩

theorem createStages_trace (sv : Services) (a : Activity) (l : List Nat) :
    ∀ trace, ∃ jobs : List Str, (createStages sv a l trace).2 = trace ++ jobs.map Action.CreateJob := by
  induction l with
  | nil => intro trace; exact ⟨[], by simp [createStages]⟩
  | cons i rest ih =>
    intro trace
    rw [createStages]
    have hc : ∃ jobs : List Str, (CreateStage sv a i trace).2 = trace ++ jobs.map Action.CreateJob := by
      unfold CreateStage
      cases a.ActivityStages[i]? with
      | none => exact ⟨[], by simp⟩
      | some stage => exact createSteps_trace sv a i _ trace
    obtain ⟨jobs, hj⟩ := hc
    cases hr : CreateStage sv a i trace with
    | mk e t =>
      rw [hr] at hj
      simp only [] at hj
      cases e with
      | some err => exact ⟨jobs, hj⟩
      | none =>
        simp only []
        obtain ⟨jobs2, hj2⟩ := ih t
        exact ⟨jobs ++ jobs2, by rw [hj2, hj]; simp⟩

/-- C23, at a failing input: for the pipeline without stages, on a world with
one worker, `RunPipeline` ends in the runtime panic of a slice read out of
range, raised by `p.Stages[0]` in `initActivityEnvvars`, before it reaches its
test `len(p.Stages) == 0`; it is so for every pipeline without stages when a
worker is available. No job is created, nothing is triggered and no activity
is persisted. -/
theorem RunPipeline_no_stage_panics :
    RunPipeline exWorld exServices 0 { Name := "p".toList } "manual".toList =
      some ((none, some indexPanic), []) ∧
    indexPanic ≠ Err.error "no stage in pipeline definition to run!".toList ∧
    (∀ (w : World) (sv : Services) (fuel : Nat) (p : PipelineDef) (triggerType : Str)
        (nodes : List Str),
      w.GetActiveNodesName = Except.ok nodes → nodes ≠ [] → p.Stages = [] →
      RunPipeline w sv fuel p triggerType = some ((none, some indexPanic), [])) := by
  refine ⟨by decide, by decide, ?_⟩
  intro w sv fuel p triggerType nodes hn hne hs
  unfold RunPipeline
  rw [ToActivity_ok w 0 p nodes hn hne]
  simp only []
  rw [initActivityEnvvars_no_stage sv _ hs]

theorem shape_ToActivityStage (stages : List Stage) :
    shape (stages.map ToActivityStage) = stages.map (fun s => s.Steps.length) := by
  unfold shape
  rw [List.map_map]
  apply List.map_congr_left
  intro s _
  simp only [Function.comp, ToActivityStage_eq, List.length_map]

theorem frame_NodeName (a a2 : Activity) (h : frame a2 = frame a) :
    a2.NodeName = a.NodeName := by
  have e := congrArg Activity.NodeName h
  exact e

/-- C24: `RunPipeline` calls `service.CreateActivity` if and only if a worker
was selected, `initActivityEnvvars` and then `CreateStage` for every stage
succeeded and `RunStage(activity, 0)` returned no error; the calls it makes are
calls of `CreateJob`, then the calls of `RunStage`, then at most one call of
`CreateActivity`, which comes last. When no worker is active it returns an
error and makes no call. When it returns an error it returns no activity; the
activity it returns is the one it persisted, and its worker is a member of the
list of active workers. With a bound on the depth of calls of at least the
measure of the stages of the pipeline, `RunPipeline` returns. -/
theorem RunPipeline_persists (w : World) (sv : Services) (p : PipelineDef) (triggerType : Str) :
    (∀ (fuel : Nat) (out : (Option Activity × Option Err) × List Action),
      RunPipeline w sv fuel p triggerType = some out →
      ((∃ a, Action.CreateActivity a ∈ out.2) ↔
        ∃ a0 clock a1 trace r,
          ToActivity w 0 p = ((a0, none), clock) ∧
          initActivityEnvvars sv { a0 with TriggerType := triggerType } = some a1 ∧
          createStages sv a1 (List.range p.Stages.length) [] = (none, trace) ∧
          RunStage w fuel { activity := a1, clock := clock } 0 = some (none, r)) ∧
      (∃ (jobs : List Str) (events : List Event) (persist : List Action),
        out.2 = jobs.map Action.CreateJob ++ events.map Action.drive ++ persist ∧
        (persist = [] ∨ ∃ a, persist = [Action.CreateActivity a])) ∧
      (((∃ m, w.GetActiveNodesName = Except.error m) ∨ w.GetActiveNodesName = Except.ok []) →
        out.1.1 = none ∧ out.1.2 ≠ none ∧ out.2 = []) ∧
      (out.1.2 ≠ none → out.1.1 = none) ∧
      (∀ a, out.1.1 = some a → Action.CreateActivity a ∈ out.2) ∧
      (∀ a, Action.CreateActivity a ∈ out.2 →
        ∃ nodes, w.GetActiveNodesName = Except.ok nodes ∧ a.NodeName ∈ nodes)) ∧
    (∀ extra : Nat, ∃ out,
      RunPipeline w sv (stageMeasure (p.Stages.map (fun s => s.Steps.length)) 0 + extra) p
        triggerType = some out) := by
  rcases ToActivity_cases w 0 p with ⟨nodes, hn, hne, hT⟩ | ⟨hw, a, e, c, hT⟩
  · -- a worker is selected
    have hidx : w.Intn (w.UnixNano 0) nodes.length % nodes.length < nodes.length :=
      Nat.mod_lt _ (List.length_pos.mpr hne)
    have hnode := getD_mem nodes _ hidx
    have hnotw : ¬ ((∃ m, w.GetActiveNodesName = Except.error m) ∨
        w.GetActiveNodesName = Except.ok []) := by
      rw [hn]
      rintro (⟨m, hm⟩ | hm)
      · exact Except.noConfusion hm
      · injection hm with hm; exact hne hm
    have hT2 : ∃ A0, ToActivity w 0 p = ((A0, none), 2) ∧ A0.NodeName ∈ nodes ∧
        A0.Pipeline = p ∧ A0.ActivityStages = p.Stages.map ToActivityStage :=
      ⟨_, hT, hnode, rfl, rfl⟩
    clear hT
    obtain ⟨A0, hT, hA0n, hA0p, hA0s⟩ := hT2
    have hinj : ∀ a0 clock, ToActivity w 0 p = ((a0, none), clock) → a0 = A0 ∧ clock = 2 := by
      intro a0 clock h0
      rw [hT] at h0
      injection h0 with h1 h2
      injection h1 with h3 h4
      exact ⟨h3.symm, h2.symm⟩
    cases hI : initActivityEnvvars sv { A0 with TriggerType := triggerType } with
    | none =>
      have hrun : ∀ fuel, RunPipeline w sv fuel p triggerType =
          some ((none, some indexPanic), []) := by
        intro fuel
        unfold RunPipeline
        rw [hT]
        simp only []
        rw [hI]
      constructor
      · intro fuel out h
        rw [hrun] at h
        injection h with h
        subst h
        refine ⟨?_, ⟨[], [], [], rfl, Or.inl rfl⟩, fun hc => absurd hc hnotw,
          fun _ => rfl, fun a ha => Option.noConfusion ha,
          fun a ha => absurd ha (List.not_mem_nil _)⟩
        constructor
        · rintro ⟨a, ha⟩; exact absurd ha (List.not_mem_nil _)
        · rintro ⟨a0, clock, a1, trace, r, h1, h2, -⟩
          obtain ⟨e0, -⟩ := hinj a0 clock h1
          subst e0
          rw [hI] at h2
          exact Option.noConfusion h2
      · intro extra
        exact ⟨_, hrun _⟩
    | some a1 =>
      obtain ⟨⟨vars, ha1⟩, hstages⟩ := initActivityEnvvars_some sv _ a1 hI
      have hlen : ¬ p.Stages.length = 0 := by
        intro h0
        apply hstages
        show A0.Pipeline.Stages = []
        rw [hA0p]
        exact List.length_eq_zero.mp h0
      have ha1node : a1.NodeName ∈ nodes := by
        rw [ha1]; exact hA0n
      have ha1shape : shape a1.ActivityStages = p.Stages.map (fun s => s.Steps.length) := by
        rw [ha1]
        show shape A0.ActivityStages = _
        rw [hA0s]
        exact shape_ToActivityStage p.Stages
      obtain ⟨jobs, hjobs⟩ := createStages_trace sv a1 (List.range p.Stages.length) []
      rw [List.nil_append] at hjobs
      cases hC : createStages sv a1 (List.range p.Stages.length) [] with
      | mk cerr ctrace =>
        rw [hC] at hjobs
        simp only [] at hjobs
        have hunf : ∀ fuel, RunPipeline w sv fuel p triggerType =
            match cerr with
            | some err => some ((none, some err), ctrace)
            | none =>
              match RunStage w fuel { activity := a1, clock := 2 } 0 with
              | none => none
              | some (some err, r) =>
                some ((none, some err), ctrace ++ r.trace.map Action.drive)
              | some (none, r) =>
                match sv.CreateActivity r.activity with
                | some e =>
                  some ((none, some (Err.error e)),
                    ctrace ++ r.trace.map Action.drive ++ [Action.CreateActivity r.activity])
                | none =>
                  some ((some r.activity, none),
                    ctrace ++ r.trace.map Action.drive ++
                      [Action.CreateActivity r.activity]) := by
          intro fuel
          unfold RunPipeline
          rw [hT]
          simp only []
          rw [hI]
          simp only []
          rw [if_neg hlen]
          simp only [hC]
          cases cerr <;> rfl
        cases cerr with
        | some err =>
          constructor
          · intro fuel out h
            rw [hunf] at h
            simp only [] at h
            injection h with h
            subst h
            refine ⟨?_, ⟨jobs, [], [], by simp [hjobs], Or.inl rfl⟩,
              fun hc => absurd hc hnotw, fun _ => rfl, fun a ha => Option.noConfusion ha, ?_⟩
            · constructor
              · rintro ⟨a, ha⟩
                simp only [hjobs, List.mem_map] at ha
                obtain ⟨j, -, hj⟩ := ha
                exact Action.noConfusion hj
              · rintro ⟨a0, clock, a2, trace, r, h1, h2, h3, -⟩
                obtain ⟨e0, -⟩ := hinj a0 clock h1
                subst e0
                rw [hI] at h2
                injection h2 with h2
                subst h2
                rw [hC] at h3
                injection h3 with h3 h4
                exact Option.noConfusion h3
            · intro a ha
              simp only [hjobs, List.mem_map] at ha
              obtain ⟨j, -, hj⟩ := ha
              exact Action.noConfusion hj
          · intro extra
            exact ⟨_, hunf _⟩
        | none =>
          have hmem : ∀ (r : Run) (a : Activity),
              Action.CreateActivity a ∈
                ctrace ++ r.trace.map Action.drive ++ [Action.CreateActivity r.activity] →
              a = r.activity := by
            intro r a ha
            simp only [hjobs, List.mem_append, List.mem_map, List.mem_singleton] at ha
            rcases ha with (⟨j, -, hj⟩ | ⟨ev, -, hj⟩) | hj
            · exact Action.noConfusion hj
            · exact Action.noConfusion hj
            · injection hj
          have hnomem : ∀ (r : Run) (a : Activity),
              Action.CreateActivity a ∉ ctrace ++ r.trace.map Action.drive := by
            intro r a ha
            simp only [hjobs, List.mem_append, List.mem_map] at ha
            rcases ha with ⟨j, -, hj⟩ | ⟨ev, -, hj⟩
            · exact Action.noConfusion hj
            · exact Action.noConfusion hj
          constructor
          · intro fuel out h
            rw [hunf] at h
            simp only [] at h
            cases hR : RunStage w fuel { activity := a1, clock := 2 } 0 with
            | none => rw [hR] at h; exact Option.noConfusion h
            | some o =>
              obtain ⟨rerr, r⟩ := o
              have hk := (driver_keeps w fuel).1 _ _ _ hR
              have hrnode : r.activity.NodeName ∈ nodes := by
                rw [frame_NodeName _ _ hk.1]; exact ha1node
              rw [hR] at h
              cases rerr with
              | some err =>
                simp only [] at h
                injection h with h
                subst h
                refine ⟨?_, ⟨jobs, r.trace, [], by simp [hjobs], Or.inl rfl⟩,
                  fun hc => absurd hc hnotw, fun _ => rfl,
                  fun a ha => Option.noConfusion ha,
                  fun a ha => absurd ha (hnomem r a)⟩
                constructor
                · rintro ⟨a, ha⟩; exact absurd ha (hnomem r a)
                · rintro ⟨a0, clock, a2, trace, r2, h1, h2, -, h4⟩
                  obtain ⟨e0, e1⟩ := hinj a0 clock h1
                  subst e0
                  subst e1
                  rw [hI] at h2
                  injection h2 with h2
                  subst h2
                  rw [hR] at h4
                  injection h4 with h4
                  injection h4 with h5 h6
                  exact Option.noConfusion h5
              | none =>
                simp only [] at h
                have hiff : (∃ a0 clock a1 trace r,
                    ToActivity w 0 p = ((a0, none), clock) ∧
                    initActivityEnvvars sv { a0 with TriggerType := triggerType } = some a1 ∧
                    createStages sv a1 (List.range p.Stages.length) [] = (none, trace) ∧
                    RunStage w fuel { activity := a1, clock := clock } 0 = some (none, r)) :=
                  ⟨A0, 2, a1, ctrace, r, hT, hI, hC, hR⟩
                cases hP : sv.CreateActivity r.activity with
                | some e =>
                  rw [hP] at h
                  simp only [] at h
                  injection h with h
                  subst h
                  refine ⟨⟨fun _ => hiff, fun _ => ⟨r.activity, by simp⟩⟩,
                    ⟨jobs, r.trace, [Action.CreateActivity r.activity], by simp [hjobs],
                      Or.inr ⟨_, rfl⟩⟩,
                    fun hc => absurd hc hnotw, fun _ => rfl,
                    fun a ha => Option.noConfusion ha, ?_⟩
                  intro a ha
                  rw [hmem r a ha]
                  exact ⟨nodes, hn, hrnode⟩
                | none =>
                  rw [hP] at h
                  simp only [] at h
                  injection h with h
                  subst h
                  refine ⟨⟨fun _ => hiff, fun _ => ⟨r.activity, by simp⟩⟩,
                    ⟨jobs, r.trace, [Action.CreateActivity r.activity], by simp [hjobs],
                      Or.inr ⟨_, rfl⟩⟩,
                    fun hc => absurd hc hnotw, fun hc => absurd rfl hc, ?_, ?_⟩
                  · intro a ha
                    injection ha with ha
                    rw [← ha]
                    simp
                  · intro a ha
                    rw [hmem r a ha]
                    exact ⟨nodes, hn, hrnode⟩
          · intro extra
            obtain ⟨o, hR, -⟩ := (driver_total w
              (stageMeasure (p.Stages.map (fun s => s.Steps.length)) 0 + extra)).1
              { activity := a1, clock := 2 } 0 (by
                rw [ha1shape]
                exact Nat.le_add_right _ extra)
            rw [hunf]
            simp only []
            rw [hR]
            obtain ⟨rerr, r⟩ := o
            cases rerr with
            | some err => exact ⟨_, rfl⟩
            | none =>
              simp only []
              cases sv.CreateActivity r.activity with
              | some e => exact ⟨_, rfl⟩
              | none => exact ⟨_, rfl⟩
  · -- no worker
    have hrun : ∀ fuel, RunPipeline w sv fuel p triggerType = some ((none, some e), []) := by
      intro fuel
      unfold RunPipeline
      rw [hT]
    constructor
    · intro fuel out h
      rw [hrun] at h
      injection h with h
      subst h
      refine ⟨?_, ⟨[], [], [], rfl, Or.inl rfl⟩,
        fun _ => ⟨rfl, fun hc => Option.noConfusion hc, rfl⟩,
        fun _ => rfl, fun a ha => Option.noConfusion ha,
        fun a ha => absurd ha (List.not_mem_nil _)⟩
      constructor
      · rintro ⟨a, ha⟩; exact absurd ha (List.not_mem_nil _)
      · rintro ⟨a0, clock, a1, trace, r, h1, -⟩
        rw [hT] at h1
        injection h1 with h1 h2
        injection h1 with h3 h4
        exact Option.noConfusion h4
    · intro extra
      exact ⟨_, hrun _⟩

/-- Witness of C24: on the example world, where every call succeeds, the run of
the one-step pipeline makes three calls, returns no error, and returns the
activity it has persisted, whose worker is the active one. -/
theorem RunPipeline_persists_witness :
    (RunPipeline exWorld exServices 4 exPipeline "manual".toList).map
        (fun out => (out.1.2, out.2.length)) = some (none, 3) ∧
    ∃ out a, RunPipeline exWorld exServices 4 exPipeline "manual".toList = some out ∧
      out.1.1 = some a ∧ Action.CreateActivity a ∈ out.2 ∧ a.NodeName ∈ ["node".toList] := by
  refine ⟨by decide, ?_⟩
  obtain ⟨out, ho⟩ := (RunPipeline_persists exWorld exServices exPipeline "manual".toList).2 0
  have ho4 : RunPipeline exWorld exServices 4 exPipeline "manual".toList = some out := ho
  have hp := (RunPipeline_persists exWorld exServices exPipeline "manual".toList).1 4 out ho4
  have hc : (RunPipeline exWorld exServices 4 exPipeline "manual".toList).map
      (fun out => out.1.1.isSome) = some true := by decide
  rw [ho4] at hc
  simp only [Option.map_some', Option.some.injEq] at hc
  obtain ⟨a, ha⟩ := Option.isSome_iff_exists.mp hc
  have hmem := hp.2.2.2.2.1 a ha
  obtain ⟨nodes, hn, hnode⟩ := hp.2.2.2.2.2 a hmem
  have e : nodes = ["node".toList] := by
    have h2 : Except.ok (ε := Str) ["node".toList] = Except.ok nodes := hn
    injection h2 with h2
    exact h2.symm
  rw [e] at hnode
  exact ⟨out, a, ho4, ha, hmem, hnode⟩

/-! ## Running an activity again -/

theorem frame_RunSequence (a a2 : Activity) (h : frame a2 = frame a) :
    a2.RunSequence = a.RunSequence ∧ a2.Pipeline = a.Pipeline := by
  have e1 := congrArg Activity.RunSequence h
  have e2 := congrArg Activity.Pipeline h
  exact ⟨e1, e2⟩

/-- C25, as the code has it: `RerunActivity` assigns to `RunSequence` the
`RunCount` of the pipeline snapshot embedded in the activity plus 1 (in `int`),
and does not change that snapshot. After a rerun that returns no error the
activity has that `RunSequence`; for an activity created by `ToActivity` it is
the `RunSequence` the activity already had, so the run sequence is not
bumped. -/
theorem RerunActivity_sequence (b : Jenkins) (w : World) (sv : Services) (fuel : Nat)
    (a : Activity) (out : (Option Err × Activity) × List Action)
    (h : RerunActivity b w sv fuel a = some out) (hok : out.1.1 = none) :
    out.1.2.RunSequence = wrap64 (a.Pipeline.RunCount + 1) ∧
    out.1.2.Pipeline = a.Pipeline ∧
    (∀ (w0 : World) (c0 c1 : Nat) (p : PipelineDef),
      ToActivity w0 c0 p = ((a, none), c1) →
      a.Pipeline = p ∧ a.RunSequence = wrap64 (p.RunCount + 1) ∧
      out.1.2.RunSequence = a.RunSequence) := by
  have hmain : out.1.2.RunSequence = wrap64 (a.Pipeline.RunCount + 1) ∧
      out.1.2.Pipeline = a.Pipeline := by
    unfold RerunActivity at h
    cases hj : getJobName a 0 0 with
    | none =>
      rw [hj] at h
      simp only [Option.some.injEq] at h
      rw [← h] at hok
      exact Option.noConfusion hok
    | some jobName =>
      rw [hj] at h
      simp only [] at h
      generalize (match b.GetJobInfo jobName with
        | Except.error _ => createStages sv a (List.range a.Pipeline.Stages.length) []
        | Except.ok _ => DeleteFormerBuild sv a []) = prepared at h
      obtain ⟨perr, ptrace⟩ := prepared
      cases perr with
      | some err =>
        simp only [Option.some.injEq] at h
        rw [← h] at hok
        exact Option.noConfusion hok
      | none =>
        simp only [] at h
        cases hg : getNodeNameToRun w 0 with
        | mk ne clock =>
          obtain ⟨nodeName, nerr⟩ := ne
          rw [hg] at h
          cases nerr with
          | some err =>
            simp only [Option.some.injEq] at h
            rw [← h] at hok
            exact Option.noConfusion hok
          | none =>
            simp only [] at h
            generalize UpdateJobConf sv { a with NodeName := nodeName } ptrace = upd at h
            obtain ⟨uerr, utrace⟩ := upd
            have key : ∀ t : List Action,
                (match initActivityEnvvars sv
                    { a with
                      NodeName := nodeName,
                      RunSequence := wrap64 (a.Pipeline.RunCount + 1),
                      StartTS := nowMs w clock } with
                  | none =>
                    some ((some indexPanic,
                      { a with
                        NodeName := nodeName,
                        RunSequence := wrap64 (a.Pipeline.RunCount + 1),
                        StartTS := nowMs w clock }), t)
                  | some a =>
                    match RunStage w fuel { activity := a, clock := clock + 1 } 0 with
                    | none => none
                    | some (err, r) =>
                      some ((err, r.activity), t ++ r.trace.map Action.drive)) = some out →
                out.1.2.RunSequence = wrap64 (a.Pipeline.RunCount + 1) ∧
                  out.1.2.Pipeline = a.Pipeline := by
              intro t ht
              cases hi : initActivityEnvvars sv
                  { a with
                    NodeName := nodeName,
                    RunSequence := wrap64 (a.Pipeline.RunCount + 1),
                    StartTS := nowMs w clock } with
              | none =>
                rw [hi] at ht
                simp only [Option.some.injEq] at ht
                rw [← ht] at hok
                exact Option.noConfusion hok
              | some a1 =>
                obtain ⟨⟨vars, ha1⟩, -⟩ := initActivityEnvvars_some sv _ a1 hi
                rw [hi] at ht
                simp only [] at ht
                cases hR : RunStage w fuel { activity := a1, clock := clock + 1 } 0 with
                | none => rw [hR] at ht; exact Option.noConfusion ht
                | some o =>
                  obtain ⟨rerr, r⟩ := o
                  rw [hR] at ht
                  simp only [Option.some.injEq] at ht
                  have hk := (driver_keeps w fuel).1 _ _ _ hR
                  obtain ⟨e1, e2⟩ := frame_RunSequence _ _ hk.1
                  rw [← ht]
                  simp only []
                  rw [e1, e2, ha1]
                  exact ⟨rfl, rfl⟩
            cases uerr with
            | none => exact key utrace h
            | some ue =>
              cases ue with
              | error m => exact key utrace h
              | panic m =>
                simp only [Option.some.injEq] at h
                rw [← h] at hok
                exact Option.noConfusion hok
  refine ⟨hmain.1, hmain.2, ?_⟩
  intro w0 c0 c1 p hT
  rcases ToActivity_cases w0 c0 p with ⟨nodes, -, -, hT2⟩ | ⟨-, a2, e, c, hT2⟩
  · rw [hT2] at hT
    injection hT with hT3 hT4
    injection hT3 with hT5 hT6
    have hp : a.Pipeline = p := by rw [← hT5]
    have hs : a.RunSequence = wrap64 (p.RunCount + 1) := by rw [← hT5]
    exact ⟨hp, hs, by rw [hmain.1, hp, hs]⟩
  · rw [hT2] at hT
    injection hT with hT3 hT4
    injection hT3 with hT5 hT6
    exact Option.noConfusion hT6

/-- Witness of C25: the activity that `ToActivity` creates from the example
pipeline, whose run count is 4, has the run sequence 5, and is rerun without
error on the example world; afterwards its run sequence is 5. -/
theorem RerunActivity_sequence_witness :
    ∃ out, RerunActivity (exJenkins []) exWorld exServices 4
        (ToActivity exWorld 0 exPipeline).1.1 = some out ∧
      out.1.1 = none ∧ out.1.2.RunSequence = 5 ∧
      (ToActivity exWorld 0 exPipeline).1.1.RunSequence = 5 := by
  have hs : (RerunActivity (exJenkins []) exWorld exServices 4
      (ToActivity exWorld 0 exPipeline).1.1).map (fun out => out.1.1) = some none := by
    decide
  cases hr : RerunActivity (exJenkins []) exWorld exServices 4
      (ToActivity exWorld 0 exPipeline).1.1 with
  | none => rw [hr] at hs; exact Option.noConfusion hs
  | some out =>
    rw [hr] at hs
    simp only [Option.map_some', Option.some.injEq] at hs
    have h := RerunActivity_sequence (exJenkins []) exWorld exServices 4
      (ToActivity exWorld 0 exPipeline).1.1 out hr hs
    exact ⟨out, rfl, hs, h.1.trans (by decide), by decide⟩

/-- Counterexample to C25 as stated: the activity created by `ToActivity` from
the example pipeline has the run sequence 5; it is rerun without error and
still has the run sequence 5, which is not strictly greater. -/
theorem RerunActivity_sequence_counterexample :
    (ToActivity exWorld 0 exPipeline).1.2 = none ∧
    (ToActivity exWorld 0 exPipeline).1.1.RunSequence = 5 ∧
    (RerunActivity (exJenkins []) exWorld exServices 4
        (ToActivity exWorld 0 exPipeline).1.1).map
      (fun out => (out.1.1, out.1.2.RunSequence)) = some (none, 5) := by
  decide

end Pipeline
